import Mathlib

/-!
# The mpv configuration-file loader (`options/parse_configfile.c`)

A shallow embedding of `m_config_parse_config_file` and theorems about it.

Conventions of the embedding.

* A C `char` is a `Nat` (its value as `unsigned char`); a C string or a
  `bstr` is a `List Nat`.
* The cursor `line + line_pos` into the line buffer is the list of the bytes
  of the buffer from index `line_pos` on.  The empty list is the position one
  past the end of the allocation: reading there is undefined behaviour, which
  the embedding reports as `none`.
* The local arrays `opt` and `param` are the lists of the bytes written so
  far, so `opt_pos` and `param_pos` are their lengths.
* The collaborators that live outside this file (profile registry, option
  registry, the two setters) are parameters; every call to one of them, every
  diagnostic and every call of `fopen` and `fgets` is recorded in a trace.
-/

namespace ParseConfig

/-! ## Constants (lines 36, 47-49) -/

/-- Line 36, `MAX_RECURSION_DEPTH`. -/
def MAX_RECURSION_DEPTH : Int := 8

/-- Line 47, `MAX_LINE_LEN`. -/
def MAX_LINE_LEN : Nat := 10000

/-- Line 48, `MAX_OPT_LEN`. -/
def MAX_OPT_LEN : Nat := 1000

/-- Line 49, `MAX_PARAM_LEN`. -/
def MAX_PARAM_LEN : Nat := 1500

/-- The least value of a C `int` (32 bits). -/
def INT_MIN : Int := -2147483648

/-- The greatest value of a C `unsigned long` (64 bits, LP64). -/
def ULONG_MAX : Nat := 18446744073709551615

/-! ## Character classification (`misc/ctype.h`, a parameter) -/

/-- The two predicates of `misc/ctype.h` the loader uses, `mp_isprint` and
`mp_isspace`.  That header is not part of the sources at hand, so the
embedding takes the pair as a parameter. -/
structure CType where
  /-- The predicate `mp_isprint`. -/
  isprint : Nat → Bool
  /-- The predicate `mp_isspace`. -/
  isspace : Nat → Bool

/-- Modelled from the spec: `misc/ctype.h` is missing; the spec speaks of
"printable" characters and of "horizontal/vertical whitespace".  This instance
takes the six C whitespace characters (space, `\t`, `\n`, `\v`, `\f`, `\r`) as
whitespace and every byte from 32 on as printable.  It is used for concrete
scenarios only; the general theorems hold for every classification that
satisfies their hypotheses. -/
def mpCtype : CType where
  isprint := fun c => decide (32 ≤ c)
  isspace := fun c => c == 32 || c == 12 || c == 10 || c == 13 || c == 9 || c == 11

/-! ## C strings -/

/-- The bytes of a C string stored at the start of `s`: everything before the
first NUL (`bstr0` of a NUL-terminated array). -/
def cstr : List Nat → List Nat
  | [] => []
  | c :: cs => if c = 0 then [] else c :: cstr cs

/-- The function `strlen`: the number of bytes before the first NUL, `none`
when the buffer ends before a NUL is found (a read out of bounds). -/
def strlen : List Nat → Option Nat
  | [] => none
  | c :: cs => if c = 0 then some 0 else (strlen cs).map (· + 1)

/-- The bytes of a string literal. -/
def bytes (s : String) : List Nat := s.toList.map Char.toNat

/-! ## `strtoul` (C library) -/

/-- The function `isspace` of the C library in the "C" locale. -/
def c_isspace (c : Nat) : Bool := c == 32 || (decide (9 ≤ c) && decide (c ≤ 13))

/-- A decimal digit. -/
def isDigit (c : Nat) : Bool := decide (48 ≤ c) && decide (c ≤ 57)

/-- Leading whitespace skipped by `strtoul`. -/
def skipCSpace : List Nat → List Nat
  | [] => []
  | c :: cs => if c_isspace c then skipCSpace cs else c :: cs

/-- The digit loop of `strtoul`: accumulates the decimal value and returns it
with the first byte that is no digit; `none` if the buffer ends first. -/
def strtoulDigits : List Nat → Nat → Option (Nat × List Nat)
  | [], _ => none
  | c :: cs, acc =>
    if isDigit c then strtoulDigits cs (acc * 10 + (c - 48)) else some (acc, c :: cs)

/-- The call `strtoul(start, &end, 10)` of the C library: optional whitespace,
an optional sign, decimal digits.  The result is the value, whether a
conversion was done (`start != end`), and `end`.  Without digits `end` is
`start` and the value is 0; a value that does not fit is `ULONG_MAX`; a
leading `-` negates in `unsigned long`.  `none` is a read out of bounds. -/
def strtoul (start : List Nat) : Option (Nat × Bool × List Nat) :=
  match skipCSpace start with
  | [] => none
  | c :: cs =>
    let body := if c = 45 ∨ c = 43 then cs else c :: cs
    match body with
    | [] => none
    | d :: _ =>
      if isDigit d then
        match strtoulDigits body 0 with
        | none => none
        | some (v, e) =>
          some (if ULONG_MAX < v then ULONG_MAX
                else if c = 45 then (ULONG_MAX + 1 - v) % (ULONG_MAX + 1) else v, true, e)
      else some (0, false, start)

/-! ## The lexer (lines 93-218) -/

/-- The three `while (mp_isspace(line[line_pos])) ++line_pos;` loops (lines
101, 139, 151, 208).  At the end of the buffer the loop is left to the caller,
whose next read is out of bounds. -/
def skipSpace (ct : CType) : List Nat → List Nat
  | [] => []
  | c :: cs => if ct.isspace c then skipSpace ct cs else c :: cs

/-- Lines 97-98: `strncmp(line, "\xEF\xBB\xBF", 3) == 0` skips three bytes.
`strncmp` stops at the first difference; `none` when it would read past the
end of the buffer. -/
def skipBOM : List Nat → Option (List Nat)
  | [] => none
  | c0 :: r0 =>
    if c0 = 0xEF then
      match r0 with
      | [] => none
      | c1 :: r1 =>
        if c1 = 0xBB then
          match r1 with
          | [] => none
          | c2 :: r2 => if c2 = 0xBF then some r2 else some (c0 :: c1 :: c2 :: r2)
        else some (c0 :: c1 :: r1)
    else some (c0 :: r0)

/-- The result of one of the three copying loops. -/
inductive Scan where
  /-- The length check inside the loop fired. -/
  | tooLong
  /-- The loop ended: the bytes copied and the cursor. -/
  | done (copied : List Nat) (rest : List Nat)
  deriving DecidableEq, Repr

/-- The condition of the name loop (lines 109-112). -/
def isOptChar (ct : CType) (c : Nat) : Bool :=
  ct.isprint c && c != 32 && c != 35 && c != 61

/-- Lines 109-121: the name loop; `opt` holds the bytes written so far. -/
def readOpt (ct : CType) : List Nat → List Nat → Option Scan
  | [], _ => none
  | c :: cs, opt =>
    if isOptChar ct c then
      if MAX_OPT_LEN ≤ (opt ++ [c]).length then some Scan.tooLong
      else readOpt ct cs (opt ++ [c])
    else some (Scan.done opt (c :: cs))

/-- Lines 158-168: the loop of a quoted value, up to and including the
closing quote `q`; `param` holds the bytes written so far. -/
def readQuoted (q : Nat) : List Nat → List Nat → Option Scan
  | [], _ => none
  | c :: cs, param =>
    if c ≠ q then
      if MAX_PARAM_LEN ≤ (param ++ [c]).length then some Scan.tooLong
      else readQuoted q cs (param ++ [c])
    else some (Scan.done param cs)

/-- The condition of the bare-value loop (lines 193-195). -/
def isBareChar (ct : CType) (c : Nat) : Bool :=
  ct.isprint c && !ct.isspace c && c != 35

/-- Lines 193-204: the loop of a bare value. -/
def readBare (ct : CType) : List Nat → List Nat → Option Scan
  | [], _ => none
  | c :: cs, param =>
    if isBareChar ct c then
      if MAX_PARAM_LEN ≤ (param ++ [c]).length then some Scan.tooLong
      else readBare ct cs (param ++ [c])
    else some (Scan.done param (c :: cs))

/-- The outcome of reading a value (lines 150-209). -/
inductive ParamScan where
  /-- Lines 160-166, "option ... has a too long parameter". -/
  | quotedTooLong
  /-- Lines 177-185, "bogus % length". -/
  | bogusLength
  /-- Lines 197-203, "too long parameter". -/
  | bareTooLong
  /-- Label `param_done` reached: the value and the cursor. -/
  | done (param : List Nat) (rest : List Nat)
  deriving DecidableEq, Repr

/-- Lines 150-204, the value after `=`, up to the label `param_done`. -/
def readParam (ct : CType) (afterEq : List Nat) : Option ParamScan :=
  match skipSpace ct afterEq with
  | [] => none
  | c :: cs =>
    let bare : Option ParamScan :=
      match readBare ct (c :: cs) [] with
      | none => none
      | some Scan.tooLong => some ParamScan.bareTooLong
      | some (Scan.done p r) => some (ParamScan.done p r)
    if c = 34 ∨ c = 39 then
      match readQuoted c cs [] with
      | none => none
      | some Scan.tooLong => some ParamScan.quotedTooLong
      | some (Scan.done p r) => some (ParamScan.done p r)
    else if c = 37 then
      match strtoul cs with
      | none => none
      | some (_, false, _) => bare
      | some (_, true, []) => none
      | some (len, true, e0 :: e1) =>
        if e0 = 37 then
          if MAX_PARAM_LEN - 1 ≤ len then some ParamScan.bogusLength
          else
            match strlen e1 with
            | none => none
            | some n =>
              if n < len then some ParamScan.bogusLength
              else some (ParamScan.done ((cstr e1).take len) (e1.drop len))
        else bare
    else bare

/-- What the lexer makes of one line. -/
inductive LexResult where
  /-- Lines 105-106: blank line or comment. -/
  | blank
  /-- Lines 114-120: "option name too long". -/
  | optTooLong
  /-- Lines 122-128: "parse error". -/
  | parseError
  /-- Lines 132-136: a profile declaration; `opt` is the whole token. -/
  | header (opt : List Nat)
  /-- Lines 160-166. -/
  | quotedTooLong
  /-- Lines 177-185. -/
  | bogusLength
  /-- Lines 197-203. -/
  | bareTooLong
  /-- Line 220 reached with these `opt`, `param` (as written, before the
  terminating NUL), `param_set`, and whether "extra characters" was reported
  (lines 214-218). -/
  | directive (opt param : List Nat) (param_set : Bool) (extra : Bool)
  deriving DecidableEq, Repr

/-- Line 132: `opt_pos > 2 && opt[0] == '[' && opt[opt_pos - 1] == ']'`. -/
def isHeader (opt : List Nat) : Bool :=
  decide (2 < opt.length) && opt.head? == some 91 && opt.getLast? == some 93

/-- Lines 211-218: after the value, `extra` is whether the next byte is
neither NUL nor `#`. -/
def lexEnd (opt param : List Nat) (param_set : Bool) : List Nat → Option LexResult
  | [] => none
  | c :: _ => some (LexResult.directive opt param param_set (decide (c ≠ 0 ∧ c ≠ 35)))

/-- Lines 138-218: from the end of the name to the end of the line. -/
def lexAfterOpt (ct : CType) (opt : List Nat) (rest : List Nat) : Option LexResult :=
  match skipSpace ct rest with
  | [] => none
  | c :: cs =>
    if c = 61 then
      match readParam ct cs with
      | none => none
      | some ParamScan.quotedTooLong => some LexResult.quotedTooLong
      | some ParamScan.bogusLength => some LexResult.bogusLength
      | some ParamScan.bareTooLong => some LexResult.bareTooLong
      | some (ParamScan.done param r) => lexEnd opt param true (skipSpace ct r)
    else lexEnd opt [] false (c :: cs)

/-- Lines 94-218: the lexer on the line buffer. -/
def lexLine (ct : CType) (line : List Nat) : Option LexResult :=
  match skipBOM line with
  | none => none
  | some s0 =>
    match skipSpace ct s0 with
    | [] => none
    | c :: cs =>
      if c = 0 ∨ c = 35 then some LexResult.blank
      else
        match readOpt ct (c :: cs) [] with
        | none => none
        | some Scan.tooLong => some LexResult.optTooLong
        | some (Scan.done opt rest) =>
          if opt.length = 0 then some LexResult.parseError
          else if isHeader opt then some (LexResult.header opt)
          else lexAfterOpt ct opt rest

/-! ## Collaborators, diagnostics and the trace -/

/-- The diagnostics printed after `PRINT_LINENUM`. -/
inductive LineDiag where
  /-- Line 116, "option name too long". -/
  | optTooLong
  /-- Line 124, "parse error". -/
  | parseError
  /-- Line 162, "option ... has a too long parameter". -/
  | quotedTooLong
  /-- Line 181, "bogus % length". -/
  | bogusLength
  /-- Line 199, "too long parameter". -/
  | bareTooLong
  /-- Line 216, "extra characters". -/
  | extraChars
  /-- Line 234, "error parsing option ...: missing parameter". -/
  | missingParam
  /-- Line 247, "setting option ... failed". -/
  | setFailed
  deriving DecidableEq, Repr

/-- The diagnostics the lexer prints; each of them comes with `ret = -1`. -/
def LineDiag.isLex : LineDiag → Bool
  | LineDiag.missingParam => false
  | LineDiag.setFailed => false
  | _ => true

/-- Everything the loader does that is visible outside it. -/
inductive Event where
  /-- The call `m_config_add_profile(config, name)`; `none` is a NULL name. -/
  | add_profile (name : Option (List Nat))
  /-- The call `m_profile_set_desc(profile, desc)`. -/
  | set_desc (profile : Nat) (desc : List Nat)
  /-- The call `m_config_option_requires_param(config, name)`. -/
  | requires_param (name : List Nat)
  /-- The call `m_config_set_profile_option(config, profile, name, value)`. -/
  | set_profile_option (profile : Nat) (name value : List Nat)
  /-- The call `m_config_set_option_ext(config, name, value, flags)`. -/
  | set_option_ext (name value : List Nat) (flags : Nat)
  /-- A diagnostic with `PRINT_LINENUM`. -/
  | lineErr (line_num : Nat) (d : LineDiag)
  /-- Line 69, "Maximum 'include' nesting depth exceeded." -/
  | depthExceeded
  /-- Line 89, "too many errors". -/
  | tooManyErrors
  /-- Line 262, "Error loading config file". -/
  | errorLoading
  /-- Line 81, the call of `fopen`. -/
  | fopen
  /-- Line 87, a call of `fgets`. -/
  | fgets
  deriving DecidableEq, Repr

/-- A call of the option registry or of one of the two setters. -/
def Event.isOptionCall : Event → Bool
  | Event.requires_param _ => true
  | Event.set_profile_option _ _ _ => true
  | Event.set_option_ext _ _ _ => true
  | _ => false

/-- A call of one of the two setters. -/
def Event.isSetter : Event → Bool
  | Event.set_profile_option _ _ _ => true
  | Event.set_option_ext _ _ _ => true
  | _ => false

/-- A call of any collaborator. -/
def Event.isCall : Event → Bool
  | Event.add_profile _ => true
  | Event.set_desc _ _ => true
  | Event.requires_param _ => true
  | Event.set_profile_option _ _ _ => true
  | Event.set_option_ext _ _ _ => true
  | _ => false

/-- The collaborators of `m_config.c` and `m_option.h`, which are not part of
the sources at hand.  Each is a function of the events so far (most recent
first), which stands for the state of `config`, and of its arguments.  A
profile pointer is a `Nat`, 0 being NULL. -/
structure Env where
  /-- The result of `m_config_add_profile`. -/
  add_profile : List Event → Option (List Nat) → Nat
  /-- The result of `m_config_option_requires_param`. -/
  requires_param : List Event → List Nat → Int
  /-- The result of `m_config_set_profile_option`. -/
  set_profile_option : List Event → Nat → List Nat → List Nat → Int
  /-- The result of `m_config_set_option_ext`. -/
  set_option_ext : List Event → List Nat → List Nat → Nat → Int
  /-- The flag bit `M_SETOPT_FROM_CONFIG_FILE`. -/
  M_SETOPT_FROM_CONFIG_FILE : Nat

/-! ## The loop body (lines 93-253) -/

/-- The local variables that live across lines, the line buffer, and the
trace (most recent event first). -/
structure State where
  /-- The variable `ret`. -/
  ret : Int
  /-- The variable `errors`. -/
  errors : Nat
  /-- The variable `line_num`. -/
  line_num : Nat
  /-- The variable `profile`, 0 being NULL. -/
  profile : Nat
  /-- The content of the buffer `line`. -/
  line : List Nat
  /-- The events so far, most recent first. -/
  trace : List Event
  deriving DecidableEq, Repr

/-- The five places `PRINT_LINENUM; MP_ERR(...); errors++; ret = -1;` followed
by `goto nextline` or `continue` (lines 115-119, 123-127, 161-165, 180-184,
198-202). -/
def State.lexError (st : State) (d : LineDiag) : State :=
  { st with ret := -1, errors := st.errors + 1,
            trace := Event.lineErr st.line_num d :: st.trace }

/-- Lines 223-224: `if (bopt.len >= 3) bstr_eatstart0(&bopt, "--");`. -/
def normalize (bopt : List Nat) : List Nat :=
  if 3 ≤ bopt.length then
    match bopt with
    | 45 :: 45 :: r => r
    | _ => bopt
  else bopt

/-- Lines 213-251: from the "extra characters" check to the setter. -/
def dispatch (env : Env) (flags : Nat) (st : State)
    (opt param : List Nat) (param_set extra : Bool) : State :=
  let st1 : State :=
    if extra then
      { st with ret := -1, trace := Event.lineErr st.line_num LineDiag.extraChars :: st.trace }
    else st
  let bopt := normalize (cstr opt)
  let bparam := cstr param
  if st1.profile ≠ 0 ∧ bopt = bytes "profile-desc" then
    { st1 with trace := Event.set_desc st1.profile bparam :: st1.trace }
  else
    let need_param := decide (0 < env.requires_param st1.trace bopt)
    let t2 := Event.requires_param bopt :: st1.trace
    if need_param && !param_set then
      { st1 with trace := Event.lineErr st1.line_num LineDiag.missingParam :: t2 }
    else
      let tmp : Int :=
        if st1.profile ≠ 0 then env.set_profile_option t2 st1.profile bopt bparam
        else env.set_option_ext t2 bopt bparam flags
      let t3 : List Event :=
        (if st1.profile ≠ 0 then Event.set_profile_option st1.profile bopt bparam
         else Event.set_option_ext bopt bparam flags) :: t2
      if tmp < 0 then
        { st1 with trace := Event.lineErr st1.line_num LineDiag.setFailed :: t3 }
      else { st1 with trace := t3 }

/-- Lines 93-253: one turn of the loop on the line in the buffer.  `flags` is
the variable of that name after line 64.  `none` is a read out of bounds. -/
def processLine (ct : CType) (env : Env) (flags : Nat) (st0 : State) : Option State :=
  let st : State := { st0 with line_num := st0.line_num + 1 }
  match lexLine ct st.line with
  | none => none
  | some LexResult.blank => some st
  | some LexResult.optTooLong => some (st.lexError LineDiag.optTooLong)
  | some LexResult.parseError => some (st.lexError LineDiag.parseError)
  | some (LexResult.header opt) =>
    let name := cstr (opt.dropLast.drop 1)
    some { st with profile := env.add_profile st.trace (some name),
                   trace := Event.add_profile (some name) :: st.trace }
  | some LexResult.quotedTooLong => some (st.lexError LineDiag.quotedTooLong)
  | some LexResult.bogusLength => some (st.lexError LineDiag.bogusLength)
  | some LexResult.bareTooLong => some (st.lexError LineDiag.bareTooLong)
  | some (LexResult.directive opt param param_set extra) =>
    some (dispatch env flags st opt param param_set extra)

/-! ## The line source (`fgets`) and the loop (lines 87-254) -/

/-- The bytes one call `fgets(line, size, fp)` takes from the stream when
`n = size - 1` bytes fit: up to and including the first newline. -/
def fgetsChunk : Nat → List Nat → List Nat × List Nat
  | 0, s => ([], s)
  | _, [] => ([], [])
  | n + 1, c :: cs =>
    if c = 10 then ([c], cs)
    else ((c :: (fgetsChunk n cs).1), (fgetsChunk n cs).2)

/-- The lines that successive calls `fgets(line, MAX_LINE_LEN, fp)` deliver
for a stream with the content `s`.  Every call takes at least one byte, so
`fuel = s.length` calls are enough. -/
def fileLines : Nat → List Nat → List (List Nat)
  | 0, _ => []
  | _, [] => []
  | fuel + 1, c :: cs =>
    (fgetsChunk (MAX_LINE_LEN - 1) (c :: cs)).1 ::
      fileLines fuel (fgetsChunk (MAX_LINE_LEN - 1) (c :: cs)).2

/-- What `fgets` leaves in the buffer: the chunk, a NUL, and behind it the
bytes that were there before. -/
def fgetsWrite (chunk : List Nat) (line : List Nat) : List Nat :=
  chunk ++ 0 :: line.drop (chunk.length + 1)

/-- Lines 87-254: the loop, over the lines that `fgets` delivers.  The state
returned is the one at the label `out`. -/
def loop (ct : CType) (env : Env) (flags : Nat) : List (List Nat) → State → Option State
  | [], st => some { st with trace := Event.fgets :: st.trace }
  | l :: ls, st =>
    let st1 : State :=
      { st with line := fgetsWrite l st.line, trace := Event.fgets :: st.trace }
    if 16 ≤ st1.errors then
      some { st1 with trace := Event.tooManyErrors :: st1.trace }
    else
      match processLine ct env flags st1 with
      | none => none
      | some st2 => loop ct env flags ls st2

/-! ## `m_config_parse_config_file` (lines 43-266) -/

/-- What the caller sees of a call. -/
structure Result where
  /-- The value returned. -/
  ret : Int
  /-- The field `config->recursion_depth` on return. -/
  recursion_depth : Int
  /-- The events of the call, most recent first. -/
  trace : List Event
  deriving DecidableEq, Repr

/-- Lines 256-265, the label `out`: the counter is decremented (signed
overflow is undefined, `none`) and a negative `ret` is reported. -/
def finish (recursion_depth : Int) (ret : Int) (trace : List Event) : Option Result :=
  if recursion_depth - 1 < INT_MIN then none
  else
    some { ret := ret, recursion_depth := recursion_depth - 1,
           trace := if ret < 0 then Event.errorLoading :: trace else trace }

/-- The function `m_config_parse_config_file`.

* `recursion_depth` is `config->recursion_depth` on entry;
* `malloc` is what `malloc(MAX_LINE_LEN + 1)` gives when it is called: `none`
  for NULL, else the content of the fresh buffer;
* `file` is what `fopen(conffile, "r")` gives when it is called: `none` for
  NULL, else the content of the file;
* `initial_section` is `none` for NULL.

The result is `none` when the behaviour is undefined. -/
def m_config_parse_config_file (ct : CType) (env : Env) (recursion_depth : Int)
    (malloc : Option (List Nat)) (file : Option (List Nat))
    (initial_section : Option (List Nat)) (flags : Nat) : Option Result :=
  let profile := env.add_profile [] initial_section
  let t0 : List Event := [Event.add_profile initial_section]
  let flags1 := flags ||| env.M_SETOPT_FROM_CONFIG_FILE
  if MAX_RECURSION_DEPTH < recursion_depth then
    finish recursion_depth (-1) (Event.depthExceeded :: t0)
  else
    match malloc with
    | none => finish recursion_depth (-1) t0
    | some line =>
      match file with
      | none => finish recursion_depth 0 (Event.fopen :: t0)
      | some content =>
        let st : State :=
          { ret := 1, errors := 0, line_num := 0, profile := profile, line := line,
            trace := Event.fopen :: t0 }
        match loop ct env flags1 (fileLines content.length content) st with
        | none => none
        | some st1 => finish recursion_depth st1.ret st1.trace

/-! ## Notions used in the statements -/

/-- The six whitespace characters: space, tab, newline, carriage return, form
feed, vertical tab. -/
def sixSpaces : List Nat := [32, 9, 10, 13, 12, 11]

/-- What the theorems assume of the character classification: whitespace is
exactly the six whitespace characters, no control character is printable, and
the visible ASCII characters are printable.  Nothing is assumed about the
bytes 32 and 127 to 255. -/
structure CType.Sane (ct : CType) : Prop where
  /-- Whitespace is the six whitespace characters. -/
  isspace_iff : ∀ c, ct.isspace c = true ↔ c ∈ sixSpaces
  /-- Control characters, NUL among them, are not printable. -/
  isprint_ctrl : ∀ c, c < 32 → ct.isprint c = false
  /-- Visible ASCII characters are printable. -/
  isprint_ascii : ∀ c, 32 < c → c < 127 → ct.isprint c = true

/-- The events the loop (lines 87-254) can add to the trace. -/
def Event.fromLoop : Event → Bool
  | Event.depthExceeded => false
  | Event.errorLoading => false
  | Event.fopen => false
  | _ => true

/-- The value of a string of decimal digits. -/
def decVal (ds : List Nat) : Nat := ds.foldl (fun a c => a * 10 + (c - 48)) 0

/-- Whether the bytes start with the UTF-8 byte-order mark. -/
def startsWithBOM : List Nat → Bool
  | 0xEF :: 0xBB :: 0xBF :: _ => true
  | _ => false

/-- A token that the lexer takes as the name of an option: a non-empty run of
name characters that fits the name buffer and is no profile declaration. -/
structure IsOptName (ct : CType) (name : List Nat) : Prop where
  /-- The name is not empty. -/
  nonempty : name ≠ []
  /-- Every byte passes the condition of the name loop. -/
  chars : ∀ c ∈ name, isOptChar ct c = true
  /-- The check `opt_pos >= MAX_OPT_LEN` never fires. -/
  short : name.length < MAX_OPT_LEN
  /-- The token is not of the form `[...]`. -/
  not_header : isHeader name = false

/-- A line buffer of `MAX_LINE_LEN + 1` zero bytes. -/
def zeroBuf : List Nat := List.replicate (MAX_LINE_LEN + 1) 0

/-- Collaborators for the concrete scenarios: the profile registry hands out a
non-NULL profile for every name (0 for a NULL name), no option requires a
value, both setters succeed. -/
def demoEnv : Env where
  add_profile := fun _ name =>
    match name with
    | none => 0
    | some n => n.sum + 1
  requires_param := fun _ _ => 0
  set_profile_option := fun _ _ _ _ => 0
  set_option_ext := fun _ _ _ _ => 0
  M_SETOPT_FROM_CONFIG_FILE := 4

/-- Collaborators for the concrete scenarios: there are no profiles (the
registry returns NULL), the option `need` requires a value, and the global
setter rejects the option `bad`. -/
def strictEnv : Env where
  add_profile := fun _ _ => 0
  requires_param := fun _ n => if n = bytes "need" then 1 else 0
  set_profile_option := fun _ _ _ _ => 0
  set_option_ext := fun _ n _ _ => if n = bytes "bad" then -1 else 0
  M_SETOPT_FROM_CONFIG_FILE := 4

/-- The state at the top of the loop body for the concrete scenarios: no
error so far, `line` in the buffer. -/
def demoState (profile : Nat) (line : List Nat) : State :=
  { ret := 1, errors := 0, line_num := 0, profile := profile, line := line, trace := [] }

/-- A bracketed token of exactly `MAX_OPT_LEN` bytes: `[`, 998 times `a`, `]`. -/
def longHeader : List Nat := 91 :: List.replicate 998 97 ++ [93]

/-- The number of setter calls in a trace. -/
def setterCalls (t : List Event) : Nat := (t.filter Event.isSetter).length

/-- The trace when line 220 is reached: "extra characters" has been printed
if `extra` holds. -/
def traceAtDispatch (st : State) (extra : Bool) : List Event :=
  if extra then Event.lineErr st.line_num LineDiag.extraChars :: st.trace else st.trace

/-- The setter call of lines 240-244 for a profile, a name and a value. -/
def setterEvent (profile : Nat) (flags : Nat) (bopt bparam : List Nat) : Event :=
  if profile ≠ 0 then Event.set_profile_option profile bopt bparam
  else Event.set_option_ext bopt bparam flags

/-- The value `tmp` of lines 240-244, the trace before the call being `t`. -/
def setterResult (env : Env) (t : List Event) (profile : Nat) (flags : Nat)
    (bopt bparam : List Nat) : Int :=
  if profile ≠ 0 then env.set_profile_option t profile bopt bparam
  else env.set_option_ext t bopt bparam flags

/-- Line 93, `line_num++`. -/
def nextLine (st : State) : State := { st with line_num := st.line_num + 1 }

/-- A line with a bracketed name of 1000 bytes and nothing after it. -/
def longHeaderLine : List Nat := longHeader ++ [0]

/-- The profile that is current after the events `t` (most recent first): the
result of the latest call of the profile registry, NULL when there was
none. -/
def currentProfile (env : Env) : List Event → Nat
  | [] => 0
  | Event.add_profile name :: t => env.add_profile t name
  | _ :: t => currentProfile env t

/-- Every call of the profile-option setter and every description in the
trace goes to the profile that is current at that point, which is not NULL,
and every call of the global setter is made while the current profile is
NULL. -/
def settersFollowProfile (env : Env) : List Event → Bool
  | [] => true
  | Event.set_profile_option p _ _ :: t =>
    decide (p = currentProfile env t) && decide (p ≠ 0) && settersFollowProfile env t
  | Event.set_desc p _ :: t =>
    decide (p = currentProfile env t) && decide (p ≠ 0) && settersFollowProfile env t
  | Event.set_option_ext _ _ _ :: t =>
    decide (currentProfile env t = 0) && settersFollowProfile env t
  | _ :: t => settersFollowProfile env t

/-- A diagnostic of the lexer. -/
def Event.isLexError : Event → Bool
  | Event.lineErr _ d => d.isLex
  | _ => false

/-- Whether the trace holds a diagnostic of the lexer. -/
def hasLexError (t : List Event) : Bool := t.any Event.isLexError

/-- The invariant of the loop for the current profile: `profile` is the result
of the latest call of the profile registry, and the setter calls so far went
where `settersFollowProfile` says. -/
def ProfileInv (env : Env) (st : State) : Prop :=
  st.profile = currentProfile env st.trace ∧ settersFollowProfile env st.trace = true

/-- The invariant of the loop for the return code: `ret` is 1 or -1, and it
is -1 exactly when the lexer has printed a diagnostic. -/
def RetInv (st : State) : Prop :=
  (st.ret = 1 ∨ st.ret = -1) ∧ (st.ret = -1 ↔ hasLexError st.trace = true)

/-- A cursor from which the lexer cannot leave the buffer: a NUL lies ahead
and no quote character stands before it. -/
def QuoteFree (s : List Nat) : Prop :=
  0 ∈ s ∧ ∀ c ∈ cstr s, c ≠ 34 ∧ c ≠ 39

/-- The option name that a call of the option registry or of a setter
carries. -/
def Event.optionName : Event → Option (List Nat)
  | Event.requires_param n => some n
  | Event.set_profile_option _ n _ => some n
  | Event.set_option_ext n _ _ => some n
  | _ => none

/-- A line `name = value`: whitespace, the name, whitespace, `=`, whitespace,
and the bytes from the value on. -/
def assignLine (ws0 name ws1 ws2 fromValue : List Nat) : List Nat :=
  ws0 ++ name ++ (ws1 ++ 61 :: (ws2 ++ fromValue))

/-- The diagnostics that come with `errors++`. -/
def LineDiag.isCounted : LineDiag → Bool
  | LineDiag.optTooLong => true
  | LineDiag.parseError => true
  | LineDiag.quotedTooLong => true
  | LineDiag.bogusLength => true
  | LineDiag.bareTooLong => true
  | _ => false

/-- A diagnostic that comes with `errors++`. -/
def Event.isCounted : Event → Bool
  | Event.lineErr _ d => d.isCounted
  | _ => false

/-- The number of diagnostics in the trace that come with `errors++`. -/
def countedErrors (t : List Event) : Nat := (t.filter Event.isCounted).length

/-- The invariant of the loop for the error counter: `errors` counts the
diagnostics of the five kinds, it is at most 16, `ret` is -1 once it is
positive, and when it is 16 the latest event is the sixteenth of these
diagnostics. -/
def ErrInv (st : State) : Prop :=
  st.errors = countedErrors st.trace ∧ st.errors ≤ 16 ∧ (0 < st.errors → st.ret = -1) ∧
    (st.errors = 16 → ∃ n d t, st.trace = Event.lineErr n d :: t ∧ d.isCounted = true)

/-- The file of 17 lines `bad=1`. -/
def seventeenBad : List Nat := (List.replicate 17 (bytes "bad=1\n")).flatten

/-- The diagnostic "setting option ... failed" of line 247. -/
def Event.isSetFailed : Event → Bool
  | Event.lineErr _ LineDiag.setFailed => true
  | _ => false

/-- The trace without the diagnostics "setting option ... failed". -/
def dropSetFailed (t : List Event) : List Event := t.filter (fun e => !e.isSetFailed)

/-- The profile registry and the option registry do not see whether "setting
option ... failed" has been printed. -/
def Env.Blind (env : Env) : Prop :=
  ∀ t t1, dropSetFailed t = dropSetFailed t1 →
    env.add_profile t = env.add_profile t1 ∧ env.requires_param t = env.requires_param t1

/-- Two sets of collaborators that differ at most in what the two setters
return. -/
def Env.SameButSetters (env1 env2 : Env) : Prop :=
  env1.add_profile = env2.add_profile ∧ env1.requires_param = env2.requires_param ∧
    env1.M_SETOPT_FROM_CONFIG_FILE = env2.M_SETOPT_FROM_CONFIG_FILE

/-- Two states of the loop that differ at most in the diagnostics "setting
option ... failed". -/
def State.SameButSetFailed (a b : State) : Prop :=
  a.ret = b.ret ∧ a.errors = b.errors ∧ a.line_num = b.line_num ∧ a.profile = b.profile ∧
    a.line = b.line ∧ dropSetFailed a.trace = dropSetFailed b.trace

/-- Two results of the loader that differ at most in the diagnostics "setting
option ... failed": same value returned, same depth counter, same events
otherwise, in particular the same collaborator calls in the same order. -/
def Result.SameButSetFailed (r1 r2 : Result) : Prop :=
  r1.ret = r2.ret ∧ r1.recursion_depth = r2.recursion_depth ∧
    dropSetFailed r1.trace = dropSetFailed r2.trace ∧
    r1.trace.filter Event.isCall = r2.trace.filter Event.isCall

/-- Both undefined, or both defined and related. -/
def bothOrNeither {α : Type} (R : α → α → Prop) : Option α → Option α → Prop
  | none, none => True
  | some a, some b => R a b
  | _, _ => False

/-- The collaborators of `strictEnv` with a global setter that accepts every
option. -/
def lenientEnv : Env := { strictEnv with set_option_ext := fun _ _ _ _ => 0 }

/-- A line of 9999 bytes, the most `fgets` delivers: `x=`, 9993 spaces, and
the unterminated quoted value `"abc`. -/
def longUnterminated : List Nat := bytes "x=" ++ (List.replicate 9993 32 ++ bytes "\"abc")

/-- Collaborators for the concrete scenarios with profiles: as `demoEnv`, but
the option `need` requires a value. -/
def profileEnv : Env :=
  { demoEnv with requires_param := fun _ n => if n = bytes "need" then 1 else 0 }

/-- The state in which `fgets` delivers the second line of the file `[a]`,
`x=1`, `[b]`, `y=2` with the initial section `default`: the profile 98 of `a`
is current. -/
def scenarioAtX : State :=
  { ret := 1, errors := 0, line_num := 1, profile := 98,
    line := fgetsWrite (bytes "[a]\n") zeroBuf,
    trace := [Event.fgets, Event.add_profile (some (bytes "a")), Event.fgets, Event.fopen,
              Event.add_profile (some (bytes "default"))] }

/-! # Theorems -/

set_option maxRecDepth 1000000

/-! ## Lemmas on the loops of the lexer -/

theorem skipSpace_append (ct : CType) (ws r : List Nat)
    (h : ∀ c ∈ ws, ct.isspace c = true) : skipSpace ct (ws ++ r) = skipSpace ct r := by
  induction ws with
  | nil => rfl
  | cons c cs ih =>
    have hc : ct.isspace c = true := h c (List.mem_cons_self _ _)
    have hcs : ∀ d ∈ cs, ct.isspace d = true := fun d hd => h d (List.mem_cons_of_mem _ hd)
    simp [skipSpace, hc, ih hcs]

theorem skipSpace_cons_of_not (ct : CType) (c : Nat) (r : List Nat)
    (h : ct.isspace c = false) : skipSpace ct (c :: r) = c :: r := by
  simp [skipSpace, h]

theorem skipBOM_cons_of_ne (c : Nat) (r : List Nat) (h : c ≠ 0xEF) :
    skipBOM (c :: r) = some (c :: r) := by
  simp [skipBOM, h]

theorem mpCtype_sane : mpCtype.Sane where
  isspace_iff := by
    intro c
    simp only [mpCtype, sixSpaces, Bool.or_eq_true, beq_iff_eq, List.mem_cons,
      List.mem_singleton, List.not_mem_nil, or_false]
    omega
  isprint_ctrl := by
    intro c hc
    simp only [mpCtype, decide_eq_false_iff_not]
    omega
  isprint_ascii := by
    intro c h1 _
    simp only [mpCtype, decide_eq_true_eq]
    omega

theorem CType.Sane.isspace_of_mem {ct : CType} (h : ct.Sane) {ws : List Nat}
    (hws : ∀ c ∈ ws, c ∈ sixSpaces) : ∀ c ∈ ws, ct.isspace c = true :=
  fun c hc => (h.isspace_iff c).2 (hws c hc)

theorem CType.Sane.isspace_false {ct : CType} (h : ct.Sane) {c : Nat} (hc : c ∉ sixSpaces) :
    ct.isspace c = false := by
  cases hs : ct.isspace c with
  | false => rfl
  | true => exact absurd ((h.isspace_iff c).1 hs) hc

/-! ## Lemmas on the trace -/

theorem dispatch_trace_mem (env : Env) (flags : Nat) (st : State) (opt param : List Nat)
    (ps ex : Bool) :
    ∀ e ∈ (dispatch env flags st opt param ps ex).trace, e ∈ st.trace ∨ e.fromLoop = true := by
  intro e he
  unfold dispatch at he
  simp only at he
  split_ifs at he <;> simp at he <;> aesop

theorem processLine_trace_mem (ct : CType) (env : Env) (flags : Nat) (st st1 : State)
    (h : processLine ct env flags st = some st1) :
    ∀ e ∈ st1.trace, e ∈ st.trace ∨ e.fromLoop = true := by
  intro e he
  unfold processLine at h
  simp only at h
  split at h <;> simp at h <;> subst h
  all_goals first
    | (left; exact he)
    | (simp [State.lexError] at he; rcases he with he | he <;> simp [he, Event.fromLoop])
    | (exact dispatch_trace_mem _ _ { st with line_num := st.line_num + 1 } _ _ _ _ e he)

theorem loop_trace_mem (ct : CType) (env : Env) (flags : Nat) (ls : List (List Nat)) :
    ∀ (st st1 : State), loop ct env flags ls st = some st1 →
      ∀ e ∈ st1.trace, e ∈ st.trace ∨ e.fromLoop = true := by
  induction ls with
  | nil =>
    intro st st1 h e he
    simp [loop] at h
    subst h
    simp at he
    rcases he with he | he
    · right; simp [he, Event.fromLoop]
    · left; exact he
  | cons l ls ih =>
    intro st st1 h e he
    simp only [loop] at h
    split_ifs at h with h16
    · simp at h
      subst h
      simp at he
      rcases he with he | he | he
      · right; simp [he, Event.fromLoop]
      · right; simp [he, Event.fromLoop]
      · left; exact he
    · split at h
      · simp at h
      · rename_i st2 hp
        rcases ih st2 st1 h e he with h1 | h1
        · rcases processLine_trace_mem ct env flags _ st2 hp e h1 with h2 | h2
          · simp at h2
            rcases h2 with h2 | h2
            · right; simp [h2, Event.fromLoop]
            · left; exact h2
          · right; exact h2
        · right; exact h1

theorem readOpt_done (ct : CType) (name : List Nat) (c : Nat) (tail : List Nat)
    (hc : isOptChar ct c = false) :
    ∀ acc : List Nat, (∀ x ∈ name, isOptChar ct x = true) →
      acc.length + name.length < MAX_OPT_LEN →
      readOpt ct (name ++ c :: tail) acc = some (Scan.done (acc ++ name) (c :: tail)) := by
  induction name with
  | nil => intro acc _ _; simp [readOpt, hc]
  | cons x xs ih =>
    intro acc hx hlen
    have hx0 : isOptChar ct x = true := hx x (List.mem_cons_self _ _)
    have hxs : ∀ y ∈ xs, isOptChar ct y = true := fun y hy => hx y (List.mem_cons_of_mem _ hy)
    simp only [List.length_cons] at hlen
    have hlt : ¬ MAX_OPT_LEN ≤ (acc ++ [x]).length := by
      simp only [List.length_append, List.length_singleton]; omega
    have := ih (acc ++ [x]) hxs (by simp only [List.length_append, List.length_singleton]; omega)
    simp only [List.cons_append, readOpt, hx0, if_true, hlt, if_false]
    rw [List.append_eq, this, List.append_assoc, List.singleton_append]

theorem readOpt_tooLong (ct : CType) (name : List Nat) (r : List Nat) :
    ∀ acc : List Nat, (∀ x ∈ name, isOptChar ct x = true) →
      acc.length < MAX_OPT_LEN → MAX_OPT_LEN ≤ acc.length + name.length →
      readOpt ct (name ++ r) acc = some Scan.tooLong := by
  induction name with
  | nil => intro acc _ h1 h2; simp at h2; omega
  | cons x xs ih =>
    intro acc hx h1 h2
    have hx0 : isOptChar ct x = true := hx x (List.mem_cons_self _ _)
    have hxs : ∀ y ∈ xs, isOptChar ct y = true := fun y hy => hx y (List.mem_cons_of_mem _ hy)
    simp only [List.length_cons] at h2
    by_cases hlt : MAX_OPT_LEN ≤ (acc ++ [x]).length
    · simp only [List.cons_append, readOpt, hx0, if_true, hlt]
    · have := ih (acc ++ [x]) hxs (by omega)
        (by simp only [List.length_append, List.length_singleton]; omega)
      simp only [List.cons_append, readOpt, hx0, if_true, hlt, if_false]
      rw [List.append_eq]
      exact this

theorem readQuoted_done (q : Nat) (s : List Nat) (r : List Nat) :
    ∀ acc : List Nat, q ∉ s → acc.length + s.length < MAX_PARAM_LEN →
      readQuoted q (s ++ q :: r) acc = some (Scan.done (acc ++ s) r) := by
  induction s with
  | nil => intro acc _ _; simp [readQuoted]
  | cons x xs ih =>
    intro acc hq hlen
    have hx : x ≠ q := fun h => hq (h ▸ List.mem_cons_self _ _)
    have hxs : q ∉ xs := fun h => hq (List.mem_cons_of_mem _ h)
    simp only [List.length_cons] at hlen
    have hlt : ¬ MAX_PARAM_LEN ≤ (acc ++ [x]).length := by
      simp only [List.length_append, List.length_singleton]; omega
    have := ih (acc ++ [x]) hxs (by simp only [List.length_append, List.length_singleton]; omega)
    simp only [List.cons_append, readQuoted, ne_eq, hx, not_false_eq_true, if_true, hlt,
      if_false]
    rw [List.append_eq, this, List.append_assoc, List.singleton_append]

theorem readBare_done (ct : CType) (v : List Nat) (c : Nat) (tail : List Nat)
    (hc : isBareChar ct c = false) :
    ∀ acc : List Nat, (∀ x ∈ v, isBareChar ct x = true) →
      acc.length + v.length < MAX_PARAM_LEN →
      readBare ct (v ++ c :: tail) acc = some (Scan.done (acc ++ v) (c :: tail)) := by
  induction v with
  | nil => intro acc _ _; simp [readBare, hc]
  | cons x xs ih =>
    intro acc hx hlen
    have hx0 : isBareChar ct x = true := hx x (List.mem_cons_self _ _)
    have hxs : ∀ y ∈ xs, isBareChar ct y = true := fun y hy => hx y (List.mem_cons_of_mem _ hy)
    simp only [List.length_cons] at hlen
    have hlt : ¬ MAX_PARAM_LEN ≤ (acc ++ [x]).length := by
      simp only [List.length_append, List.length_singleton]; omega
    have := ih (acc ++ [x]) hxs (by simp only [List.length_append, List.length_singleton]; omega)
    simp only [List.cons_append, readBare, hx0, if_true, hlt, if_false]
    rw [List.append_eq, this, List.append_assoc, List.singleton_append]

theorem skipBOM_of_nul (s : List Nat) (h0 : 0 ∈ s) (hb : startsWithBOM s = false) :
    skipBOM s = some s := by
  match s, h0, hb with
  | [], h0, _ => simp at h0
  | [a], h0, _ =>
    simp at h0; subst h0; simp [skipBOM]
  | [a, b], h0, _ =>
    simp at h0
    rcases h0 with h | h
    · subst h; simp [skipBOM]
    · subst h; simp [skipBOM]
  | a :: b :: c :: r, _, hb =>
    simp only [skipBOM]
    split_ifs with h1 h2 h3
    · subst h1 h2 h3; simp [startsWithBOM] at hb
    · rfl
    · rfl
    · rfl

theorem CType.Sane.optChar_not_space {ct : CType} (h : ct.Sane) {c : Nat}
    (hc : isOptChar ct c = true) : c ∉ sixSpaces ∧ c ≠ 0 ∧ c ≠ 35 ∧ c ≠ 61 := by
  simp only [isOptChar, Bool.and_eq_true, bne_iff_ne, ne_eq] at hc
  obtain ⟨⟨⟨hp, h32⟩, h35⟩, h61⟩ := hc
  have h32' : ¬ c < 32 := fun hlt => by
    have := h.isprint_ctrl c hlt
    rw [hp] at this
    exact Bool.noConfusion this
  refine ⟨?_, ?_, h35, h61⟩
  · simp only [sixSpaces, List.mem_cons, List.mem_singleton, List.not_mem_nil, or_false]
    omega
  · omega

theorem cstr_of_no_nul (s : List Nat) (h : 0 ∉ s) : cstr s = s := by
  induction s with
  | nil => rfl
  | cons x xs ih =>
    have hx : x ≠ 0 := fun hx => h (hx ▸ List.mem_cons_self _ _)
    have hxs : 0 ∉ xs := fun hm => h (List.mem_cons_of_mem _ hm)
    simp [cstr, hx, ih hxs]

theorem cstr_append_nul (s t : List Nat) (h : 0 ∉ s) : cstr (s ++ 0 :: t) = s := by
  induction s with
  | nil => simp [cstr]
  | cons x xs ih =>
    have hx : x ≠ 0 := fun hx => h (hx ▸ List.mem_cons_self _ _)
    have hxs : 0 ∉ xs := fun hm => h (List.mem_cons_of_mem _ hm)
    simp [cstr, hx, ih hxs]

theorem strlen_append_nul (s t : List Nat) (h : 0 ∉ s) : strlen (s ++ 0 :: t) = some s.length := by
  induction s with
  | nil => simp [strlen]
  | cons x xs ih =>
    have hx : x ≠ 0 := fun hx => h (hx ▸ List.mem_cons_self _ _)
    have hxs : 0 ∉ xs := fun hm => h (List.mem_cons_of_mem _ hm)
    simp [strlen, hx, ih hxs]

/-- The lexer on a line that starts, after whitespace, with a run of name
characters. -/
theorem lexLine_of_name (ct : CType) (h : ct.Sane) (ws name : List Nat) (c : Nat)
    (tail : List Nat) (hws : ∀ w ∈ ws, w ∈ sixSpaces) (hne : name ≠ [])
    (hchars : ∀ x ∈ name, isOptChar ct x = true) (hc : isOptChar ct c = false)
    (hb : skipBOM (ws ++ name ++ c :: tail) = some (ws ++ name ++ c :: tail)) :
    lexLine ct (ws ++ name ++ c :: tail) =
      if MAX_OPT_LEN ≤ name.length then some LexResult.optTooLong
      else if isHeader name then some (LexResult.header name)
      else lexAfterOpt ct name (c :: tail) := by
  obtain ⟨x, xs, rfl⟩ := List.exists_cons_of_ne_nil hne
  have hx := h.optChar_not_space (hchars x (List.mem_cons_self _ _))
  have hsk : skipSpace ct (ws ++ (x :: xs) ++ c :: tail) = x :: (xs ++ c :: tail) := by
    rw [List.append_assoc, skipSpace_append ct ws _ (h.isspace_of_mem hws)]
    exact skipSpace_cons_of_not ct x _ (h.isspace_false hx.1)
  simp only [lexLine, hb, hsk]
  have hx0 : ¬ (x = 0 ∨ x = 35) := by
    rintro (h0 | h0)
    · exact hx.2.1 h0
    · exact hx.2.2.1 h0
  simp only [hx0, if_false]
  by_cases hlen : MAX_OPT_LEN ≤ (x :: xs).length
  · have := readOpt_tooLong ct (x :: xs) (c :: tail) [] hchars (by simp [MAX_OPT_LEN])
      (by simpa using hlen)
    simp only [List.cons_append] at this
    simp only [this, hlen, if_true]
  · have := readOpt_done ct (x :: xs) c tail hc [] hchars (by simp at hlen ⊢; omega)
    simp only [List.cons_append, List.nil_append] at this
    simp only [this, hlen, if_false]
    simp

/-- C7: a line of whitespace only, or of whitespace followed by a `#` comment,
leaves everything but the line counter as it was: no collaborator is called
and no diagnostic is printed (the trace is unchanged), and `profile`,
`errors` and `ret` keep their values. -/
theorem C7_blank_or_comment_line (ct : CType) (h : ct.Sane) (env : Env) (flags : Nat)
    (st : State) (ws tail : List Nat) (c : Nat)
    (hws : ∀ w ∈ ws, w ∈ sixSpaces) (hc : c = 0 ∨ c = 35)
    (hline : st.line = ws ++ c :: tail) :
    processLine ct env flags st = some { st with line_num := st.line_num + 1 } := by
  have hcs : c ∉ sixSpaces := by
    rcases hc with rfl | rfl <;> simp [sixSpaces]
  have hbom : skipBOM (ws ++ c :: tail) = some (ws ++ c :: tail) := by
    cases ws with
    | nil =>
      apply skipBOM_cons_of_ne
      rcases hc with rfl | rfl <;> simp
    | cons w ws1 =>
      apply skipBOM_cons_of_ne
      have := hws w (List.mem_cons_self _ _)
      simp [sixSpaces] at this
      omega
  have hlex : lexLine ct (ws ++ c :: tail) = some LexResult.blank := by
    simp only [lexLine, hbom, skipSpace_append ct ws _ (h.isspace_of_mem hws),
      skipSpace_cons_of_not ct c tail (h.isspace_false hcs)]
    simp [hc]
  simp only [processLine, hline, hlex]

theorem C7_blank_or_comment_line_witness :
    processLine mpCtype demoEnv 0 (demoState 5 (bytes " \t# [x] y=1\n\x00")) =
      some { demoState 5 (bytes " \t# [x] y=1\n\x00") with line_num := 1 } :=
  C7_blank_or_comment_line mpCtype mpCtype_sane demoEnv 0
    (demoState 5 (bytes " \t# [x] y=1\n\x00")) [32, 9] (bytes " [x] y=1\n\x00") 35
    (by decide) (Or.inr rfl) (by decide)

theorem finish_depth (d ret : Int) (t : List Event) (r : Result)
    (h : finish d ret t = some r) : r.recursion_depth = d - 1 ∧ r.ret = ret := by
  unfold finish at h
  split_ifs at h <;> simp at h <;> subst h <;> simp

theorem finish_some (d ret : Int) (t : List Event) (hd : INT_MIN < d) :
    finish d ret t =
      some (Result.mk ret (d - 1) (if ret < 0 then Event.errorLoading :: t else t)) := by
  unfold finish
  have : ¬ d - 1 < INT_MIN := by omega
  simp [this]

theorem finish_trace_mem (d ret : Int) (t : List Event) (r : Result)
    (h : finish d ret t = some r) : ∀ e ∈ r.trace, e = Event.errorLoading ∨ e ∈ t := by
  unfold finish at h
  intro e he
  split_ifs at h <;> simp at h <;> subst h <;> simp at he
  · exact he
  · exact Or.inr he

/-- C10: with `recursion_depth > 8` on entry the loader returns -1 and its
whole trace is the profile-registry call of line 62 and two diagnostics: no
`fopen`, no `fgets`, no call of the option registry or of a setter.  With
`recursion_depth ≤ 8`, 8 included, the depth diagnostic is never printed, that
is, the fatal path of lines 68-72 is not taken. -/
theorem C10_depth_guard (ct : CType) (env : Env) (d : Int) (malloc file : Option (List Nat))
    (init : Option (List Nat)) (flags : Nat) :
    (MAX_RECURSION_DEPTH < d →
      m_config_parse_config_file ct env d malloc file init flags =
        some { ret := -1, recursion_depth := d - 1,
               trace := [Event.errorLoading, Event.depthExceeded, Event.add_profile init] }) ∧
    (d ≤ MAX_RECURSION_DEPTH →
      ∀ r, m_config_parse_config_file ct env d malloc file init flags = some r →
        Event.depthExceeded ∉ r.trace) := by
  constructor
  · intro hd
    have h1 : INT_MIN < d := by
      simp only [MAX_RECURSION_DEPTH, INT_MIN] at *; omega
    simp only [m_config_parse_config_file, hd, if_true, finish_some d (-1) _ h1]
    simp
  · intro hd r hr
    have hnd : ¬ MAX_RECURSION_DEPTH < d := not_lt.mpr hd
    simp only [m_config_parse_config_file, hnd, if_false] at hr
    intro hmem
    split at hr
    · rcases finish_trace_mem _ _ _ _ hr _ hmem with h | h
      · exact Event.noConfusion h
      · simp at h
    · split at hr
      · rcases finish_trace_mem _ _ _ _ hr _ hmem with h | h
        · exact Event.noConfusion h
        · simp at h
      · split at hr
        · simp at hr
        · rename_i st1 hloop
          rcases finish_trace_mem _ _ _ _ hr _ hmem with h | h
          · exact Event.noConfusion h
          · rcases loop_trace_mem _ _ _ _ _ _ hloop _ h with h2 | h2
            · simp at h2
            · simp [Event.fromLoop] at h2

theorem C10_depth_guard_witness :
    m_config_parse_config_file mpCtype demoEnv 9 (some zeroBuf) (some (bytes "x=1\n"))
        (some (bytes "default")) 0 =
      some { ret := -1, recursion_depth := 8,
             trace := [Event.errorLoading, Event.depthExceeded,
                       Event.add_profile (some (bytes "default"))] } ∧
    Event.depthExceeded ∉
      (Result.mk 1 7 [Event.fgets, Event.set_profile_option 742 (bytes "x") (bytes "1"),
        Event.requires_param (bytes "x"), Event.fgets, Event.fopen,
        Event.add_profile (some (bytes "default"))]).trace :=
  ⟨(C10_depth_guard mpCtype demoEnv 9 (some zeroBuf) (some (bytes "x=1\n"))
      (some (bytes "default")) 0).1 (by decide),
   (C10_depth_guard mpCtype demoEnv 8 (some zeroBuf) (some (bytes "x=1\n"))
      (some (bytes "default")) 0).2 (by decide) _ (by decide)⟩

theorem startsWithBOM_cons_of_ne (c : Nat) (r : List Nat) (h : c ≠ 0xEF) :
    startsWithBOM (c :: r) = false := by
  match r with
  | [] => simp [startsWithBOM]
  | [_] => simp [startsWithBOM]
  | a :: b :: r1 =>
    cases hb : startsWithBOM (c :: a :: b :: r1) with
    | false => rfl
    | true =>
      exfalso
      unfold startsWithBOM at hb
      split at hb
      · rename_i heq
        simp at heq
        exact h heq.1
      · simp at hb

/-- A line that starts with whitespace from `sixSpaces` or with a byte other
than 0xEF does not start with the byte-order mark. -/
theorem startsWithBOM_ws_append (ws : List Nat) (x : Nat) (r : List Nat)
    (hws : ∀ w ∈ ws, w ∈ sixSpaces) (hx : x ≠ 0xEF) :
    startsWithBOM (ws ++ x :: r) = false := by
  cases ws with
  | nil => exact startsWithBOM_cons_of_ne x r hx
  | cons w ws1 =>
    apply startsWithBOM_cons_of_ne
    have := hws w (List.mem_cons_self _ _)
    simp [sixSpaces] at this
    omega

theorem CType.Sane.optChar_of_ascii {ct : CType} (h : ct.Sane) {c : Nat}
    (h1 : 32 < c) (h2 : c < 127) (h35 : c ≠ 35) (h61 : c ≠ 61) : isOptChar ct c = true := by
  have h32 : c ≠ 32 := by omega
  simp [isOptChar, h.isprint_ascii c h1 h2, h35, h61, h32]

theorem isHeader_brackets (inner : List Nat) (hne : inner ≠ []) :
    isHeader (91 :: inner ++ [93]) = true := by
  obtain ⟨x, xs, rfl⟩ := List.exists_cons_of_ne_nil hne
  have hl : ((91 :: x :: xs) ++ [93]).getLast? = some 93 := List.getLast?_concat _
  simp only [isHeader, hl]
  simp

/-- C3 (amended): a line whose name token is `[inner]` with `inner` non-empty
and the whole token shorter than `MAX_OPT_LEN` is a profile declaration,
whatever follows the token (`=value` included): `profile` becomes the result of
the profile registry for `inner`, and that call is the only event of the
line. -/
theorem C3_profile_header (ct : CType) (h : ct.Sane) (env : Env) (flags : Nat) (st : State)
    (ws inner tail : List Nat) (c : Nat)
    (hws : ∀ w ∈ ws, w ∈ sixSpaces) (hne : inner ≠ [])
    (hchars : ∀ x ∈ inner, isOptChar ct x = true)
    (hlen : inner.length + 2 < MAX_OPT_LEN)
    (hc : isOptChar ct c = false) (hnul : 0 ∈ c :: tail)
    (hline : st.line = ws ++ (91 :: inner ++ [93]) ++ c :: tail) :
    processLine ct env flags st =
      some { st with line_num := st.line_num + 1,
                     profile := env.add_profile st.trace (some inner),
                     trace := Event.add_profile (some inner) :: st.trace } := by
  have h91 : isOptChar ct 91 = true := h.optChar_of_ascii (by omega) (by omega) (by omega) (by omega)
  have h93 : isOptChar ct 93 = true := h.optChar_of_ascii (by omega) (by omega) (by omega) (by omega)
  have hall : ∀ x ∈ 91 :: inner ++ [93], isOptChar ct x = true := by
    intro x hx
    simp only [List.cons_append, List.mem_cons, List.mem_append, List.mem_singleton,
      List.not_mem_nil, or_false] at hx
    rcases hx with rfl | hx | rfl
    · exact h91
    · exact hchars x hx
    · exact h93
  have hbom : startsWithBOM (ws ++ (91 :: inner ++ [93]) ++ c :: tail) = false := by
    rw [List.append_assoc]
    exact startsWithBOM_ws_append ws 91 _ hws (by omega)
  have hmem : 0 ∈ ws ++ (91 :: inner ++ [93]) ++ c :: tail := by
    simp only [List.mem_append]; exact Or.inr hnul
  have hlex := lexLine_of_name ct h ws (91 :: inner ++ [93]) c tail hws (by simp) hall hc
    (skipBOM_of_nul _ hmem hbom)
  have hl : ¬ MAX_OPT_LEN ≤ (91 :: inner ++ [93]).length := by
    simp only [List.cons_append, List.length_cons, List.length_append, List.length_singleton,
      List.length_nil]
    omega
  rw [if_neg hl, isHeader_brackets inner hne, if_pos rfl] at hlex
  have h0 : 0 ∉ inner := fun hm => (h.optChar_not_space (hchars 0 hm)).2.1 rfl
  have hname : cstr ((91 :: inner ++ [93]).dropLast.drop 1) = inner := by
    have : (91 :: inner ++ [93]).dropLast = 91 :: inner := List.dropLast_concat
    rw [this]
    simpa using cstr_of_no_nul inner h0
  simp only [processLine, hline, hlex, hname]

theorem C3_profile_header_witness :
    processLine mpCtype demoEnv 0 (demoState 0 (bytes "  [a]=1 # x\n\x00")) =
      some { demoState 0 (bytes "  [a]=1 # x\n\x00") with
               line_num := 1, profile := 98, trace := [Event.add_profile (some [97])] } :=
  C3_profile_header mpCtype mpCtype_sane demoEnv 0 (demoState 0 (bytes "  [a]=1 # x\n\x00"))
    [32, 32] [97] (bytes "1 # x\n\x00") 61 (by decide) (by decide) (by decide) (by decide)
    (by decide) (by decide) (by decide)

/-- C3 fails for a bracketed token of 1000 bytes: the line is rejected with
"option name too long", the profile registry is not called and `profile`
keeps its value 0, although the registry would return 96807 for the token
without its brackets. -/
theorem C3_counterexample :
    processLine mpCtype demoEnv 0 (demoState 0 (longHeader ++ [0])) =
      some { demoState 0 (longHeader ++ [0]) with
               ret := -1, errors := 1, line_num := 1,
               trace := [Event.lineErr 1 LineDiag.optTooLong] } ∧
    isHeader longHeader = true ∧ longHeader.length = 1000 ∧
    demoEnv.add_profile [] (some (List.replicate 998 97)) = 96807 := by
  decide

/-- The lexer on a line that starts, after whitespace, with an option name. -/
theorem lexLine_of_optName (ct : CType) (h : ct.Sane) (ws name : List Nat) (c : Nat)
    (tail : List Nat) (hws : ∀ w ∈ ws, w ∈ sixSpaces) (hname : IsOptName ct name)
    (hc : isOptChar ct c = false)
    (hb : skipBOM (ws ++ name ++ c :: tail) = some (ws ++ name ++ c :: tail)) :
    lexLine ct (ws ++ name ++ c :: tail) = lexAfterOpt ct name (c :: tail) := by
  rw [lexLine_of_name ct h ws name c tail hws hname.nonempty hname.chars hc hb,
    if_neg (not_le.mpr hname.short), hname.not_header]
  simp

theorem IsOptName.no_nul {ct : CType} (h : ct.Sane) {name : List Nat}
    (hname : IsOptName ct name) : 0 ∉ name :=
  fun hm => (h.optChar_not_space (hname.chars 0 hm)).2.1 rfl

theorem isOptChar_eq_sign (ct : CType) : isOptChar ct 61 = false := by
  simp [isOptChar]

theorem isOptChar_of_space {ct : CType} (h : ct.Sane) {c : Nat} (hc : c ∈ sixSpaces) :
    isOptChar ct c = false := by
  cases hb : isOptChar ct c with
  | false => rfl
  | true => exact absurd hc (h.optChar_not_space hb).1

theorem lexEnd_of_terminator (opt param : List Nat) (ps : Bool) (e : Nat) (tail : List Nat)
    (he : e = 0 ∨ e = 35) :
    lexEnd opt param ps (e :: tail) = some (LexResult.directive opt param ps false) := by
  rcases he with rfl | rfl <;> simp [lexEnd]

/-- The value scanner on a quoted value. -/
theorem readParam_quoted (ct : CType) (h : ct.Sane) (q : Nat) (s r : List Nat)
    (hq : q = 34 ∨ q = 39) (hs : q ∉ s) (hlen : s.length < MAX_PARAM_LEN) :
    readParam ct (q :: (s ++ q :: r)) = some (ParamScan.done s r) := by
  have hqs : q ∉ sixSpaces := by
    rcases hq with rfl | rfl <;> simp [sixSpaces]
  have hrq := readQuoted_done q s r [] hs (by simpa using hlen)
  simp only [readParam, skipSpace_cons_of_not ct q _ (h.isspace_false hqs), hq, if_true, hrq]
  simp

/-- C4 (amended): on a line `name=q s q`, optionally followed by whitespace
and then by the end of the line or a `#` comment, where `name` is a token the
lexer takes as an option name, the line does not start with the byte-order
mark, `q` is one of the two quote characters and `s` has fewer than 1500 bytes
and contains neither `q` nor NUL, the lexer yields the directive `(name, s,
value_set = true)` without any diagnostic, and the value handed on (`bstr0`)
is `s` itself. -/
theorem C4_quoted_verbatim (ct : CType) (h : ct.Sane) (name s ws tail : List Nat) (q e : Nat)
    (hname : IsOptName ct name) (hq : q = 34 ∨ q = 39) (hs : q ∉ s) (h0 : 0 ∉ s)
    (hlen : s.length < MAX_PARAM_LEN) (hws : ∀ w ∈ ws, w ∈ sixSpaces)
    (he : e = 0 ∨ e = 35) (hnul : 0 ∈ e :: tail)
    (hbom : startsWithBOM (name ++ 61 :: q :: (s ++ q :: (ws ++ e :: tail))) = false) :
    lexLine ct (name ++ 61 :: q :: (s ++ q :: (ws ++ e :: tail))) =
        some (LexResult.directive name s true false) ∧
      cstr s = s := by
  refine ⟨?_, cstr_of_no_nul s h0⟩
  have hmem : 0 ∈ 61 :: q :: (s ++ q :: (ws ++ e :: tail)) := by
    simp only [List.mem_cons, List.mem_append]
    right; right; right; right; right
    simpa using hnul
  have hmem2 : 0 ∈ [] ++ name ++ 61 :: q :: (s ++ q :: (ws ++ e :: tail)) := by
    simp only [List.mem_append]; exact Or.inr hmem
  have h1 := lexLine_of_optName ct h [] name 61 (q :: (s ++ q :: (ws ++ e :: tail)))
    (by simp) hname (isOptChar_eq_sign ct) (skipBOM_of_nul _ hmem2 (by simpa using hbom))
  simp only [List.nil_append] at h1
  rw [h1]
  have h61 : (61 : Nat) ∉ sixSpaces := by simp [sixSpaces]
  have hes : e ∉ sixSpaces := by
    rcases he with rfl | rfl <;> simp [sixSpaces]
  simp only [lexAfterOpt, skipSpace_cons_of_not ct 61 _ (h.isspace_false h61), if_true,
    readParam_quoted ct h q s _ hq hs hlen,
    skipSpace_append ct ws _ (h.isspace_of_mem hws),
    skipSpace_cons_of_not ct e tail (h.isspace_false hes)]
  exact lexEnd_of_terminator name s true e tail he

theorem C4_quoted_verbatim_witness :
    lexLine mpCtype (bytes "opt=\"a b # c\"  # tail\n\x00") =
        some (LexResult.directive (bytes "opt") (bytes "a b # c") true false) ∧
      cstr (bytes "a b # c") = bytes "a b # c" :=
  C4_quoted_verbatim mpCtype mpCtype_sane (bytes "opt") (bytes "a b # c") [32, 32]
    (bytes " tail\n\x00") 34 35
    ⟨by decide, by decide, by decide, by decide⟩ (by decide) (by decide) (by decide)
    (by decide) (by decide) (by decide) (by decide) (by decide)

/-- C4 fails for three kinds of name: a bracketed name makes the line a
profile declaration, a name of 1000 bytes is rejected as too long, and a name
that starts with the byte-order mark loses its first three bytes. -/
theorem C4_counterexample :
    lexLine mpCtype (bytes "[a]=\"x\"\x00") = some (LexResult.header (bytes "[a]")) ∧
    lexLine mpCtype (List.replicate 1000 97 ++ bytes "=\"x\"\x00") =
      some LexResult.optTooLong ∧
    lexLine mpCtype ([0xEF, 0xBB, 0xBF] ++ bytes "a=\"x\"\x00") =
      some (LexResult.directive (bytes "a") (bytes "x") true false) := by
  decide

theorem skipBOM_of_length (s : List Nat) (hl : 3 ≤ s.length) (hb : startsWithBOM s = false) :
    skipBOM s = some s := by
  match s, hl, hb with
  | [], hl, _ => simp at hl
  | [_], hl, _ => simp at hl
  | [_, _], hl, _ => simp at hl
  | a :: b :: c :: r, _, hb =>
    simp only [skipBOM]
    split_ifs with h1 h2 h3
    · subst h1 h2 h3; simp [startsWithBOM] at hb
    · rfl
    · rfl
    · rfl

theorem strtoulDigits_append (ds : List Nat) (e0 : Nat) (r : List Nat)
    (he : isDigit e0 = false) :
    ∀ acc : Nat, (∀ d ∈ ds, isDigit d = true) →
      strtoulDigits (ds ++ e0 :: r) acc =
        some (ds.foldl (fun a c => a * 10 + (c - 48)) acc, e0 :: r) := by
  induction ds with
  | nil => intro acc _; simp [strtoulDigits, he]
  | cons d ds1 ih =>
    intro acc hd
    have hd0 : isDigit d = true := hd d (List.mem_cons_self _ _)
    have hds : ∀ x ∈ ds1, isDigit x = true := fun x hx => hd x (List.mem_cons_of_mem _ hx)
    simp only [List.cons_append, strtoulDigits, hd0, if_true, List.foldl_cons]
    rw [List.append_eq]
    exact ih _ hds

/-- The function `strtoul` on a non-empty string of digits followed by a byte
that is no digit. -/
theorem strtoul_digits (ds : List Nat) (e0 : Nat) (r : List Nat) (hne : ds ≠ [])
    (hdig : ∀ d ∈ ds, isDigit d = true) (he : isDigit e0 = false) :
    strtoul (ds ++ e0 :: r) =
      some (if ULONG_MAX < decVal ds then ULONG_MAX else decVal ds, true, e0 :: r) := by
  obtain ⟨d, ds1, rfl⟩ := List.exists_cons_of_ne_nil hne
  have hd0 : isDigit d = true := hdig d (List.mem_cons_self _ _)
  have hd1 : 48 ≤ d ∧ d ≤ 57 := by
    simpa [isDigit] using hd0
  have hsp : c_isspace d = false := by
    simp only [c_isspace, Bool.or_eq_false_iff, beq_eq_false_iff_ne, Bool.and_eq_false_iff,
      decide_eq_false_iff_not]
    omega
  have hsign : ¬ (d = 45 ∨ d = 43) := by omega
  have h45 : ¬ d = 45 := by omega
  have hdg := strtoulDigits_append (d :: ds1) e0 r he 0 hdig
  simp only [List.cons_append] at hdg
  simp only [strtoul, List.cons_append, skipCSpace, hsp, if_neg hsign, Bool.false_eq_true,
    if_false, hd0, if_true, if_neg h45, decVal]
  rw [List.append_eq, hdg]

theorem strlen_some_iff (s : List Nat) (n : Nat) :
    strlen s = some n ↔ ∃ t, s = cstr s ++ 0 :: t ∧ (cstr s).length = n := by
  induction s generalizing n with
  | nil => simp [strlen, cstr]
  | cons x xs ih =>
    by_cases hx : x = 0
    · subst hx
      simp only [strlen, cstr, if_true, Option.some.injEq, List.nil_append, List.cons.injEq,
        true_and, List.length_nil]
      constructor
      · intro h; exact ⟨xs, rfl, h⟩
      · rintro ⟨_, _, h⟩; exact h
    · simp only [strlen, cstr, hx, if_false, Option.map_eq_some', List.cons_append,
        List.cons.injEq, true_and, List.length_cons]
      constructor
      · rintro ⟨m, hm, rfl⟩
        obtain ⟨t, ht, hl⟩ := (ih m).1 hm
        exact ⟨t, ht, by omega⟩
      · rintro ⟨t, ht, hl⟩
        cases n with
        | zero => omega
        | succ m => exact ⟨m, (ih m).2 ⟨t, ht, by omega⟩, rfl⟩

theorem cstr_no_nul (s : List Nat) : 0 ∉ cstr s := by
  induction s with
  | nil => simp [cstr]
  | cons x xs ih =>
    by_cases hx : x = 0
    · simp [cstr, hx]
    · simp only [cstr, hx, if_false, List.mem_cons, not_or]
      exact ⟨fun h => hx h.symm, ih⟩

theorem take_of_strlen (s : List Nat) (n N : Nat) (h : strlen s = some n) (hN : N ≤ n) :
    (cstr s).take N = s.take N ∧ (s.take N).length = N ∧ 0 ∉ s.take N := by
  obtain ⟨t, ht, hl⟩ := (strlen_some_iff s n).1 h
  have h1 : s.take N = (cstr s).take N := by
    conv_lhs => rw [ht]
    rw [List.take_append_of_le_length (by omega)]
  refine ⟨h1.symm, ?_, ?_⟩
  · rw [h1, List.length_take]; omega
  · rw [h1]
    intro hm
    exact cstr_no_nul s (List.mem_of_mem_take hm)

/-- The value scanner on `%N%...`, `N` a string of digits. -/
theorem readParam_percent (ct : CType) (h : ct.Sane) (ws ds e1 : List Nat)
    (hws : ∀ w ∈ ws, w ∈ sixSpaces) (hne : ds ≠ []) (hdig : ∀ d ∈ ds, isDigit d = true) :
    readParam ct (ws ++ 37 :: (ds ++ 37 :: e1)) =
      if MAX_PARAM_LEN - 1 ≤ decVal ds then some ParamScan.bogusLength
      else
        match strlen e1 with
        | none => none
        | some n =>
          if n < decVal ds then some ParamScan.bogusLength
          else some (ParamScan.done (e1.take (decVal ds)) (e1.drop (decVal ds))) := by
  have h37 : (37 : Nat) ∉ sixSpaces := by simp [sixSpaces]
  have hst := strtoul_digits ds 37 e1 hne hdig (by decide)
  have hq : ¬ ((37 : Nat) = 34 ∨ (37 : Nat) = 39) := by omega
  simp only [readParam, skipSpace_append ct ws _ (h.isspace_of_mem hws),
    skipSpace_cons_of_not ct 37 _ (h.isspace_false h37), hq, if_false, if_true, hst]
  by_cases hbig : ULONG_MAX < decVal ds
  · have h1 : MAX_PARAM_LEN - 1 ≤ ULONG_MAX := by decide
    have h2 : MAX_PARAM_LEN - 1 ≤ decVal ds := by
      simp only [MAX_PARAM_LEN, ULONG_MAX] at *; omega
    simp only [hbig, if_true, h1, h2]
  · simp only [hbig, if_false]
    by_cases hlen : MAX_PARAM_LEN - 1 ≤ decVal ds
    · simp only [hlen, if_true]
    · simp only [hlen, if_false]
      cases hs : strlen e1 with
      | none => rfl
      | some n =>
        simp only
        by_cases hn : n < decVal ds
        · simp only [hn, if_true]
        · simp only [hn, if_false]
          rw [(take_of_strlen e1 n (decVal ds) hs (by omega)).1]

theorem lexAfterOpt_skip (ct : CType) (h : ct.Sane) (opt ws r : List Nat)
    (hws : ∀ w ∈ ws, w ∈ sixSpaces) :
    lexAfterOpt ct opt (ws ++ r) = lexAfterOpt ct opt r := by
  simp only [lexAfterOpt, skipSpace_append ct ws _ (h.isspace_of_mem hws)]

/-- The lexer on a line that consists of whitespace, a run of name characters,
whitespace again, and a byte `c` that is no whitespace. -/
theorem lexLine_name_then (ct : CType) (h : ct.Sane) (ws0 name ws1 tail : List Nat) (c : Nat)
    (hws0 : ∀ w ∈ ws0, w ∈ sixSpaces) (hws1 : ∀ w ∈ ws1, w ∈ sixSpaces)
    (hne : name ≠ []) (hchars : ∀ x ∈ name, isOptChar ct x = true)
    (hc : ws1 = [] → isOptChar ct c = false)
    (hb : skipBOM (ws0 ++ name ++ (ws1 ++ c :: tail)) = some (ws0 ++ name ++ (ws1 ++ c :: tail))) :
    lexLine ct (ws0 ++ name ++ (ws1 ++ c :: tail)) =
      if MAX_OPT_LEN ≤ name.length then some LexResult.optTooLong
      else if isHeader name then some (LexResult.header name)
      else lexAfterOpt ct name (c :: tail) := by
  cases ws1 with
  | nil =>
    simp only [List.nil_append] at hb ⊢
    exact lexLine_of_name ct h ws0 name c tail hws0 hne hchars (hc rfl) hb
  | cons w ws2 =>
    have hw : isOptChar ct w = false := isOptChar_of_space h (hws1 w (List.mem_cons_self _ _))
    have := lexLine_of_name ct h ws0 name w (ws2 ++ c :: tail) hws0 hne hchars hw
      (by simpa using hb)
    simp only [List.cons_append]
    rw [this]
    have hs : lexAfterOpt ct name (w :: (ws2 ++ c :: tail)) = lexAfterOpt ct name (c :: tail) := by
      have := lexAfterOpt_skip ct h name (w :: ws2) (c :: tail) hws1
      simpa using this
    rw [hs]

/-- The lexer from the `=` on. -/
theorem lexAfterOpt_eq (ct : CType) (h : ct.Sane) (opt after : List Nat) :
    lexAfterOpt ct opt (61 :: after) =
      match readParam ct after with
      | none => none
      | some ParamScan.quotedTooLong => some LexResult.quotedTooLong
      | some ParamScan.bogusLength => some LexResult.bogusLength
      | some ParamScan.bareTooLong => some LexResult.bareTooLong
      | some (ParamScan.done param r) => lexEnd opt param true (skipSpace ct r) := by
  have h61 : (61 : Nat) ∉ sixSpaces := by simp [sixSpaces]
  simp only [lexAfterOpt, skipSpace_cons_of_not ct 61 _ (h.isspace_false h61), if_true]

theorem lexEnd_directive (opt param : List Nat) (ps : Bool) (r : List Nat) (o p : List Nat)
    (ps1 ex : Bool) (hl : lexEnd opt param ps r = some (LexResult.directive o p ps1 ex)) :
    o = opt ∧ p = param ∧ ps1 = ps := by
  cases r with
  | nil => simp [lexEnd] at hl
  | cons c cs =>
    simp only [lexEnd, Option.some.injEq, LexResult.directive.injEq] at hl
    exact ⟨hl.1.symm, hl.2.1.symm, hl.2.2.1.symm⟩

/-- C5: on a line `name = %N%rest` (whitespace allowed around the name and
the `=`, `N` a non-empty string of decimal digits), whenever the lexer accepts
the line as a directive, the name is `name`, the value is the first `N` bytes
of `rest` (it has `N` bytes, none of them NUL, so `bstr0` hands it on as it
is), `value_set` is true, and the value scanner leaves the cursor at the byte
right after those `N` bytes. -/
theorem C5_length_prefixed (ct : CType) (h : ct.Sane) (ws0 name ws1 ws2 ds rest : List Nat)
    (hws0 : ∀ w ∈ ws0, w ∈ sixSpaces) (hws1 : ∀ w ∈ ws1, w ∈ sixSpaces)
    (hws2 : ∀ w ∈ ws2, w ∈ sixSpaces)
    (hne : name ≠ []) (hchars : ∀ x ∈ name, isOptChar ct x = true)
    (hds : ds ≠ []) (hdig : ∀ d ∈ ds, isDigit d = true)
    (hbom : startsWithBOM (ws0 ++ name ++ (ws1 ++ 61 :: (ws2 ++ 37 :: (ds ++ 37 :: rest))))
      = false)
    (opt param : List Nat) (ps ex : Bool)
    (hacc : lexLine ct (ws0 ++ name ++ (ws1 ++ 61 :: (ws2 ++ 37 :: (ds ++ 37 :: rest)))) =
      some (LexResult.directive opt param ps ex)) :
    opt = name ∧ param = rest.take (decVal ds) ∧ param.length = decVal ds ∧
      cstr param = param ∧ ps = true ∧
      readParam ct (ws2 ++ 37 :: (ds ++ 37 :: rest)) =
        some (ParamScan.done param (rest.drop (decVal ds))) := by
  have hl : 3 ≤ (ws0 ++ name ++ (ws1 ++ 61 :: (ws2 ++ 37 :: (ds ++ 37 :: rest)))).length := by
    obtain ⟨x, xs, rfl⟩ := List.exists_cons_of_ne_nil hne
    simp only [List.length_append, List.length_cons]
    omega
  have hb := skipBOM_of_length _ hl hbom
  rw [lexLine_name_then ct h ws0 name ws1 _ 61 hws0 hws1 hne hchars
    (fun _ => isOptChar_eq_sign ct) hb] at hacc
  split_ifs at hacc with h1 h2
  · simp at hacc
  · simp at hacc
  rw [lexAfterOpt_eq ct h, readParam_percent ct h ws2 ds rest hws2 hds hdig] at hacc
  rw [readParam_percent ct h ws2 ds rest hws2 hds hdig]
  split_ifs at hacc ⊢ with h3
  · simp at hacc
  · cases hs : strlen rest with
    | none => simp [hs] at hacc
    | some n =>
      simp only [hs] at hacc ⊢
      split_ifs at hacc ⊢ with h4
      · simp at hacc
      · obtain ⟨ho, hp, hps⟩ := lexEnd_directive _ _ _ _ _ _ _ _ hacc
        have ht := take_of_strlen rest n (decVal ds) hs (by omega)
        subst hp
        refine ⟨ho, rfl, ht.2.1, cstr_of_no_nul _ ht.2.2, hps, rfl⟩

theorem C5_length_prefixed_witness :
    lexLine mpCtype (bytes "opt=%3%xyz # c\n\x00") =
        some (LexResult.directive (bytes "opt") (bytes "xyz") true false) ∧
      (bytes "opt" = bytes "opt" ∧ bytes "xyz" = (bytes "xyz # c\n\x00").take (decVal [51]) ∧
        (bytes "xyz").length = decVal [51] ∧ cstr (bytes "xyz") = bytes "xyz" ∧ true = true ∧
        readParam mpCtype ([] ++ 37 :: ([51] ++ 37 :: bytes "xyz # c\n\x00")) =
          some (ParamScan.done (bytes "xyz") ((bytes "xyz # c\n\x00").drop (decVal [51])))) :=
  ⟨by decide,
   C5_length_prefixed mpCtype mpCtype_sane [] (bytes "opt") [] [] [51] (bytes "xyz # c\n\x00")
    (by decide) (by decide) (by decide) (by decide) (by decide) (by decide) (by decide)
    (by decide) (bytes "opt") (bytes "xyz") true false (by decide)⟩

/-- C6 (amended): on a line `name = %N%content` where `name` is a token the
lexer takes as an option name, `N` is a non-empty string of decimal digits and
fewer than `N` bytes stand between the second `%` and the terminating NUL of
the line buffer (a newline that `fgets` left attached is one of these bytes),
the line is rejected with "bogus % length": the diagnostic is the only event
of the line, `errors` is incremented and `ret` becomes -1. -/
theorem C6_bogus_length (ct : CType) (h : ct.Sane) (env : Env) (flags : Nat) (st : State)
    (ws0 name ws1 ws2 ds content stale : List Nat)
    (hws0 : ∀ w ∈ ws0, w ∈ sixSpaces) (hws1 : ∀ w ∈ ws1, w ∈ sixSpaces)
    (hws2 : ∀ w ∈ ws2, w ∈ sixSpaces) (hname : IsOptName ct name)
    (hds : ds ≠ []) (hdig : ∀ d ∈ ds, isDigit d = true)
    (h0 : 0 ∉ content) (hshort : content.length < decVal ds)
    (hbom : startsWithBOM
      (ws0 ++ name ++ (ws1 ++ 61 :: (ws2 ++ 37 :: (ds ++ 37 :: (content ++ 0 :: stale)))))
      = false)
    (hline : st.line =
      ws0 ++ name ++ (ws1 ++ 61 :: (ws2 ++ 37 :: (ds ++ 37 :: (content ++ 0 :: stale))))) :
    processLine ct env flags st =
      some { st with ret := -1, errors := st.errors + 1, line_num := st.line_num + 1,
                     trace := Event.lineErr (st.line_num + 1) LineDiag.bogusLength :: st.trace } := by
  have hl : 3 ≤ (ws0 ++ name ++
      (ws1 ++ 61 :: (ws2 ++ 37 :: (ds ++ 37 :: (content ++ 0 :: stale))))).length := by
    obtain ⟨x, xs, hx⟩ := List.exists_cons_of_ne_nil hname.nonempty
    subst hx
    simp only [List.length_append, List.length_cons]
    omega
  have hb := skipBOM_of_length _ hl hbom
  have hlex : lexLine ct st.line = some LexResult.bogusLength := by
    rw [hline, lexLine_name_then ct h ws0 name ws1 _ 61 hws0 hws1 hname.nonempty hname.chars
      (fun _ => isOptChar_eq_sign ct) hb, if_neg (not_le.mpr hname.short), hname.not_header]
    simp only [Bool.false_eq_true, if_false]
    rw [lexAfterOpt_eq ct h, readParam_percent ct h ws2 ds _ hws2 hds hdig,
      strlen_append_nul content stale h0]
    split_ifs with h1
    · rfl
    · simp only [hshort, if_true]
  simp only [processLine, hlex, State.lexError]

theorem C6_bogus_length_witness :
    processLine mpCtype demoEnv 0 (demoState 0 (bytes "opt=%3%xy\x00")) =
      some { demoState 0 (bytes "opt=%3%xy\x00") with
               ret := -1, errors := 1, line_num := 1,
               trace := [Event.lineErr 1 LineDiag.bogusLength] } :=
  C6_bogus_length mpCtype mpCtype_sane demoEnv 0 (demoState 0 (bytes "opt=%3%xy\x00"))
    [] (bytes "opt") [] [] [51] (bytes "xy") []
    (by decide) (by decide) (by decide) ⟨by decide, by decide, by decide, by decide⟩
    (by decide) (by decide) (by decide) (by decide) (by decide) (by decide)

/-- C6 fails when the newline is still attached: for `opt=%3%xy` followed by
the newline that `fgets` keeps, the three bytes `x`, `y`, newline are taken as
the value, the setter is called with it, and neither `errors` nor `ret`
records an error. -/
theorem C6_counterexample :
    lexLine mpCtype (bytes "opt=%3%xy\n\x00") =
      some (LexResult.directive (bytes "opt") (bytes "xy\n") true false) ∧
    processLine mpCtype demoEnv 0 (demoState 0 (bytes "opt=%3%xy\n\x00")) =
      some { demoState 0 (bytes "opt=%3%xy\n\x00") with
               ret := 1, errors := 0, line_num := 1,
               trace := [Event.set_option_ext (bytes "opt") (bytes "xy\n") 0,
                         Event.requires_param (bytes "opt")] } := by
  decide

/-- The trace after lines 213-251, case by case. -/
theorem dispatch_trace (env : Env) (flags : Nat) (st : State) (opt param : List Nat)
    (ps ex : Bool) :
    (dispatch env flags st opt param ps ex).trace =
      if st.profile ≠ 0 ∧ normalize (cstr opt) = bytes "profile-desc" then
        Event.set_desc st.profile (cstr param) :: traceAtDispatch st ex
      else if 0 < env.requires_param (traceAtDispatch st ex) (normalize (cstr opt)) ∧ ps = false
      then
        Event.lineErr st.line_num LineDiag.missingParam ::
          Event.requires_param (normalize (cstr opt)) :: traceAtDispatch st ex
      else if setterResult env
          (Event.requires_param (normalize (cstr opt)) :: traceAtDispatch st ex)
          st.profile flags (normalize (cstr opt)) (cstr param) < 0
      then
        Event.lineErr st.line_num LineDiag.setFailed ::
          setterEvent st.profile flags (normalize (cstr opt)) (cstr param) ::
          Event.requires_param (normalize (cstr opt)) :: traceAtDispatch st ex
      else
        setterEvent st.profile flags (normalize (cstr opt)) (cstr param) ::
          Event.requires_param (normalize (cstr opt)) :: traceAtDispatch st ex := by
  cases ex <;> cases ps <;>
    simp only [dispatch, traceAtDispatch, setterEvent, setterResult, Bool.false_eq_true,
      if_false, if_true, Bool.not_false, Bool.not_true, Bool.and_true, Bool.and_false,
      decide_eq_true_eq, and_true, and_false] <;>
    split_ifs <;> first | rfl | simp_all

/-- The other variables after lines 213-251. -/
theorem dispatch_fields (env : Env) (flags : Nat) (st : State) (opt param : List Nat)
    (ps ex : Bool) :
    (dispatch env flags st opt param ps ex).ret = (if ex then -1 else st.ret) ∧
    (dispatch env flags st opt param ps ex).errors = st.errors ∧
    (dispatch env flags st opt param ps ex).profile = st.profile ∧
    (dispatch env flags st opt param ps ex).line_num = st.line_num ∧
    (dispatch env flags st opt param ps ex).line = st.line := by
  cases ex <;>
    simp only [dispatch, Bool.false_eq_true, if_false, if_true] <;>
    split_ifs <;> simp

theorem setterCalls_cons (e : Event) (t : List Event) :
    setterCalls (e :: t) = setterCalls t + (if e.isSetter then 1 else 0) := by
  unfold setterCalls
  by_cases h : e.isSetter = true <;> simp [List.filter_cons, h]

theorem setterEvent_isSetter (profile flags : Nat) (bopt bparam : List Nat) :
    (setterEvent profile flags bopt bparam).isSetter = true := by
  unfold setterEvent
  split_ifs <;> rfl

theorem setterCalls_traceAtDispatch (st : State) (ex : Bool) :
    setterCalls (traceAtDispatch st ex) = setterCalls st.trace := by
  unfold traceAtDispatch
  split_ifs
  · rw [setterCalls_cons]; simp [Event.isSetter]
  · rfl

theorem processLine_of_directive (ct : CType) (env : Env) (flags : Nat) (st : State)
    (opt param : List Nat) (ps ex : Bool)
    (hlex : lexLine ct st.line = some (LexResult.directive opt param ps ex)) :
    processLine ct env flags st = some (dispatch env flags (nextLine st) opt param ps ex) := by
  simp only [processLine, hlex, nextLine]

/-- C8 (amended): on a line whose name token is a token the lexer takes as
an option name and is followed, after optional whitespace, by a byte `c` that
is not `=`, the directive has `value_set = false` and an empty value.  Unless
it is the `profile-desc` pseudo-directive, a setter is called for the line if
and only if the option registry does not report that the normalized name
requires a value, and that call carries the normalized name and the empty
value.  When a value is required, the line ends with the registry call and
the "missing parameter" diagnostic, and the loop goes on with the state
returned. -/
theorem C8_no_value (ct : CType) (h : ct.Sane) (env : Env) (flags : Nat) (st : State)
    (ws0 name ws1 tail : List Nat) (c : Nat)
    (hws0 : ∀ w ∈ ws0, w ∈ sixSpaces) (hws1 : ∀ w ∈ ws1, w ∈ sixSpaces)
    (hname : IsOptName ct name)
    (hc : ws1 = [] → isOptChar ct c = false) (hcs : c ∉ sixSpaces) (hc61 : c ≠ 61)
    (hbom : startsWithBOM (ws0 ++ name ++ (ws1 ++ c :: tail)) = false)
    (hnul : 0 ∈ c :: tail)
    (hline : st.line = ws0 ++ name ++ (ws1 ++ c :: tail)) :
    lexLine ct st.line =
        some (LexResult.directive name [] false (decide (c ≠ 0 ∧ c ≠ 35))) ∧
      ∃ st1, processLine ct env flags st = some st1 ∧
        (¬ (st.profile ≠ 0 ∧ normalize name = bytes "profile-desc") →
          (setterCalls st1.trace = setterCalls st.trace + 1 ↔
            env.requires_param (traceAtDispatch (nextLine st) (decide (c ≠ 0 ∧ c ≠ 35)))
              (normalize name) ≤ 0) ∧
          (env.requires_param (traceAtDispatch (nextLine st) (decide (c ≠ 0 ∧ c ≠ 35)))
              (normalize name) ≤ 0 →
            setterEvent st.profile flags (normalize name) [] ∈ st1.trace) ∧
          (0 < env.requires_param (traceAtDispatch (nextLine st) (decide (c ≠ 0 ∧ c ≠ 35)))
              (normalize name) →
            setterCalls st1.trace = setterCalls st.trace ∧
            st1.trace = Event.lineErr (st.line_num + 1) LineDiag.missingParam ::
              Event.requires_param (normalize name) ::
                traceAtDispatch (nextLine st) (decide (c ≠ 0 ∧ c ≠ 35)))) := by
  have hmem : 0 ∈ ws0 ++ name ++ (ws1 ++ c :: tail) := by
    simp only [List.mem_append]
    exact Or.inr (Or.inr hnul)
  have hb := skipBOM_of_nul _ hmem hbom
  have hlex : lexLine ct st.line =
      some (LexResult.directive name [] false (decide (c ≠ 0 ∧ c ≠ 35))) := by
    rw [hline, lexLine_name_then ct h ws0 name ws1 tail c hws0 hws1 hname.nonempty hname.chars
      hc hb, if_neg (not_le.mpr hname.short), hname.not_header]
    simp only [Bool.false_eq_true, if_false, lexAfterOpt,
      skipSpace_cons_of_not ct c tail (h.isspace_false hcs), hc61, lexEnd]
  refine ⟨hlex, _, processLine_of_directive ct env flags st _ _ _ _ hlex, ?_⟩
  intro hpd
  have hcstr : cstr name = name := cstr_of_no_nul name (hname.no_nul h)
  have hcn : cstr ([] : List Nat) = [] := rfl
  have hpd1 : ¬ ((nextLine st).profile ≠ 0 ∧ normalize name = bytes "profile-desc") := hpd
  have hcount : setterCalls (traceAtDispatch (nextLine st) (decide (c ≠ 0 ∧ c ≠ 35))) =
      setterCalls st.trace := setterCalls_traceAtDispatch (nextLine st) _
  have hse := setterEvent_isSetter st.profile flags (normalize name) []
  rw [dispatch_trace, hcstr, hcn, if_neg hpd1]
  have hprof : (nextLine st).profile = st.profile := rfl
  have hnum : (nextLine st).line_num = st.line_num + 1 := rfl
  rw [hprof, hnum]
  by_cases hreq : 0 < env.requires_param (traceAtDispatch (nextLine st)
      (decide (c ≠ 0 ∧ c ≠ 35))) (normalize name)
  · have hle : ¬ env.requires_param (traceAtDispatch (nextLine st)
        (decide (c ≠ 0 ∧ c ≠ 35))) (normalize name) ≤ 0 := by omega
    rw [if_pos ⟨hreq, rfl⟩]
    refine ⟨?_, fun h0 => absurd h0 hle, fun _ => ⟨?_, rfl⟩⟩
    · simp only [setterCalls_cons, hcount, Event.isSetter, Bool.false_eq_true, if_false,
        Nat.add_zero]
      constructor
      · intro h1; omega
      · intro h1; exact absurd h1 hle
    · simp only [setterCalls_cons, hcount, Event.isSetter, Bool.false_eq_true, if_false,
        Nat.add_zero]
  · have hle : env.requires_param (traceAtDispatch (nextLine st)
        (decide (c ≠ 0 ∧ c ≠ 35))) (normalize name) ≤ 0 := by omega
    have hn : ¬ (0 < env.requires_param (traceAtDispatch (nextLine st)
        (decide (c ≠ 0 ∧ c ≠ 35))) (normalize name) ∧ false = false) := fun hh => hreq hh.1
    rw [if_neg hn]
    refine ⟨?_, fun _ => ?_, fun h0 => absurd h0 hreq⟩
    · have hl1 : ∀ n d, (Event.lineErr n d).isSetter = false := fun _ _ => rfl
      have hr1 : ∀ n, (Event.requires_param n).isSetter = false := fun _ => rfl
      split_ifs <;>
        simp only [setterCalls_cons, hcount, hse, hl1, hr1, Bool.false_eq_true, if_false,
          if_true, Nat.add_zero, hle]
    · split_ifs <;> simp

theorem C8_no_value_witness :
    lexLine mpCtype (demoState 0 (bytes " need  other\n\x00")).line =
        some (LexResult.directive (bytes "need") [] false (decide ((111 : Nat) ≠ 0 ∧ (111 : Nat) ≠ 35))) ∧
      ∃ st1, processLine mpCtype strictEnv 0 (demoState 0 (bytes " need  other\n\x00")) = some st1 ∧
        (¬ ((demoState 0 (bytes " need  other\n\x00")).profile ≠ 0 ∧
              normalize (bytes "need") = bytes "profile-desc") →
          (setterCalls st1.trace =
              setterCalls (demoState 0 (bytes " need  other\n\x00")).trace + 1 ↔
            strictEnv.requires_param
              (traceAtDispatch (nextLine (demoState 0 (bytes " need  other\n\x00")))
                (decide ((111 : Nat) ≠ 0 ∧ (111 : Nat) ≠ 35)))
              (normalize (bytes "need")) ≤ 0) ∧
          (strictEnv.requires_param
              (traceAtDispatch (nextLine (demoState 0 (bytes " need  other\n\x00")))
                (decide ((111 : Nat) ≠ 0 ∧ (111 : Nat) ≠ 35)))
              (normalize (bytes "need")) ≤ 0 →
            setterEvent (demoState 0 (bytes " need  other\n\x00")).profile 0
              (normalize (bytes "need")) [] ∈ st1.trace) ∧
          (0 < strictEnv.requires_param
              (traceAtDispatch (nextLine (demoState 0 (bytes " need  other\n\x00")))
                (decide ((111 : Nat) ≠ 0 ∧ (111 : Nat) ≠ 35)))
              (normalize (bytes "need")) →
            setterCalls st1.trace =
              setterCalls (demoState 0 (bytes " need  other\n\x00")).trace ∧
            st1.trace =
              Event.lineErr ((demoState 0 (bytes " need  other\n\x00")).line_num + 1)
                  LineDiag.missingParam ::
                Event.requires_param (normalize (bytes "need")) ::
                  traceAtDispatch (nextLine (demoState 0 (bytes " need  other\n\x00")))
                    (decide ((111 : Nat) ≠ 0 ∧ (111 : Nat) ≠ 35)))) :=
  C8_no_value mpCtype mpCtype_sane strictEnv 0 (demoState 0 (bytes " need  other\n\x00"))
    [32] (bytes "need") [32, 32] (bytes "ther\n\x00") 111
    (by decide) (by decide) ⟨by decide, by decide, by decide, by decide⟩
    (by decide) (by decide) (by decide) (by decide) (by decide) (by decide)

/-- C8 fails for a bracketed token and for a token of 1000 bytes, neither
followed by `=`: although the option registry of `demoEnv` reports for every
name that no value is required, no setter is called; the first line selects a
profile, the second is rejected as too long. -/
theorem C8_counterexample :
    (processLine mpCtype demoEnv 0 (demoState 0 (bytes "[abc]\n\x00")) =
        some { demoState 0 (bytes "[abc]\n\x00") with
                 line_num := 1, profile := 295,
                 trace := [Event.add_profile (some (bytes "abc"))] } ∧
      demoEnv.requires_param [] (normalize (bytes "[abc]")) = 0) ∧
    (processLine mpCtype demoEnv 0 (demoState 0 (List.replicate 1000 97 ++ [10, 0])) =
        some { demoState 0 (List.replicate 1000 97 ++ [10, 0]) with
                 ret := -1, errors := 1, line_num := 1,
                 trace := [Event.lineErr 1 LineDiag.optTooLong] } ∧
      demoEnv.requires_param [] (normalize (List.replicate 1000 97)) = 0) := by
  decide

theorem currentProfile_traceAtDispatch (env : Env) (st : State) (ex : Bool) :
    currentProfile env (traceAtDispatch st ex) = currentProfile env st.trace := by
  cases ex <;> simp [traceAtDispatch, currentProfile]

theorem settersFollowProfile_traceAtDispatch (env : Env) (st : State) (ex : Bool) :
    settersFollowProfile env (traceAtDispatch st ex) = settersFollowProfile env st.trace := by
  cases ex <;> simp [traceAtDispatch, settersFollowProfile]

theorem dispatch_profileInv (env : Env) (flags : Nat) (st : State) (opt param : List Nat)
    (ps ex : Bool) (hinv : ProfileInv env st) :
    ProfileInv env (dispatch env flags st opt param ps ex) := by
  obtain ⟨hp, hs⟩ := hinv
  have hc := currentProfile_traceAtDispatch env st ex
  have hf := settersFollowProfile_traceAtDispatch env st ex
  unfold ProfileInv
  rw [dispatch_trace, (dispatch_fields env flags st opt param ps ex).2.2.1]
  by_cases h0 : st.profile ≠ 0
  · split_ifs <;>
      simp [currentProfile, settersFollowProfile, setterEvent, h0, hc, hf, hs, ← hp]
  · split_ifs <;>
      simp_all [currentProfile, settersFollowProfile, setterEvent]

theorem processLine_profileInv (ct : CType) (env : Env) (flags : Nat) (st st1 : State)
    (h : processLine ct env flags st = some st1) (hinv : ProfileInv env st) :
    ProfileInv env st1 := by
  obtain ⟨hp, hs⟩ := hinv
  unfold processLine at h
  simp only at h
  split at h <;> simp at h <;> subst h
  all_goals first
    | exact ⟨hp, hs⟩
    | (simp [ProfileInv, State.lexError, currentProfile, settersFollowProfile, hp, hs]; done)
    | exact dispatch_profileInv env flags { st with line_num := st.line_num + 1 } _ _ _ _ ⟨hp, hs⟩

theorem loop_profileInv (ct : CType) (env : Env) (flags : Nat) (ls : List (List Nat)) :
    ∀ (st st1 : State), loop ct env flags ls st = some st1 → ProfileInv env st →
      ProfileInv env st1 := by
  induction ls with
  | nil =>
    intro st st1 h hinv
    simp [loop] at h
    subst h
    simpa [ProfileInv, currentProfile, settersFollowProfile] using hinv
  | cons l ls ih =>
    intro st st1 h hinv
    simp only [loop] at h
    split_ifs at h with h16
    · simp at h
      subst h
      simpa [ProfileInv, currentProfile, settersFollowProfile] using hinv
    · split at h
      · simp at h
      · rename_i st2 hp
        refine ih st2 st1 h (processLine_profileInv ct env flags _ st2 hp ?_)
        simpa [ProfileInv, currentProfile, settersFollowProfile] using hinv


theorem hasLexError_cons (e : Event) (t : List Event) :
    hasLexError (e :: t) = (e.isLexError || hasLexError t) := by
  simp [hasLexError]

theorem hasLexError_traceAtDispatch (st : State) (ex : Bool) :
    hasLexError (traceAtDispatch st ex) = (ex || hasLexError st.trace) := by
  cases ex <;> simp [traceAtDispatch, hasLexError_cons, Event.isLexError, LineDiag.isLex]

theorem hasLexError_dispatch (env : Env) (flags : Nat) (st : State) (opt param : List Nat)
    (ps ex : Bool) :
    hasLexError (dispatch env flags st opt param ps ex).trace = (ex || hasLexError st.trace) := by
  have hse : (setterEvent st.profile flags (normalize (cstr opt)) (cstr param)).isLexError
      = false := by
    unfold setterEvent
    split_ifs <;> rfl
  have hl : ∀ n d, (Event.lineErr n d).isLexError = d.isLex := fun _ _ => rfl
  have hr : ∀ n, (Event.requires_param n).isLexError = false := fun _ => rfl
  have hd : ∀ p v, (Event.set_desc p v).isLexError = false := fun _ _ => rfl
  rw [dispatch_trace]
  split_ifs <;>
    simp [hasLexError_cons, hasLexError_traceAtDispatch, hl, hr, hd, LineDiag.isLex, hse]

theorem dispatch_retInv (env : Env) (flags : Nat) (st : State) (opt param : List Nat)
    (ps ex : Bool) (hinv : RetInv st) : RetInv (dispatch env flags st opt param ps ex) := by
  obtain ⟨h1, h2⟩ := hinv
  unfold RetInv
  rw [hasLexError_dispatch, (dispatch_fields env flags st opt param ps ex).1]
  cases ex
  · simpa using ⟨h1, h2⟩
  · simp

theorem processLine_retInv (ct : CType) (env : Env) (flags : Nat) (st st1 : State)
    (h : processLine ct env flags st = some st1) (hinv : RetInv st) : RetInv st1 := by
  obtain ⟨h1, h2⟩ := hinv
  unfold processLine at h
  simp only at h
  split at h <;> simp at h <;> subst h
  all_goals first
    | exact ⟨h1, h2⟩
    | exact dispatch_retInv env flags { st with line_num := st.line_num + 1 } _ _ _ _ ⟨h1, h2⟩
    | simp [RetInv, State.lexError, hasLexError_cons, Event.isLexError, LineDiag.isLex]

theorem loop_retInv (ct : CType) (env : Env) (flags : Nat) (ls : List (List Nat)) :
    ∀ (st st1 : State), loop ct env flags ls st = some st1 → RetInv st → RetInv st1 := by
  induction ls with
  | nil =>
    intro st st1 h hinv
    simp [loop] at h
    subst h
    simpa [RetInv, hasLexError_cons, Event.isLexError] using hinv
  | cons l ls ih =>
    intro st st1 h hinv
    simp only [loop] at h
    split_ifs at h with h16
    · simp at h
      subst h
      simpa [RetInv, hasLexError_cons, Event.isLexError] using hinv
    · split at h
      · simp at h
      · rename_i st2 hp
        refine ih st2 st1 h (processLine_retInv ct env flags _ st2 hp ?_)
        simpa [RetInv, hasLexError_cons, Event.isLexError] using hinv

theorem finish_eq (d ret : Int) (t : List Event) (r : Result) (h : finish d ret t = some r) :
    r.ret = ret ∧ r.recursion_depth = d - 1 ∧
      r.trace = (if ret < 0 then Event.errorLoading :: t else t) := by
  unfold finish at h
  split_ifs at h <;> simp at h <;> subst h <;> simp [*]

/-- The state at the label `out` of a run that opened the file. -/
theorem run_opened (ct : CType) (env : Env) (d : Int) (buf content : List Nat)
    (init : Option (List Nat)) (flags : Nat) (r : Result) (hd : d ≤ MAX_RECURSION_DEPTH)
    (hr : m_config_parse_config_file ct env d (some buf) (some content) init flags = some r) :
    ∃ st1, loop ct env (flags ||| env.M_SETOPT_FROM_CONFIG_FILE)
        (fileLines content.length content)
        { ret := 1, errors := 0, line_num := 0, profile := env.add_profile [] init,
          line := buf, trace := [Event.fopen, Event.add_profile init] } = some st1 ∧
      r.ret = st1.ret ∧ r.recursion_depth = d - 1 ∧
      r.trace = (if st1.ret < 0 then Event.errorLoading :: st1.trace else st1.trace) := by
  have hnd : ¬ MAX_RECURSION_DEPTH < d := not_lt.mpr hd
  simp only [m_config_parse_config_file, hnd, if_false] at hr
  split at hr
  · simp at hr
  · rename_i st1 hloop
    exact ⟨st1, hloop, finish_eq _ _ _ _ hr⟩

/-- Claim C2, general part: in every run the setter calls follow the current
profile. -/
theorem run_settersFollowProfile (ct : CType) (env : Env) (d : Int)
    (malloc file : Option (List Nat)) (init : Option (List Nat)) (flags : Nat) (r : Result)
    (hr : m_config_parse_config_file ct env d malloc file init flags = some r) :
    settersFollowProfile env r.trace = true := by
  by_cases hd : MAX_RECURSION_DEPTH < d
  · simp only [m_config_parse_config_file, hd, if_true] at hr
    obtain ⟨_, _, ht⟩ := finish_eq _ _ _ _ hr
    rw [ht]; simp [settersFollowProfile]
  · cases malloc with
    | none =>
      simp only [m_config_parse_config_file, hd, if_false] at hr
      obtain ⟨_, _, ht⟩ := finish_eq _ _ _ _ hr
      rw [ht]; simp [settersFollowProfile]
    | some buf =>
      cases file with
      | none =>
        simp only [m_config_parse_config_file, hd, if_false] at hr
        obtain ⟨_, _, ht⟩ := finish_eq _ _ _ _ hr
        rw [ht]; simp [settersFollowProfile]
      | some content =>
        obtain ⟨st1, hloop, _, _, ht⟩ := run_opened ct env d buf content init flags r
          (not_lt.mp hd) hr
        have hinv := loop_profileInv ct env _ _ _ st1 hloop
          (by simp [ProfileInv, currentProfile, settersFollowProfile])
        rw [ht]
        split_ifs
        · simpa [settersFollowProfile] using hinv.2
        · exact hinv.2

/-- C1 (amended): for a file that is opened, the loader returns -1 if the
lexer printed a diagnostic for at least one line (empty name, oversized name
or value, bogus length prefix, extra trailing characters) and 1 otherwise; a
missing required value or a negative result of a setter does not change the
value returned. -/
theorem C1_return_code (ct : CType) (env : Env) (d : Int) (buf content : List Nat)
    (init : Option (List Nat)) (flags : Nat) (r : Result) (hd : d ≤ MAX_RECURSION_DEPTH)
    (hr : m_config_parse_config_file ct env d (some buf) (some content) init flags = some r) :
    (r.ret = -1 ↔ hasLexError r.trace = true) ∧ (r.ret = 1 ↔ hasLexError r.trace = false) := by
  obtain ⟨st1, hloop, hret, _, ht⟩ := run_opened ct env d buf content init flags r hd hr
  have hinv := loop_retInv ct env _ _ _ st1 hloop
    (by simp [RetInv, hasLexError, Event.isLexError])
  obtain ⟨h1, h2⟩ := hinv
  have hl : hasLexError r.trace = hasLexError st1.trace := by
    rw [ht]
    split_ifs
    · simp [hasLexError_cons, Event.isLexError]
    · rfl
  rw [hl, hret]
  refine ⟨h2, ?_⟩
  rcases h1 with h1 | h1
  · have : ¬ st1.ret = -1 := by omega
    have h3 : hasLexError st1.trace = false := by
      cases hb : hasLexError st1.trace with
      | false => rfl
      | true => exact absurd (h2.2 hb) this
    simp [h1, h3]
  · have h3 : hasLexError st1.trace = true := h2.1 h1
    simp [h1, h3]

theorem C1_return_code_witness :
    ((Result.mk (-1) (-1) [Event.errorLoading, Event.fgets,
          Event.lineErr 2 LineDiag.setFailed,
          Event.set_option_ext (bytes "bad") (bytes "1") 4,
          Event.requires_param (bytes "bad"),
          Event.lineErr 2 LineDiag.extraChars,
          Event.fgets,
          Event.lineErr 1 LineDiag.missingParam,
          Event.requires_param (bytes "need"),
          Event.fgets, Event.fopen, Event.add_profile none]).ret = -1 ↔
      hasLexError (Result.mk (-1) (-1) [Event.errorLoading, Event.fgets,
          Event.lineErr 2 LineDiag.setFailed,
          Event.set_option_ext (bytes "bad") (bytes "1") 4,
          Event.requires_param (bytes "bad"),
          Event.lineErr 2 LineDiag.extraChars,
          Event.fgets,
          Event.lineErr 1 LineDiag.missingParam,
          Event.requires_param (bytes "need"),
          Event.fgets, Event.fopen, Event.add_profile none]).trace = true) :=
  (C1_return_code mpCtype strictEnv 0 zeroBuf (bytes "need\nbad=1 x\n") none 0 _ (by decide)
    (by decide)).1

/-- C1 fails for a missing required value and for a setter that rejects the
option: the file with the two lines `need` and `bad=1` draws the diagnostics
"missing parameter" (line 1) and "setting option failed" (line 2), and the
loader returns 1. -/
theorem C1_counterexample :
    m_config_parse_config_file mpCtype strictEnv 0 (some zeroBuf)
        (some (bytes "need\nbad=1\n")) none 0 =
      some { ret := 1, recursion_depth := -1,
             trace := [Event.fgets,
                       Event.lineErr 2 LineDiag.setFailed,
                       Event.set_option_ext (bytes "bad") (bytes "1") 4,
                       Event.requires_param (bytes "bad"),
                       Event.fgets,
                       Event.lineErr 1 LineDiag.missingParam,
                       Event.requires_param (bytes "need"),
                       Event.fgets, Event.fopen, Event.add_profile none] } := by
  decide

theorem QuoteFree.tail {c : Nat} {cs : List Nat} (h : QuoteFree (c :: cs)) (hc : c ≠ 0) :
    QuoteFree cs := by
  obtain ⟨h0, hq⟩ := h
  refine ⟨?_, ?_⟩
  · rcases List.mem_cons.1 h0 with h1 | h1
    · exact absurd h1.symm hc
    · exact h1
  · intro x hx
    apply hq
    simp [cstr, hc, hx]

theorem QuoteFree.ne_nil {s : List Nat} (h : QuoteFree s) : s ≠ [] := by
  intro hs
  subst hs
  simp [QuoteFree] at h

theorem QuoteFree.head_not_quote {c : Nat} {cs : List Nat} (h : QuoteFree (c :: cs)) :
    ¬ (c = 34 ∨ c = 39) := by
  by_cases hc : c = 0
  · subst hc; omega
  · have := h.2 c (by simp [cstr, hc])
    omega

theorem QuoteFree.drop {s : List Nat} (h : QuoteFree s) (n k : Nat) (hs : strlen s = some n)
    (hk : k ≤ n) : QuoteFree (s.drop k) := by
  induction k generalizing s n with
  | zero => simpa using h
  | succ k ih =>
    cases s with
    | nil => simp [strlen] at hs
    | cons c cs =>
      by_cases hc : c = 0
      · subst hc
        simp [strlen] at hs
        omega
      · simp only [strlen, hc, if_false, Option.map_eq_some'] at hs
        obtain ⟨m, hm, rfl⟩ := hs
        simp only [List.drop_succ_cons]
        exact ih (h.tail hc) m hm (by omega)

theorem strlen_isSome (s : List Nat) (h : 0 ∈ s) : ∃ n, strlen s = some n := by
  induction s with
  | nil => simp at h
  | cons c cs ih =>
    by_cases hc : c = 0
    · exact ⟨0, by simp [strlen, hc]⟩
    · rcases List.mem_cons.1 h with h1 | h1
      · exact absurd h1.symm hc
      · obtain ⟨n, hn⟩ := ih h1
        exact ⟨n + 1, by simp [strlen, hc, hn]⟩

theorem CType.Sane.isspace_nul {ct : CType} (h : ct.Sane) : ct.isspace 0 = false :=
  h.isspace_false (by simp [sixSpaces])

theorem skipSpace_quoteFree (ct : CType) (h : ct.Sane) (s : List Nat) (hs : QuoteFree s) :
    QuoteFree (skipSpace ct s) := by
  induction s with
  | nil => exact hs
  | cons c cs ih =>
    by_cases hc : ct.isspace c = true
    · have hc0 : c ≠ 0 := by
        intro h0
        rw [h0, h.isspace_nul] at hc
        exact Bool.noConfusion hc
      simp only [skipSpace, hc, if_true]
      exact ih (hs.tail hc0)
    · simp only [skipSpace, hc]
      exact hs

theorem skipCSpace_quoteFree (s : List Nat) (hs : QuoteFree s) : QuoteFree (skipCSpace s) := by
  induction s with
  | nil => exact hs
  | cons c cs ih =>
    by_cases hc : c_isspace c = true
    · have hc0 : c ≠ 0 := by
        intro h0
        subst h0
        simp [c_isspace] at hc
      simp only [skipCSpace, hc, if_true]
      exact ih (hs.tail hc0)
    · simp only [skipCSpace, hc]
      exact hs

theorem isOptChar_nul {ct : CType} (h : ct.Sane) : isOptChar ct 0 = false := by
  simp [isOptChar, h.isprint_ctrl 0 (by omega)]

theorem isBareChar_nul {ct : CType} (h : ct.Sane) : isBareChar ct 0 = false := by
  simp [isBareChar, h.isprint_ctrl 0 (by omega)]

theorem readOpt_quoteFree (ct : CType) (h : ct.Sane) (s : List Nat) :
    ∀ acc : List Nat, QuoteFree s →
      readOpt ct s acc = some Scan.tooLong ∨
        ∃ o r, readOpt ct s acc = some (Scan.done o r) ∧ QuoteFree r := by
  induction s with
  | nil => intro acc hs; exact absurd rfl hs.ne_nil
  | cons c cs ih =>
    intro acc hs
    by_cases hc : isOptChar ct c = true
    · have hc0 : c ≠ 0 := by
        intro h0
        rw [h0, isOptChar_nul h] at hc
        exact Bool.noConfusion hc
      by_cases hl : MAX_OPT_LEN ≤ (acc ++ [c]).length
      · left; simp only [readOpt, hc, if_true, hl]
      · simp only [readOpt, hc, if_true, hl, if_false]
        exact ih _ (hs.tail hc0)
    · right
      exact ⟨acc, c :: cs, by simp only [readOpt, hc]; rfl, hs⟩

theorem readBare_quoteFree (ct : CType) (h : ct.Sane) (s : List Nat) :
    ∀ acc : List Nat, QuoteFree s →
      readBare ct s acc = some Scan.tooLong ∨
        ∃ o r, readBare ct s acc = some (Scan.done o r) ∧ QuoteFree r := by
  induction s with
  | nil => intro acc hs; exact absurd rfl hs.ne_nil
  | cons c cs ih =>
    intro acc hs
    by_cases hc : isBareChar ct c = true
    · have hc0 : c ≠ 0 := by
        intro h0
        rw [h0, isBareChar_nul h] at hc
        exact Bool.noConfusion hc
      by_cases hl : MAX_PARAM_LEN ≤ (acc ++ [c]).length
      · left; simp only [readBare, hc, if_true, hl]
      · simp only [readBare, hc, if_true, hl, if_false]
        exact ih _ (hs.tail hc0)
    · right
      exact ⟨acc, c :: cs, by simp only [readBare, hc]; rfl, hs⟩

theorem strtoulDigits_quoteFree (s : List Nat) :
    ∀ acc : Nat, QuoteFree s → ∃ v e, strtoulDigits s acc = some (v, e) ∧ QuoteFree e := by
  induction s with
  | nil => intro acc hs; exact absurd rfl hs.ne_nil
  | cons c cs ih =>
    intro acc hs
    by_cases hc : isDigit c = true
    · have hc0 : c ≠ 0 := by
        intro h0
        subst h0
        simp [isDigit] at hc
      simp only [strtoulDigits, hc, if_true]
      exact ih _ (hs.tail hc0)
    · exact ⟨acc, c :: cs, by simp only [strtoulDigits, hc]; rfl, hs⟩

theorem strtoul_quoteFree (s : List Nat) (hs : QuoteFree s) :
    ∃ v b e, strtoul s = some (v, b, e) ∧ QuoteFree e := by
  have h1 := skipCSpace_quoteFree s hs
  unfold strtoul
  cases hsk : skipCSpace s with
  | nil => rw [hsk] at h1; exact absurd rfl h1.ne_nil
  | cons c cs =>
    rw [hsk] at h1
    simp only
    have hbody : QuoteFree (if c = 45 ∨ c = 43 then cs else c :: cs) := by
      split_ifs with hsign
      · exact h1.tail (by omega)
      · exact h1
    cases hb : (if c = 45 ∨ c = 43 then cs else c :: cs) with
    | nil => rw [hb] at hbody; exact absurd rfl hbody.ne_nil
    | cons d ds =>
      rw [hb] at hbody
      simp only
      by_cases hd : isDigit d = true
      · obtain ⟨v, e, hv, he⟩ := strtoulDigits_quoteFree (d :: ds) 0 hbody
        simp only [hd, if_true, hv]
        exact ⟨_, _, _, rfl, he⟩
      · simp only [hd]
        exact ⟨_, _, _, rfl, hs⟩

theorem readParam_quoteFree (ct : CType) (h : ct.Sane) (s : List Nat) (hs : QuoteFree s) :
    ∃ res, readParam ct s = some res ∧ ∀ p r, res = ParamScan.done p r → QuoteFree r := by
  have h1 := skipSpace_quoteFree ct h s hs
  unfold readParam
  cases hsk : skipSpace ct s with
  | nil => rw [hsk] at h1; exact absurd rfl h1.ne_nil
  | cons c cs =>
    rw [hsk] at h1
    have hq : ¬ (c = 34 ∨ c = 39) := h1.head_not_quote
    have hbare : ∃ res, (match readBare ct (c :: cs) [] with
        | none => none
        | some Scan.tooLong => some ParamScan.bareTooLong
        | some (Scan.done p r) => some (ParamScan.done p r)) = some res ∧
        ∀ p r, res = ParamScan.done p r → QuoteFree r := by
      rcases readBare_quoteFree ct h (c :: cs) [] h1 with hb | ⟨o, r, hb, hr⟩
      · rw [hb]; exact ⟨_, rfl, fun p r hpr => by simp at hpr⟩
      · rw [hb]
        refine ⟨_, rfl, fun p r1 hpr => ?_⟩
        simp only [ParamScan.done.injEq] at hpr
        rw [← hpr.2]; exact hr
    simp only [hq, if_false]
    by_cases h37 : c = 37
    · simp only [h37, if_true]
      obtain ⟨v, b, e, hst, he⟩ := strtoul_quoteFree cs (h1.tail (by omega))
      rw [hst]
      cases b with
      | false =>
        simp only
        rw [h37] at hbare
        exact hbare
      | true =>
        cases e with
        | nil => exact absurd rfl he.ne_nil
        | cons e0 e1 =>
          simp only
          by_cases he0 : e0 = 37
          · simp only [he0, if_true]
            by_cases hlen : MAX_PARAM_LEN - 1 ≤ v
            · simp only [hlen, if_true]
              exact ⟨_, rfl, fun p r hpr => by simp at hpr⟩
            · simp only [hlen, if_false]
              have he1 : QuoteFree e1 := he.tail (by omega)
              obtain ⟨n, hn⟩ := strlen_isSome e1 he1.1
              rw [hn]
              simp only
              by_cases hnv : n < v
              · simp only [hnv, if_true]
                exact ⟨_, rfl, fun p r hpr => by simp at hpr⟩
              · simp only [hnv, if_false]
                refine ⟨_, rfl, fun p r hpr => ?_⟩
                simp only [ParamScan.done.injEq] at hpr
                rw [← hpr.2]
                exact he1.drop n v hn (by omega)
          · simp only [he0, if_false]
            rw [h37] at hbare
            exact hbare
    · simp only [h37, if_false]
      exact hbare

theorem lexEnd_isSome (opt param : List Nat) (ps : Bool) (r : List Nat) (hr : r ≠ []) :
    ∃ res, lexEnd opt param ps r = some res := by
  cases r with
  | nil => exact absurd rfl hr
  | cons c cs => exact ⟨_, rfl⟩

theorem lexAfterOpt_quoteFree (ct : CType) (h : ct.Sane) (opt s : List Nat)
    (hs : QuoteFree s) : ∃ res, lexAfterOpt ct opt s = some res := by
  have h1 := skipSpace_quoteFree ct h s hs
  unfold lexAfterOpt
  cases hsk : skipSpace ct s with
  | nil => rw [hsk] at h1; exact absurd rfl h1.ne_nil
  | cons c cs =>
    rw [hsk] at h1
    simp only
    by_cases h61 : c = 61
    · simp only [h61, if_true]
      obtain ⟨res, hres, hq⟩ := readParam_quoteFree ct h cs (h1.tail (by omega))
      rw [hres]
      cases res with
      | quotedTooLong => exact ⟨_, rfl⟩
      | bogusLength => exact ⟨_, rfl⟩
      | bareTooLong => exact ⟨_, rfl⟩
      | done p r =>
        simp only
        exact lexEnd_isSome _ _ _ _ (skipSpace_quoteFree ct h r (hq p r rfl)).ne_nil
    · simp only [h61, if_false]
      exact ⟨_, rfl⟩

theorem skipBOM_quoteFree (s : List Nat) (hs : QuoteFree s) :
    ∃ s1, skipBOM s = some s1 ∧ QuoteFree s1 := by
  match s, hs with
  | [], hs => exact absurd rfl hs.ne_nil
  | [a], hs =>
    have h0 := hs.1
    simp only [List.mem_singleton] at h0
    subst h0
    exact ⟨[0], by simp [skipBOM], hs⟩
  | [a, b], hs =>
    by_cases ha : a = 0xEF
    · have hb : b = 0 := by
        have := hs.1
        simp only [List.mem_cons, List.mem_singleton, List.not_mem_nil, or_false] at this
        omega
      subst ha hb
      exact ⟨_, by simp [skipBOM], hs⟩
    · exact ⟨_, skipBOM_cons_of_ne a [b] ha, hs⟩
  | a :: b :: c :: r, hs =>
    simp only [skipBOM]
    split_ifs with h1 h2 h3
    · refine ⟨r, rfl, ?_⟩
      have t1 := hs.tail (c := a) (by omega)
      have t2 := t1.tail (c := b) (by omega)
      exact t2.tail (c := c) (by omega)
    · exact ⟨_, rfl, hs⟩
    · exact ⟨_, rfl, hs⟩
    · exact ⟨_, rfl, hs⟩

/-- On a buffer that holds a NUL with no quote character before it the lexer
stays inside the buffer. -/
theorem lexLine_quoteFree (ct : CType) (h : ct.Sane) (s : List Nat) (hs : QuoteFree s) :
    ∃ res, lexLine ct s = some res := by
  obtain ⟨s1, hb, h1⟩ := skipBOM_quoteFree s hs
  have h2 := skipSpace_quoteFree ct h s1 h1
  unfold lexLine
  rw [hb]
  simp only
  cases hsk : skipSpace ct s1 with
  | nil => rw [hsk] at h2; exact absurd rfl h2.ne_nil
  | cons c cs =>
    rw [hsk] at h2
    simp only
    by_cases hc : c = 0 ∨ c = 35
    · simp only [hc, if_true]; exact ⟨_, rfl⟩
    · simp only [hc, if_false]
      rcases readOpt_quoteFree ct h (c :: cs) [] h2 with hr | ⟨o, r, hr, hq⟩
      · rw [hr]; exact ⟨_, rfl⟩
      · rw [hr]
        simp only
        split_ifs
        · exact ⟨_, rfl⟩
        · exact ⟨_, rfl⟩
        · exact lexAfterOpt_quoteFree ct h o r hq

theorem processLine_isSome (ct : CType) (env : Env) (flags : Nat) (st : State)
    (h : ∃ res, lexLine ct st.line = some res) :
    ∃ st1, processLine ct env flags st = some st1 ∧ st1.line = st.line := by
  obtain ⟨res, hres⟩ := h
  unfold processLine
  simp only [hres]
  cases res <;> first
    | exact ⟨_, rfl, rfl⟩
    | exact ⟨_, rfl, (dispatch_fields _ _ _ _ _ _ _).2.2.2.2⟩

theorem cstr_append_nul_mem (l t : List Nat) : ∀ c ∈ cstr (l ++ 0 :: t), c ∈ l := by
  induction l with
  | nil => simp [cstr]
  | cons x xs ih =>
    intro c hc
    by_cases hx : x = 0
    · simp [cstr, hx] at hc
    · simp only [List.cons_append, cstr, hx, if_false, List.mem_cons] at hc
      rcases hc with hc | hc
      · rw [hc]; exact List.mem_cons_self _ _
      · exact List.mem_cons_of_mem _ (ih c hc)

theorem fgetsWrite_quoteFree (l buf : List Nat) (hl : ∀ c ∈ l, c ≠ 34 ∧ c ≠ 39) :
    QuoteFree (fgetsWrite l buf) := by
  unfold fgetsWrite
  exact ⟨by simp, fun c hc => hl c (cstr_append_nul_mem l _ c hc)⟩

/-- The loop reaches the label `out` when no line holds a quote character. -/
theorem loop_isSome (ct : CType) (h : ct.Sane) (env : Env) (flags : Nat)
    (ls : List (List Nat)) (hls : ∀ l ∈ ls, ∀ c ∈ l, c ≠ 34 ∧ c ≠ 39) :
    ∀ st : State, ∃ st1, loop ct env flags ls st = some st1 := by
  induction ls with
  | nil => intro st; exact ⟨_, rfl⟩
  | cons l ls ih =>
    intro st
    simp only [loop]
    split_ifs
    · exact ⟨_, rfl⟩
    · have hq : QuoteFree (fgetsWrite l st.line) :=
        fgetsWrite_quoteFree l st.line (hls l (List.mem_cons_self _ _))
      obtain ⟨st2, hp, _⟩ := processLine_isSome ct env flags
        { st with line := fgetsWrite l st.line, trace := Event.fgets :: st.trace }
        (lexLine_quoteFree ct h _ hq)
      rw [hp]
      exact ih (fun l1 hl1 => hls l1 (List.mem_cons_of_mem _ hl1)) st2

theorem fgetsChunk_mem (n : Nat) : ∀ s : List Nat,
    (∀ c ∈ (fgetsChunk n s).1, c ∈ s) ∧ (∀ c ∈ (fgetsChunk n s).2, c ∈ s) := by
  induction n with
  | zero => intro s; simp [fgetsChunk]
  | succ n ih =>
    intro s
    cases s with
    | nil => simp [fgetsChunk]
    | cons x xs =>
      by_cases hx : x = 10
      · simp [fgetsChunk, hx]
        intro c hc; exact Or.inr hc
      · simp only [fgetsChunk, hx, if_false, List.mem_cons]
        obtain ⟨h1, h2⟩ := ih xs
        constructor
        · rintro c (hc | hc)
          · exact Or.inl hc
          · exact Or.inr (h1 c hc)
        · intro c hc; exact Or.inr (h2 c hc)

theorem fileLines_mem (fuel : Nat) : ∀ s : List Nat, ∀ l ∈ fileLines fuel s, ∀ c ∈ l, c ∈ s := by
  induction fuel with
  | zero => intro s l hl; simp [fileLines] at hl
  | succ fuel ih =>
    intro s l hl c hc
    cases s with
    | nil => simp [fileLines] at hl
    | cons x xs =>
      simp only [fileLines, List.mem_cons] at hl
      rcases hl with hl | hl
      · subst hl; exact (fgetsChunk_mem _ _).1 c hc
      · exact (fgetsChunk_mem _ _).2 c (ih _ l hl c hc)

/-- The loader returns for every file without a quote character. -/
theorem run_isSome (ct : CType) (h : ct.Sane) (env : Env) (d : Int) (buf content : List Nat)
    (init : Option (List Nat)) (flags : Nat) (hd : INT_MIN < d)
    (h34 : 34 ∉ content) (h39 : 39 ∉ content) :
    ∃ r, m_config_parse_config_file ct env d (some buf) (some content) init flags = some r := by
  simp only [m_config_parse_config_file]
  split_ifs
  · exact ⟨_, finish_some _ _ _ hd⟩
  · have hls : ∀ l ∈ fileLines content.length content, ∀ c ∈ l, c ≠ 34 ∧ c ≠ 39 := by
      intro l hl c hc
      have hm := fileLines_mem _ _ l hl c hc
      constructor
      · intro h0; exact h34 (h0 ▸ hm)
      · intro h0; exact h39 (h0 ▸ hm)
    obtain ⟨st1, hst⟩ := loop_isSome ct h env (flags ||| env.M_SETOPT_FROM_CONFIG_FILE) _ hls
      { ret := 1, errors := 0, line_num := 0, profile := env.add_profile [] init,
        line := buf, trace := [Event.fopen, Event.add_profile init] }
    rw [hst]
    exact ⟨_, finish_some _ _ _ hd⟩

/-- C9: whenever the loader returns, `config->recursion_depth` is its value on
entry minus 1, whatever the outcome (depth exceeded, allocation failure, file
not openable, abort after too many errors, end of input) and whatever the
content of the file.  And the loader does return, provided the decrement does
not overflow: always in the three outcomes that read no line, and for every
file without a quote character whatever its lines are. -/
theorem C9_depth_decremented (ct : CType) (env : Env) (d : Int)
    (malloc file : Option (List Nat)) (init : Option (List Nat)) (flags : Nat) :
    (∀ r, m_config_parse_config_file ct env d malloc file init flags = some r →
      r.recursion_depth = d - 1) ∧
    (INT_MIN < d → (MAX_RECURSION_DEPTH < d ∨ malloc = none ∨ file = none) →
      ∃ r, m_config_parse_config_file ct env d malloc file init flags = some r ∧
        r.recursion_depth = d - 1) ∧
    (ct.Sane → INT_MIN < d → ∀ content, file = some content → 34 ∉ content → 39 ∉ content →
      ∃ r, m_config_parse_config_file ct env d malloc file init flags = some r ∧
        r.recursion_depth = d - 1) := by
  have key : ∀ r, m_config_parse_config_file ct env d malloc file init flags = some r →
      r.recursion_depth = d - 1 := by
    intro r hr
    simp only [m_config_parse_config_file] at hr
    split_ifs at hr
    · exact (finish_depth _ _ _ _ hr).1
    · split at hr
      · exact (finish_depth _ _ _ _ hr).1
      · split at hr
        · exact (finish_depth _ _ _ _ hr).1
        · split at hr
          · simp at hr
          · exact (finish_depth _ _ _ _ hr).1
  have early : INT_MIN < d → (MAX_RECURSION_DEPTH < d ∨ malloc = none ∨ file = none) →
      ∃ r, m_config_parse_config_file ct env d malloc file init flags = some r := by
    intro hd hcase
    simp only [m_config_parse_config_file]
    split_ifs
    · exact ⟨_, finish_some _ _ _ hd⟩
    · rcases hcase with h | h | h
      · contradiction
      · subst h; exact ⟨_, finish_some _ _ _ hd⟩
      · subst h
        cases malloc <;> exact ⟨_, finish_some _ _ _ hd⟩
  refine ⟨key, ?_, ?_⟩
  · intro hd hcase
    obtain ⟨r, hr⟩ := early hd hcase
    exact ⟨r, hr, key r hr⟩
  · intro hs hd content hfile h34 h39
    subst hfile
    cases malloc with
    | none =>
      obtain ⟨r, hr⟩ := early hd (Or.inr (Or.inl rfl))
      exact ⟨r, hr, key r hr⟩
    | some buf =>
      obtain ⟨r, hr⟩ := run_isSome ct hs env d buf content init flags hd h34 h39
      exact ⟨r, hr, key r hr⟩

theorem C9_depth_decremented_witness :
    (Result.mk (-1) 2 [Event.errorLoading, Event.fgets,
        Event.set_option_ext (bytes "x") (bytes "a b") 4, Event.requires_param (bytes "x"),
        Event.fgets, Event.lineErr 1 LineDiag.parseError, Event.fgets, Event.fopen,
        Event.add_profile none]).recursion_depth = 3 - 1 ∧
    (Result.mk 0 7 [Event.fopen, Event.add_profile none]).recursion_depth = 8 - 1 :=
  ⟨(C9_depth_decremented mpCtype strictEnv 3 (some zeroBuf) (some (bytes "=\nx='a b'\n"))
      none 0).1 _ (by decide),
   (C9_depth_decremented mpCtype strictEnv 8 (some zeroBuf) none none 0).1 _ (by decide)⟩

theorem fgetsChunk_length (n : Nat) : ∀ s : List Nat,
    (fgetsChunk n s).1.length + (fgetsChunk n s).2.length = s.length ∧
      (0 < n → s ≠ [] → 0 < (fgetsChunk n s).1.length) ∧ (fgetsChunk n s).1.length ≤ n := by
  induction n with
  | zero => intro s; simp [fgetsChunk]
  | succ n ih =>
    intro s
    cases s with
    | nil => simp [fgetsChunk]
    | cons x xs =>
      by_cases hx : x = 10
      · simp [fgetsChunk, hx]
        omega
      · obtain ⟨h1, _, h3⟩ := ih xs
        simp only [fgetsChunk, hx, if_false, List.length_cons]
        refine ⟨by omega, fun _ _ => by omega, by omega⟩

/-- The fuel of `fileLines` is never used up: more fuel than the length of the
stream gives the same lines. -/
theorem fileLines_fuel (fuel : Nat) : ∀ s : List Nat, s.length ≤ fuel →
    fileLines fuel s = fileLines s.length s := by
  induction fuel using Nat.strong_induction_on with
  | _ fuel ih =>
    intro s hs
    cases s with
    | nil => cases fuel <;> simp [fileLines]
    | cons x xs =>
      cases fuel with
      | zero => simp at hs
      | succ f =>
        obtain ⟨h1, h2, _⟩ := fgetsChunk_length (MAX_LINE_LEN - 1) (x :: xs)
        have hpos := h2 (by decide) (by simp)
        simp only [List.length_cons] at h1 hs
        simp only [fileLines, List.length_cons]
        congr 1
        rw [ih f (by omega) _ (by omega), ih xs.length (by omega) _ (by omega)]

/-- Every line that `fgets` delivers is non-empty and shorter than
`MAX_LINE_LEN`. -/
theorem fileLines_length (fuel : Nat) : ∀ s : List Nat, ∀ l ∈ fileLines fuel s,
    0 < l.length ∧ l.length < MAX_LINE_LEN := by
  induction fuel with
  | zero => intro s l hl; simp [fileLines] at hl
  | succ fuel ih =>
    intro s l hl
    cases s with
    | nil => simp [fileLines] at hl
    | cons x xs =>
      simp only [fileLines, List.mem_cons] at hl
      rcases hl with hl | hl
      · subst hl
        obtain ⟨_, h2, h3⟩ := fgetsChunk_length (MAX_LINE_LEN - 1) (x :: xs)
        refine ⟨h2 (by decide) (by simp), ?_⟩
        have : MAX_LINE_LEN - 1 < MAX_LINE_LEN := by decide
        omega
      · exact ih _ l hl

/-- C11: with `recursion_depth ≤ 8`, the buffer allocated and `fopen` failing,
the loader returns 0, and its trace is the profile-registry call of line 62
and the call of `fopen`: no `fgets`, no setter, no diagnostic.  Conversely,
whenever the loader returns 0, the depth is at most 8, the buffer was
allocated and the file could not be opened. -/
theorem C11_not_accessible (ct : CType) (env : Env) (d : Int)
    (malloc file : Option (List Nat)) (init : Option (List Nat)) (flags : Nat) :
    (d ≤ MAX_RECURSION_DEPTH → INT_MIN < d → malloc ≠ none → file = none →
      m_config_parse_config_file ct env d malloc file init flags =
        some { ret := 0, recursion_depth := d - 1,
               trace := [Event.fopen, Event.add_profile init] }) ∧
    (∀ r, m_config_parse_config_file ct env d malloc file init flags = some r → r.ret = 0 →
      d ≤ MAX_RECURSION_DEPTH ∧ malloc ≠ none ∧ file = none) := by
  constructor
  · intro hd hmin hm hf
    subst hf
    have hnd : ¬ MAX_RECURSION_DEPTH < d := not_lt.mpr hd
    cases malloc with
    | none => exact absurd rfl hm
    | some buf =>
      simp only [m_config_parse_config_file, hnd, if_false, finish_some d 0 _ hmin]
      simp
  · intro r hr h0
    by_cases hd : MAX_RECURSION_DEPTH < d
    · simp only [m_config_parse_config_file, hd, if_true] at hr
      have := (finish_eq _ _ _ _ hr).1
      omega
    · cases malloc with
      | none =>
        simp only [m_config_parse_config_file, hd, if_false] at hr
        have := (finish_eq _ _ _ _ hr).1
        omega
      | some buf =>
        cases file with
        | none => exact ⟨not_lt.mp hd, by simp, rfl⟩
        | some content =>
          obtain ⟨st1, hloop, hret, _, _⟩ := run_opened ct env d buf content init flags r
            (not_lt.mp hd) hr
          have hinv := loop_retInv ct env _ _ _ st1 hloop
            (by simp [RetInv, hasLexError, Event.isLexError])
          rcases hinv.1 with h1 | h1 <;> omega

theorem C11_not_accessible_witness :
    m_config_parse_config_file mpCtype demoEnv 8 (some zeroBuf) none (some (bytes "p")) 0 =
      some { ret := 0, recursion_depth := 8 - 1,
             trace := [Event.fopen, Event.add_profile (some (bytes "p"))] } :=
  (C11_not_accessible mpCtype demoEnv 8 (some zeroBuf) none (some (bytes "p")) 0).1
    (by decide) (by decide) (by simp) rfl

/-- C19 (amended): with `recursion_depth > 8` on entry the loader returns -1
and decrements the counter; the only collaborator call it makes is the
profile-registry call for the initial section (line 62), and it calls neither
`fopen` nor `fgets`. -/
theorem C19_depth_exceeded_frame (ct : CType) (env : Env) (d : Int)
    (malloc file : Option (List Nat)) (init : Option (List Nat)) (flags : Nat)
    (hd : MAX_RECURSION_DEPTH < d) :
    ∃ r, m_config_parse_config_file ct env d malloc file init flags = some r ∧
      r.ret = -1 ∧ r.recursion_depth = d - 1 ∧
      r.trace.filter Event.isCall = [Event.add_profile init] ∧
      Event.fopen ∉ r.trace ∧ Event.fgets ∉ r.trace := by
  have h1 : INT_MIN < d := by
    simp only [MAX_RECURSION_DEPTH, INT_MIN] at *; omega
  refine ⟨_, by simp only [m_config_parse_config_file, hd, if_true]; exact finish_some d (-1) _ h1,
    rfl, rfl, ?_, ?_, ?_⟩ <;> simp [Event.isCall]

theorem C19_depth_exceeded_frame_witness :
    ∃ r, m_config_parse_config_file mpCtype demoEnv 9 (some zeroBuf) (some (bytes "x=1\n"))
        (some (bytes "p")) 0 = some r ∧
      r.ret = -1 ∧ r.recursion_depth = 9 - 1 ∧
      r.trace.filter Event.isCall = [Event.add_profile (some (bytes "p"))] ∧
      Event.fopen ∉ r.trace ∧ Event.fgets ∉ r.trace :=
  C19_depth_exceeded_frame mpCtype demoEnv 9 (some zeroBuf) (some (bytes "x=1\n"))
    (some (bytes "p")) 0 (by decide)

/-- C19 fails: at depth 9 the profile registry is called for the initial
section `p` (and in `demoEnv` it returns the profile 113 for it). -/
theorem C19_counterexample :
    (m_config_parse_config_file mpCtype demoEnv 9 (some zeroBuf) (some (bytes "x=1\n"))
        (some (bytes "p")) 0).map (fun r => r.trace) =
      some [Event.errorLoading, Event.depthExceeded, Event.add_profile (some (bytes "p"))] ∧
    demoEnv.add_profile [] (some (bytes "p")) = 113 := by
  decide

/-- What the name loop has done when it ends normally. -/
theorem readOpt_inv (ct : CType) (s : List Nat) :
    ∀ (acc o r : List Nat), readOpt ct s acc = some (Scan.done o r) →
      ∃ taken c r1, o = acc ++ taken ∧ s = taken ++ c :: r1 ∧ r = c :: r1 ∧
        (∀ x ∈ taken, isOptChar ct x = true) ∧ isOptChar ct c = false ∧
        (taken ≠ [] → o.length < MAX_OPT_LEN) := by
  induction s with
  | nil => intro acc o r h; simp [readOpt] at h
  | cons c cs ih =>
    intro acc o r h
    by_cases hc : isOptChar ct c = true
    · simp only [readOpt, hc, if_true] at h
      split_ifs at h with hl
      · simp at h
      obtain ⟨taken, c1, r1, ho, hs, hr, hall, hc1, hlen⟩ := ih _ _ _ h
      refine ⟨c :: taken, c1, r1, by simpa using ho, by simp [hs], hr, ?_, hc1, ?_⟩
      · intro x hx
        rcases List.mem_cons.1 hx with hx | hx
        · rw [hx]; exact hc
        · exact hall x hx
      · intro _
        by_cases ht : taken = []
        · subst ht
          simp only [List.append_nil] at ho
          rw [ho]; omega
        · exact hlen ht
    · simp only [readOpt, hc] at h
      simp only [Bool.false_eq_true, if_false, Option.some.injEq, Scan.done.injEq] at h
      exact ⟨[], c, cs, by simp [h.1], by simp, h.2.symm, by simp, by simpa using hc, by simp⟩

/-- What the loop of a quoted value has done when it ends normally. -/
theorem readQuoted_inv (q : Nat) (s : List Nat) :
    ∀ (acc p r : List Nat), readQuoted q s acc = some (Scan.done p r) →
      ∃ taken, p = acc ++ taken ∧ s = taken ++ q :: r ∧ q ∉ taken ∧
        (taken ≠ [] → p.length < MAX_PARAM_LEN) := by
  induction s with
  | nil => intro acc p r h; simp [readQuoted] at h
  | cons c cs ih =>
    intro acc p r h
    by_cases hc : c = q
    · simp only [readQuoted, hc, ne_eq, not_true_eq_false, if_false, Option.some.injEq,
        Scan.done.injEq] at h
      exact ⟨[], by simp [h.1], by simp [hc, h.2], by simp, by simp⟩
    · simp only [readQuoted, ne_eq, hc, not_false_eq_true, if_true] at h
      split_ifs at h with hl
      · simp at h
      obtain ⟨taken, hp, hs, hq, hlen⟩ := ih _ _ _ h
      refine ⟨c :: taken, by simpa using hp, by simp [hs], ?_, ?_⟩
      · intro hm
        rcases List.mem_cons.1 hm with hm | hm
        · exact hc hm.symm
        · exact hq hm
      · intro _
        by_cases ht : taken = []
        · subst ht
          simp only [List.append_nil] at hp
          rw [hp]; omega
        · exact hlen ht

/-- What the loop of a bare value has done when it ends normally. -/
theorem readBare_inv (ct : CType) (s : List Nat) :
    ∀ (acc p r : List Nat), readBare ct s acc = some (Scan.done p r) →
      ∃ taken c r1, p = acc ++ taken ∧ s = taken ++ c :: r1 ∧ r = c :: r1 ∧
        (∀ x ∈ taken, isBareChar ct x = true) ∧ isBareChar ct c = false ∧
        (taken ≠ [] → p.length < MAX_PARAM_LEN) := by
  induction s with
  | nil => intro acc p r h; simp [readBare] at h
  | cons c cs ih =>
    intro acc p r h
    by_cases hc : isBareChar ct c = true
    · simp only [readBare, hc, if_true] at h
      split_ifs at h with hl
      · simp at h
      obtain ⟨taken, c1, r1, ho, hs, hr, hall, hc1, hlen⟩ := ih _ _ _ h
      refine ⟨c :: taken, c1, r1, by simpa using ho, by simp [hs], hr, ?_, hc1, ?_⟩
      · intro x hx
        rcases List.mem_cons.1 hx with hx | hx
        · rw [hx]; exact hc
        · exact hall x hx
      · intro _
        by_cases ht : taken = []
        · subst ht
          simp only [List.append_nil] at ho
          rw [ho]; omega
        · exact hlen ht
    · simp only [readBare, hc] at h
      simp only [Bool.false_eq_true, if_false, Option.some.injEq, Scan.done.injEq] at h
      exact ⟨[], c, cs, by simp [h.1], by simp, h.2.symm, by simp, by simpa using hc, by simp⟩

theorem readOpt_length (ct : CType) (s o r : List Nat)
    (h : readOpt ct s [] = some (Scan.done o r)) : o.length < MAX_OPT_LEN := by
  obtain ⟨taken, _, _, ho, _, _, _, _, hlen⟩ := readOpt_inv ct s [] o r h
  by_cases ht : taken = []
  · subst ht; simp at ho; subst ho; simp [MAX_OPT_LEN]
  · exact hlen ht

theorem readQuoted_length (q : Nat) (s p r : List Nat)
    (h : readQuoted q s [] = some (Scan.done p r)) : p.length < MAX_PARAM_LEN := by
  obtain ⟨taken, hp, _, _, hlen⟩ := readQuoted_inv q s [] p r h
  by_cases ht : taken = []
  · subst ht; simp at hp; subst hp; simp [MAX_PARAM_LEN]
  · exact hlen ht

theorem readBare_length (ct : CType) (s p r : List Nat)
    (h : readBare ct s [] = some (Scan.done p r)) : p.length < MAX_PARAM_LEN := by
  obtain ⟨taken, _, _, hp, _, _, _, _, hlen⟩ := readBare_inv ct s [] p r h
  by_cases ht : taken = []
  · subst ht; simp at hp; subst hp; simp [MAX_PARAM_LEN]
  · exact hlen ht

/-- The value that reaches `param_done` has fewer than `MAX_PARAM_LEN` bytes. -/
theorem readParam_length (ct : CType) (s p r : List Nat)
    (h : readParam ct s = some (ParamScan.done p r)) : p.length < MAX_PARAM_LEN := by
  unfold readParam at h
  split at h
  · simp at h
  · rename_i c cs hsk
    have hbare : ∀ p r, (match readBare ct (c :: cs) [] with
        | none => none
        | some Scan.tooLong => some ParamScan.bareTooLong
        | some (Scan.done p r) => some (ParamScan.done p r)) = some (ParamScan.done p r) →
        p.length < MAX_PARAM_LEN := by
      intro p r hb
      split at hb
      · simp at hb
      · simp at hb
      · rename_i p1 r1 hrb
        simp only [Option.some.injEq, ParamScan.done.injEq] at hb
        rw [← hb.1]
        exact readBare_length ct _ _ _ hrb
    simp only at h
    split_ifs at h with hq h37
    · split at h
      · simp at h
      · simp at h
      · rename_i p1 r1 hrq
        simp only [Option.some.injEq, ParamScan.done.injEq] at h
        rw [← h.1]
        exact readQuoted_length c _ _ _ hrq
    · split at h
      · simp at h
      · exact hbare p r h
      · simp at h
      · rename_i len e0 e1 hst
        split_ifs at h with he0 hlen
        · simp at h
        · split at h
          · simp at h
          · rename_i n hn
            split_ifs at h with hnl
            · simp at h
            · simp only [Option.some.injEq, ParamScan.done.injEq] at h
              rw [← h.1, List.length_take]
              have : MAX_PARAM_LEN - 1 < MAX_PARAM_LEN := by decide
              omega
        · exact hbare p r h
    · exact hbare p r h

theorem lexEnd_inv (opt param : List Nat) (ps : Bool) (r : List Nat) (res : LexResult)
    (h : lexEnd opt param ps r = some res) :
    ∃ c r1, r = c :: r1 ∧ res = LexResult.directive opt param ps (decide (c ≠ 0 ∧ c ≠ 35)) := by
  cases r with
  | nil => simp [lexEnd] at h
  | cons c cs =>
    simp only [lexEnd, Option.some.injEq] at h
    exact ⟨c, cs, rfl, h.symm⟩

/-- What lines 138-218 return is an error of the value scanner or a directive
with the name read before, a value shorter than `MAX_PARAM_LEN`, and the empty
value when there is no `=`. -/
theorem lexAfterOpt_inv (ct : CType) (opt s : List Nat) (res : LexResult)
    (h : lexAfterOpt ct opt s = some res) :
    res = LexResult.quotedTooLong ∨ res = LexResult.bogusLength ∨
      res = LexResult.bareTooLong ∨
      ∃ param ps ex, res = LexResult.directive opt param ps ex ∧
        param.length < MAX_PARAM_LEN ∧ (ps = false → param = []) := by
  unfold lexAfterOpt at h
  split at h
  · simp at h
  · rename_i c cs hsk
    split_ifs at h with h61
    · split at h
      · simp at h
      · left; simp at h; exact h.symm
      · right; left; simp at h; exact h.symm
      · right; right; left; simp at h; exact h.symm
      · rename_i param r hrp
        obtain ⟨c1, r1, _, hres⟩ := lexEnd_inv _ _ _ _ _ h
        right; right; right
        exact ⟨param, true, _, hres, readParam_length ct _ _ _ hrp, by simp⟩
    · obtain ⟨c1, r1, _, hres⟩ := lexEnd_inv _ _ _ _ _ h
      right; right; right
      exact ⟨[], false, _, hres, by simp [MAX_PARAM_LEN], fun _ => rfl⟩

/-- The name and the value of a directive that the lexer returns. -/
theorem lexLine_directive_inv (ct : CType) (line opt param : List Nat) (ps ex : Bool)
    (h : lexLine ct line = some (LexResult.directive opt param ps ex)) :
    opt ≠ [] ∧ (∀ c ∈ opt, isOptChar ct c = true) ∧ opt.length < MAX_OPT_LEN ∧
      isHeader opt = false ∧ param.length < MAX_PARAM_LEN ∧ (ps = false → param = []) := by
  unfold lexLine at h
  split at h
  · simp at h
  · split at h
    · simp at h
    · rename_i c cs hsk
      split_ifs at h with hc
      · simp at h
      · split at h
        · simp at h
        · simp at h
        · rename_i o r hro
          split_ifs at h with h0 hh
          · simp at h
          · simp at h
          · obtain ⟨taken, c1, r1, ho, _, _, hall, _, _⟩ := readOpt_inv ct _ _ _ _ hro
            rcases lexAfterOpt_inv ct o r _ h with h1 | h1 | h1 | ⟨p, ps1, ex1, h1, hl, hp⟩
            · simp at h1
            · simp at h1
            · simp at h1
            · simp only [LexResult.directive.injEq] at h1
              obtain ⟨ho1, hp1, hps1, _⟩ := h1
              subst ho1 hp1 hps1
              refine ⟨?_, ?_, readOpt_length ct _ _ _ hro, by simpa using hh, hl, hp⟩
              · intro hnil; apply h0; rw [hnil]; rfl
              · simp only [List.nil_append] at ho
                rw [ho]; exact hall

/-- The token of a profile declaration that the lexer returns. -/
theorem lexLine_header_inv (ct : CType) (line opt : List Nat)
    (h : lexLine ct line = some (LexResult.header opt)) :
    opt.length < MAX_OPT_LEN ∧ isHeader opt = true := by
  unfold lexLine at h
  split at h
  · simp at h
  · split at h
    · simp at h
    · rename_i c cs hsk
      split_ifs at h with hc
      · simp at h
      · split at h
        · simp at h
        · simp at h
        · rename_i o r hro
          split_ifs at h with h0 hh
          · simp at h
          · simp only [Option.some.injEq, LexResult.header.injEq] at h
            subst h
            exact ⟨readOpt_length ct _ _ _ hro, hh⟩
          · rcases lexAfterOpt_inv ct o r _ h with h1 | h1 | h1 | ⟨p, ps1, ex1, h1, _, _⟩ <;>
              simp at h1

theorem readOpt_tooLong_inv (ct : CType) (s : List Nat) :
    ∀ acc : List Nat, acc.length < MAX_OPT_LEN → readOpt ct s acc = some Scan.tooLong →
      ∃ taken rest, s = taken ++ rest ∧ (acc ++ taken).length = MAX_OPT_LEN := by
  induction s with
  | nil => intro acc _ h; simp [readOpt] at h
  | cons c cs ih =>
    intro acc hacc h
    by_cases hc : isOptChar ct c = true
    · simp only [readOpt, hc, if_true] at h
      split_ifs at h with hl
      · refine ⟨[c], cs, rfl, ?_⟩
        simp only [List.length_append, List.length_singleton] at hl ⊢
        omega
      · obtain ⟨taken, rest, hs, hlen⟩ := ih _ (by omega) h
        exact ⟨c :: taken, rest, by simp [hs], by simpa using hlen⟩
    · simp [readOpt, hc] at h

theorem readQuoted_tooLong_inv (q : Nat) (s : List Nat) :
    ∀ acc : List Nat, acc.length < MAX_PARAM_LEN → readQuoted q s acc = some Scan.tooLong →
      ∃ taken rest, s = taken ++ rest ∧ (acc ++ taken).length = MAX_PARAM_LEN ∧ q ∉ taken := by
  induction s with
  | nil => intro acc _ h; simp [readQuoted] at h
  | cons c cs ih =>
    intro acc hacc h
    by_cases hc : c = q
    · simp [readQuoted, hc] at h
    · simp only [readQuoted, ne_eq, hc, not_false_eq_true, if_true] at h
      split_ifs at h with hl
      · refine ⟨[c], cs, rfl, ?_, ?_⟩
        · simp only [List.length_append, List.length_singleton] at hl ⊢
          omega
        · simpa using fun h1 => hc h1.symm
      · obtain ⟨taken, rest, hs, hlen, hq⟩ := ih _ (by omega) h
        refine ⟨c :: taken, rest, by simp [hs], by simpa using hlen, ?_⟩
        intro hm
        rcases List.mem_cons.1 hm with hm | hm
        · exact hc hm.symm
        · exact hq hm

theorem readBare_tooLong_inv (ct : CType) (s : List Nat) :
    ∀ acc : List Nat, acc.length < MAX_PARAM_LEN → readBare ct s acc = some Scan.tooLong →
      ∃ taken rest, s = taken ++ rest ∧ (acc ++ taken).length = MAX_PARAM_LEN := by
  induction s with
  | nil => intro acc _ h; simp [readBare] at h
  | cons c cs ih =>
    intro acc hacc h
    by_cases hc : isBareChar ct c = true
    · simp only [readBare, hc, if_true] at h
      split_ifs at h with hl
      · refine ⟨[c], cs, rfl, ?_⟩
        simp only [List.length_append, List.length_singleton] at hl ⊢
        omega
      · obtain ⟨taken, rest, hs, hlen⟩ := ih _ (by omega) h
        exact ⟨c :: taken, rest, by simp [hs], by simpa using hlen⟩
    · simp [readBare, hc] at h

/-- C20: whenever the lexer writes the terminating NUL of the name (line 129,
or line 133 for a profile declaration) `opt_pos` is at most 999, and whenever
it writes the one of the value (line 211) `param_pos` is at most 1499, so the
writes stay inside `opt[1001]` and `param[1501]`.  When a loop gives up with
"too long" it has written exactly 1000 bytes of the name, or 1500 bytes of a
quoted or bare value, the last of them at index 999 or 1499.  A length-prefixed
value that is accepted has the declared length, at most 1498. -/
theorem C20_buffer_bounds (ct : CType) (line : List Nat) :
    (∀ opt, lexLine ct line = some (LexResult.header opt) → opt.length ≤ 999) ∧
    (∀ opt param ps ex, lexLine ct line = some (LexResult.directive opt param ps ex) →
      opt.length ≤ 999 ∧ param.length ≤ 1499) ∧
    (readOpt ct line [] = some Scan.tooLong →
      ∃ taken rest, line = taken ++ rest ∧ taken.length = 1000) ∧
    (∀ q, readQuoted q line [] = some Scan.tooLong →
      ∃ taken rest, line = taken ++ rest ∧ taken.length = 1500) ∧
    (readBare ct line [] = some Scan.tooLong →
      ∃ taken rest, line = taken ++ rest ∧ taken.length = 1500) ∧
    (ct.Sane → ∀ ws ds rest p r, line = ws ++ 37 :: (ds ++ 37 :: rest) →
      (∀ w ∈ ws, w ∈ sixSpaces) → ds ≠ [] → (∀ d ∈ ds, isDigit d = true) →
      readParam ct line = some (ParamScan.done p r) →
      p.length = decVal ds ∧ p.length ≤ 1498) := by
  refine ⟨?_, ?_, ?_, ?_, ?_, ?_⟩
  · intro opt h
    have := (lexLine_header_inv ct line opt h).1
    simp only [MAX_OPT_LEN] at this; omega
  · intro opt param ps ex h
    obtain ⟨_, _, h1, _, h2, _⟩ := lexLine_directive_inv ct line opt param ps ex h
    simp only [MAX_OPT_LEN, MAX_PARAM_LEN] at h1 h2
    constructor <;> omega
  · intro h
    obtain ⟨taken, rest, hs, hl⟩ := readOpt_tooLong_inv ct line [] (by decide) h
    exact ⟨taken, rest, hs, by simpa [MAX_OPT_LEN] using hl⟩
  · intro q h
    obtain ⟨taken, rest, hs, hl, _⟩ := readQuoted_tooLong_inv q line [] (by decide) h
    exact ⟨taken, rest, hs, by simpa [MAX_PARAM_LEN] using hl⟩
  · intro h
    obtain ⟨taken, rest, hs, hl⟩ := readBare_tooLong_inv ct line [] (by decide) h
    exact ⟨taken, rest, hs, by simpa [MAX_PARAM_LEN] using hl⟩
  · intro hs ws ds rest p r hline hws hds hdig h
    subst hline
    rw [readParam_percent ct hs ws ds rest hws hds hdig] at h
    split_ifs at h with h1
    · simp at h
    · split at h
      · simp at h
      · rename_i n hn
        split_ifs at h with h2
        · simp at h
        · simp only [Option.some.injEq, ParamScan.done.injEq] at h
          have ht := (take_of_strlen rest n (decVal ds) hn (by omega)).2.1
          rw [← h.1, ht]
          simp only [MAX_PARAM_LEN] at h1
          exact ⟨rfl, by omega⟩

theorem C20_buffer_bounds_witness :
    ((bytes "opt").length ≤ 999 ∧ (bytes "a b").length ≤ 1499) ∧
    ((bytes "xyz").length = decVal [51] ∧ (bytes "xyz").length ≤ 1498) :=
  ⟨(C20_buffer_bounds mpCtype (bytes "opt='a b'\n\x00")).2.1 _ _ true false (by decide),
   (C20_buffer_bounds mpCtype (bytes "%3%xyz\n\x00")).2.2.2.2.2 mpCtype_sane [] [51]
     (bytes "xyz\n\x00") _ (bytes "\n\x00") (by decide) (by decide) (by decide) (by decide)
     (by decide)⟩

theorem CType.Sane.cstr_of_optChars {ct : CType} (h : ct.Sane) {opt : List Nat}
    (hc : ∀ c ∈ opt, isOptChar ct c = true) : cstr opt = opt :=
  cstr_of_no_nul opt (fun hm => (h.optChar_not_space (hc 0 hm)).2.1 rfl)

theorem normalize_eq (opt : List Nat) :
    normalize opt = if 3 ≤ opt.length ∧ opt.take 2 = [45, 45] then opt.drop 2 else opt := by
  unfold normalize
  by_cases h3 : 3 ≤ opt.length
  · simp only [h3, if_true, true_and]
    split
    · simp
    · rename_i hne
      have : ¬ opt.take 2 = [45, 45] := by
        intro ht
        match opt, h3, ht, hne with
        | a :: b :: r, _, ht, hne =>
          simp only [List.take_succ_cons, List.take_zero, List.cons.injEq, and_true] at ht
          exact hne r (by rw [ht.1, ht.2])
      simp [this]
  · simp [h3]

theorem normalize_ne_nil (opt : List Nat) (h : opt ≠ []) : normalize opt ≠ [] := by
  rw [normalize_eq]
  split_ifs with h1
  · intro hd
    have := congrArg List.length hd
    simp only [List.length_drop, List.length_nil] at this
    omega
  · exact h

theorem State.ext_fields (a b : State) (h1 : a.ret = b.ret) (h2 : a.errors = b.errors)
    (h3 : a.line_num = b.line_num) (h4 : a.profile = b.profile) (h5 : a.line = b.line)
    (h6 : a.trace = b.trace) : a = b := by
  cases a; cases b; simp_all

/-- The state after lines 213-251, from its fields. -/
theorem dispatch_eq (env : Env) (flags : Nat) (st : State) (opt param : List Nat)
    (ps ex : Bool) :
    dispatch env flags st opt param ps ex =
      { st with ret := (if ex then -1 else st.ret),
                trace := (dispatch env flags st opt param ps ex).trace } := by
  obtain ⟨h1, h2, h3, h4, h5⟩ := dispatch_fields env flags st opt param ps ex
  exact State.ext_fields _ _ h1 h2 h4 h3 h5 rfl

/-- The events that lines 213-251 add, most recent first. -/
theorem dispatch_new_events (env : Env) (flags : Nat) (st : State) (opt param : List Nat)
    (ps ex : Bool) :
    ∃ new, (dispatch env flags st opt param ps ex).trace = new ++ st.trace ∧
      ∀ e ∈ new, ∀ n, e.optionName = some n → n = normalize (cstr opt) := by
  have hse : ∀ n, (setterEvent st.profile flags (normalize (cstr opt)) (cstr param)).optionName
      = some n → n = normalize (cstr opt) := by
    intro n
    unfold setterEvent
    split_ifs <;> simp [Event.optionName] <;> exact fun h => h.symm
  have hT : ∃ pre, traceAtDispatch st ex = pre ++ st.trace ∧
      ∀ e ∈ pre, e.optionName = none := by
    cases ex
    · exact ⟨[], rfl, by simp⟩
    · exact ⟨[Event.lineErr st.line_num LineDiag.extraChars], rfl, by simp [Event.optionName]⟩
  obtain ⟨pre, hpre, hnone⟩ := hT
  have hnone' : ∀ e ∈ pre, ∀ n, e.optionName = some n → n = normalize (cstr opt) := by
    intro e he n hn
    rw [hnone e he] at hn
    simp at hn
  rw [dispatch_trace, hpre]
  split_ifs
  · refine ⟨Event.set_desc st.profile (cstr param) :: pre, by simp, ?_⟩
    intro e he n hn
    rcases List.mem_cons.1 he with he | he
    · subst he; simp [Event.optionName] at hn
    · exact hnone' e he n hn
  · refine ⟨Event.lineErr st.line_num LineDiag.missingParam ::
      Event.requires_param (normalize (cstr opt)) :: pre, by simp, ?_⟩
    intro e he n hn
    simp only [List.mem_cons] at he
    rcases he with he | he | he
    · subst he; simp [Event.optionName] at hn
    · subst he; simp only [Event.optionName, Option.some.injEq] at hn; exact hn.symm
    · exact hnone' e he n hn
  · refine ⟨Event.lineErr st.line_num LineDiag.setFailed ::
      setterEvent st.profile flags (normalize (cstr opt)) (cstr param) ::
      Event.requires_param (normalize (cstr opt)) :: pre, by simp, ?_⟩
    intro e he n hn
    simp only [List.mem_cons] at he
    rcases he with he | he | he | he
    · subst he; simp [Event.optionName] at hn
    · subst he; exact hse n hn
    · subst he; simp only [Event.optionName, Option.some.injEq] at hn; exact hn.symm
    · exact hnone' e he n hn
  · refine ⟨setterEvent st.profile flags (normalize (cstr opt)) (cstr param) ::
      Event.requires_param (normalize (cstr opt)) :: pre, by simp, ?_⟩
    intro e he n hn
    simp only [List.mem_cons] at he
    rcases he with he | he | he
    · subst he; exact hse n hn
    · subst he; simp only [Event.optionName, Option.some.injEq] at hn; exact hn.symm
    · exact hnone' e he n hn

theorem normalize_eq_profile_desc (opt : List Nat) :
    normalize opt = bytes "profile-desc" ↔
      opt = bytes "profile-desc" ∨ opt = bytes "--profile-desc" := by
  constructor
  · intro hn
    rw [normalize_eq] at hn
    split_ifs at hn with h1
    · right
      have ht := List.take_append_drop 2 opt
      rw [h1.2, hn] at ht
      rw [← ht]; decide
    · left; exact hn
  · rintro (h1 | h1) <;> subst h1 <;> decide

/-- C16: for every line that reaches the dispatcher with a name token whose
normalized form is `profile-desc` (the token is `profile-desc` or
`--profile-desc`), the value is empty when no `=` was given, and: while a
current profile exists, the only collaborator call of the line is
`m_profile_set_desc` with that profile and the value; when there is none, the
line is dispatched like any option, through the option registry and, unless a
required value is missing, the global setter. -/
theorem C16_profile_desc (ct : CType) (h : ct.Sane) (env : Env) (flags : Nat) (st : State)
    (opt param : List Nat) (ps ex : Bool)
    (hlex : lexLine ct st.line = some (LexResult.directive opt param ps ex))
    (hpd : normalize opt = bytes "profile-desc") :
    (opt = bytes "profile-desc" ∨ opt = bytes "--profile-desc") ∧
    (ps = false → param = []) ∧
    (st.profile ≠ 0 →
      processLine ct env flags st =
        some { nextLine st with
                 ret := (if ex then -1 else st.ret),
                 trace := Event.set_desc st.profile (cstr param) ::
                   traceAtDispatch (nextLine st) ex }) ∧
    (st.profile = 0 →
      processLine ct env flags st =
        some { nextLine st with
                 ret := (if ex then -1 else st.ret),
                 trace :=
                   (if 0 < env.requires_param (traceAtDispatch (nextLine st) ex)
                        (bytes "profile-desc") ∧ ps = false then
                      Event.lineErr (st.line_num + 1) LineDiag.missingParam ::
                        Event.requires_param (bytes "profile-desc") ::
                        traceAtDispatch (nextLine st) ex
                    else if env.set_option_ext
                        (Event.requires_param (bytes "profile-desc") ::
                          traceAtDispatch (nextLine st) ex)
                        (bytes "profile-desc") (cstr param) flags < 0 then
                      Event.lineErr (st.line_num + 1) LineDiag.setFailed ::
                        Event.set_option_ext (bytes "profile-desc") (cstr param) flags ::
                        Event.requires_param (bytes "profile-desc") ::
                        traceAtDispatch (nextLine st) ex
                    else
                      Event.set_option_ext (bytes "profile-desc") (cstr param) flags ::
                        Event.requires_param (bytes "profile-desc") ::
                        traceAtDispatch (nextLine st) ex) }) := by
  obtain ⟨_, hchars, _, _, _, hps⟩ := lexLine_directive_inv ct st.line opt param ps ex hlex
  have hcstr : cstr opt = opt := h.cstr_of_optChars hchars
  refine ⟨(normalize_eq_profile_desc opt).1 hpd, hps, ?_, ?_⟩
  · intro hp
    rw [processLine_of_directive ct env flags st opt param ps ex hlex, dispatch_eq,
      dispatch_trace, hcstr, hpd]
    have hp1 : (nextLine st).profile ≠ 0 := hp
    simp only [hp1, ne_eq, not_false_eq_true, and_self, if_true]
    rfl
  · intro hp
    rw [processLine_of_directive ct env flags st opt param ps ex hlex, dispatch_eq,
      dispatch_trace, hcstr, hpd]
    have hp1 : (nextLine st).profile = 0 := hp
    simp only [hp1, ne_eq, not_true_eq_false, false_and, if_false, setterResult, setterEvent]
    rfl

theorem C16_profile_desc_witness :
    (bytes "--profile-desc" = bytes "profile-desc" ∨
      bytes "--profile-desc" = bytes "--profile-desc") ∧
    (true = false → bytes "a b" = []) ∧
    ((demoState 7 (bytes "--profile-desc = 'a b'\n\x00")).profile ≠ 0 →
      processLine mpCtype strictEnv 0 (demoState 7 (bytes "--profile-desc = 'a b'\n\x00")) =
        some { nextLine (demoState 7 (bytes "--profile-desc = 'a b'\n\x00")) with
                 ret := (if false then -1
                   else (demoState 7 (bytes "--profile-desc = 'a b'\n\x00")).ret),
                 trace := Event.set_desc
                     (demoState 7 (bytes "--profile-desc = 'a b'\n\x00")).profile
                     (cstr (bytes "a b")) ::
                   traceAtDispatch
                     (nextLine (demoState 7 (bytes "--profile-desc = 'a b'\n\x00"))) false }) :=
  let w := C16_profile_desc mpCtype mpCtype_sane strictEnv 0
    (demoState 7 (bytes "--profile-desc = 'a b'\n\x00")) (bytes "--profile-desc")
    (bytes "a b") true false (by decide) (by decide)
  ⟨w.1, w.2.1, w.2.2.1⟩

/-- The lexer on a line `name = value` whose name it takes as an option
name. -/
theorem lexLine_assign (ct : CType) (h : ct.Sane) (ws0 name ws1 ws2 fromValue : List Nat)
    (hws0 : ∀ w ∈ ws0, w ∈ sixSpaces) (hws1 : ∀ w ∈ ws1, w ∈ sixSpaces)
    (hws2 : ∀ w ∈ ws2, w ∈ sixSpaces) (hname : IsOptName ct name)
    (hbom : startsWithBOM (assignLine ws0 name ws1 ws2 fromValue) = false)
    (hv : fromValue ≠ []) :
    lexLine ct (assignLine ws0 name ws1 ws2 fromValue) =
      match readParam ct fromValue with
      | none => none
      | some ParamScan.quotedTooLong => some LexResult.quotedTooLong
      | some ParamScan.bogusLength => some LexResult.bogusLength
      | some ParamScan.bareTooLong => some LexResult.bareTooLong
      | some (ParamScan.done param r) => lexEnd name param true (skipSpace ct r) := by
  unfold assignLine at hbom ⊢
  have hl : 3 ≤ (ws0 ++ name ++ (ws1 ++ 61 :: (ws2 ++ fromValue))).length := by
    obtain ⟨x, xs, hx⟩ := List.exists_cons_of_ne_nil hname.nonempty
    obtain ⟨y, ys, hy⟩ := List.exists_cons_of_ne_nil hv
    subst hx hy
    simp only [List.length_append, List.length_cons]
    omega
  have hb := skipBOM_of_length _ hl hbom
  rw [lexLine_name_then ct h ws0 name ws1 _ 61 hws0 hws1 hname.nonempty hname.chars
    (fun _ => isOptChar_eq_sign ct) hb, if_neg (not_le.mpr hname.short), hname.not_header]
  simp only [Bool.false_eq_true, if_false]
  rw [lexAfterOpt_eq ct h]
  have hrp : readParam ct (ws2 ++ fromValue) = readParam ct fromValue := by
    simp only [readParam, skipSpace_append ct ws2 _ (h.isspace_of_mem hws2)]
  rw [hrp]

theorem lexEnd_skip (ct : CType) (h : ct.Sane) (opt param : List Nat) (ps : Bool)
    (ws : List Nat) (c : Nat) (tail : List Nat) (hws : ∀ w ∈ ws, w ∈ sixSpaces)
    (hc : c ∉ sixSpaces) :
    lexEnd opt param ps (skipSpace ct (ws ++ c :: tail)) =
      some (LexResult.directive opt param ps (decide (c ≠ 0 ∧ c ≠ 35))) := by
  rw [skipSpace_append ct ws _ (h.isspace_of_mem hws),
    skipSpace_cons_of_not ct c tail (h.isspace_false hc)]
  rfl

theorem readQuoted_tooLong (q : Nat) (s r : List Nat) :
    ∀ acc : List Nat, q ∉ s → acc.length < MAX_PARAM_LEN →
      MAX_PARAM_LEN ≤ acc.length + s.length →
      readQuoted q (s ++ r) acc = some Scan.tooLong := by
  induction s with
  | nil => intro acc _ h1 h2; simp at h2; omega
  | cons x xs ih =>
    intro acc hq h1 h2
    have hx : x ≠ q := fun h => hq (h ▸ List.mem_cons_self _ _)
    have hxs : q ∉ xs := fun h => hq (List.mem_cons_of_mem _ h)
    simp only [List.length_cons] at h2
    by_cases hlt : MAX_PARAM_LEN ≤ (acc ++ [x]).length
    · simp only [List.cons_append, readQuoted, ne_eq, hx, not_false_eq_true, if_true, hlt]
    · have := ih (acc ++ [x]) hxs (by omega)
        (by simp only [List.length_append, List.length_singleton]; omega)
      simp only [List.cons_append, readQuoted, ne_eq, hx, not_false_eq_true, if_true, hlt,
        if_false]
      rw [List.append_eq]
      exact this

theorem readBare_tooLong (ct : CType) (v r : List Nat) :
    ∀ acc : List Nat, (∀ x ∈ v, isBareChar ct x = true) → acc.length < MAX_PARAM_LEN →
      MAX_PARAM_LEN ≤ acc.length + v.length →
      readBare ct (v ++ r) acc = some Scan.tooLong := by
  induction v with
  | nil => intro acc _ h1 h2; simp at h2; omega
  | cons x xs ih =>
    intro acc hx h1 h2
    have hx0 : isBareChar ct x = true := hx x (List.mem_cons_self _ _)
    have hxs : ∀ y ∈ xs, isBareChar ct y = true := fun y hy => hx y (List.mem_cons_of_mem _ hy)
    simp only [List.length_cons] at h2
    by_cases hlt : MAX_PARAM_LEN ≤ (acc ++ [x]).length
    · simp only [List.cons_append, readBare, hx0, if_true, hlt]
    · have := ih (acc ++ [x]) hxs (by omega)
        (by simp only [List.length_append, List.length_singleton]; omega)
      simp only [List.cons_append, readBare, hx0, if_true, hlt, if_false]
      rw [List.append_eq]
      exact this

/-- The value scanner on a quoted value of any length. -/
theorem readParam_quoted_full (ct : CType) (h : ct.Sane) (q : Nat) (s r : List Nat)
    (hq : q = 34 ∨ q = 39) (hs : q ∉ s) :
    readParam ct (q :: (s ++ q :: r)) =
      if MAX_PARAM_LEN ≤ s.length then some ParamScan.quotedTooLong
      else some (ParamScan.done s r) := by
  split_ifs with hl
  · have hqs : q ∉ sixSpaces := by
      rcases hq with rfl | rfl <;> simp [sixSpaces]
    have hrq := readQuoted_tooLong q s (q :: r) [] hs (by decide) (by simpa using hl)
    simp only [readParam, skipSpace_cons_of_not ct q _ (h.isspace_false hqs), hq, if_true, hrq]
  · exact readParam_quoted ct h q s r hq hs (not_le.mp hl)

theorem isBareChar_not_space {ct : CType} (h : ct.Sane) {c : Nat}
    (hc : isBareChar ct c = true) : c ∉ sixSpaces := by
  intro hm
  have := (h.isspace_iff c).2 hm
  simp [isBareChar, this] at hc

/-- The value scanner on a bare value of any length that starts with neither
a quote nor `%`. -/
theorem readParam_bare_full (ct : CType) (h : ct.Sane) (x : Nat) (xs : List Nat) (c : Nat)
    (r : List Nat) (hv : ∀ y ∈ x :: xs, isBareChar ct y = true)
    (hx : x ≠ 34 ∧ x ≠ 39 ∧ x ≠ 37) (hc : isBareChar ct c = false) :
    readParam ct (x :: xs ++ c :: r) =
      if MAX_PARAM_LEN ≤ (x :: xs).length then some ParamScan.bareTooLong
      else some (ParamScan.done (x :: xs) (c :: r)) := by
  have hxs : x ∉ sixSpaces := isBareChar_not_space h (hv x (List.mem_cons_self _ _))
  have hq : ¬ (x = 34 ∨ x = 39) := by omega
  simp only [readParam, List.cons_append, skipSpace_cons_of_not ct x _ (h.isspace_false hxs),
    hq, if_false, hx.2.2]
  split_ifs with hl
  · have := readBare_tooLong ct (x :: xs) (c :: r) [] hv (by decide) (by simpa using hl)
    simp only [List.cons_append] at this
    rw [this]
  · have := readBare_done ct (x :: xs) c r hc [] hv (by simpa using hl)
    simp only [List.cons_append, List.nil_append] at this
    rw [this]

theorem processLine_ret_neg (ct : CType) (env : Env) (flags : Nat) (st st1 : State)
    (h : processLine ct env flags st = some st1) (hr : st.ret = -1) : st1.ret = -1 := by
  unfold processLine at h
  simp only at h
  split at h <;> simp at h <;> subst h
  all_goals first
    | exact hr
    | rfl
    | (rw [(dispatch_fields _ _ _ _ _ _ _).1]; split_ifs <;> first | rfl | exact hr)

theorem loop_ret_neg (ct : CType) (env : Env) (flags : Nat) (ls : List (List Nat)) :
    ∀ (st st1 : State), loop ct env flags ls st = some st1 → st.ret = -1 → st1.ret = -1 := by
  induction ls with
  | nil =>
    intro st st1 h hr
    simp [loop] at h
    subst h
    exact hr
  | cons l ls ih =>
    intro st st1 h hr
    simp only [loop] at h
    split_ifs at h with h16
    · simp at h
      subst h
      exact hr
    · split at h
      · simp at h
      · rename_i st2 hp
        exact ih st2 st1 h (processLine_ret_neg ct env flags _ st2 hp hr)

theorem dispatch_extra (env : Env) (flags : Nat) (st : State) (opt param : List Nat)
    (ps : Bool) :
    dispatch env flags st opt param ps true =
      dispatch env flags
        { st with ret := -1, trace := Event.lineErr st.line_num LineDiag.extraChars :: st.trace }
        opt param ps false := by
  simp only [dispatch, if_true, Bool.false_eq_true, if_false]

/-- C14 (amended): when the lexer accepts a line as a directive and the byte
after the name, the value and the trailing whitespace is neither NUL nor `#`
(the first two parts say when that is, for a line without `=` and for a line
with a value), "extra characters" is reported, `ret` becomes -1, and the
directive is dispatched exactly as lines 220-251 dispatch the same name and
value without extra text in the state so reached; `ret` is still -1 when the
loop is left, whatever lines follow. -/
theorem C14_extra_characters (ct : CType) (h : ct.Sane) (env : Env) (flags : Nat) :
    (∀ ws0 name ws1 tail c,
      (∀ w ∈ ws0, w ∈ sixSpaces) → (∀ w ∈ ws1, w ∈ sixSpaces) → IsOptName ct name →
      (ws1 = [] → isOptChar ct c = false) → c ∉ sixSpaces → c ≠ 61 →
      startsWithBOM (ws0 ++ name ++ (ws1 ++ c :: tail)) = false → 0 ∈ c :: tail →
      lexLine ct (ws0 ++ name ++ (ws1 ++ c :: tail)) =
        some (LexResult.directive name [] false (decide (c ≠ 0 ∧ c ≠ 35)))) ∧
    (∀ ws0 name ws1 ws2 fromValue param ws3 c tail,
      (∀ w ∈ ws0, w ∈ sixSpaces) → (∀ w ∈ ws1, w ∈ sixSpaces) → (∀ w ∈ ws2, w ∈ sixSpaces) →
      (∀ w ∈ ws3, w ∈ sixSpaces) → IsOptName ct name → c ∉ sixSpaces →
      startsWithBOM (assignLine ws0 name ws1 ws2 fromValue) = false →
      readParam ct fromValue = some (ParamScan.done param (ws3 ++ c :: tail)) →
      lexLine ct (assignLine ws0 name ws1 ws2 fromValue) =
        some (LexResult.directive name param true (decide (c ≠ 0 ∧ c ≠ 35)))) ∧
    (∀ st opt param ps,
      lexLine ct st.line = some (LexResult.directive opt param ps true) →
      ∃ st1, processLine ct env flags st = some st1 ∧
        st1 = dispatch env flags
          { nextLine st with
              ret := -1,
              trace := Event.lineErr (st.line_num + 1) LineDiag.extraChars :: st.trace }
          opt param ps false ∧
        st1.ret = -1 ∧
        Event.lineErr (st.line_num + 1) LineDiag.extraChars ∈ st1.trace ∧
        ∀ ls st2, loop ct env flags ls st1 = some st2 → st2.ret = -1) := by
  refine ⟨?_, ?_, ?_⟩
  · intro ws0 name ws1 tail c hws0 hws1 hname hc hcs hc61 hbom hnul
    have hmem : 0 ∈ ws0 ++ name ++ (ws1 ++ c :: tail) := by
      simp only [List.mem_append]
      exact Or.inr (Or.inr hnul)
    have hb := skipBOM_of_nul _ hmem hbom
    rw [lexLine_name_then ct h ws0 name ws1 tail c hws0 hws1 hname.nonempty hname.chars
      hc hb, if_neg (not_le.mpr hname.short), hname.not_header]
    simp only [Bool.false_eq_true, if_false, lexAfterOpt,
      skipSpace_cons_of_not ct c tail (h.isspace_false hcs), hc61, lexEnd]
  · intro ws0 name ws1 ws2 fromValue param ws3 c tail hws0 hws1 hws2 hws3 hname hcs hbom hrp
    have hv : fromValue ≠ [] := by
      intro hnil
      subst hnil
      simp [readParam, skipSpace] at hrp
    rw [lexLine_assign ct h ws0 name ws1 ws2 fromValue hws0 hws1 hws2 hname hbom hv, hrp]
    exact lexEnd_skip ct h name param true ws3 c tail hws3 hcs
  · intro st opt param ps hlex
    have hp := processLine_of_directive ct env flags st opt param ps true hlex
    have hd := dispatch_extra env flags (nextLine st) opt param ps
    have hret : (dispatch env flags (nextLine st) opt param ps true).ret = -1 := by
      rw [(dispatch_fields _ _ _ _ _ _ _).1]; rfl
    refine ⟨_, hp, hd, hret, ?_, ?_⟩
    · rw [dispatch_trace]
      split_ifs <;> simp [traceAtDispatch, nextLine]
    · intro ls st2 hl
      exact loop_ret_neg ct env flags ls _ st2 hl hret

theorem C14_extra_characters_witness :
    ∃ st1, processLine mpCtype demoEnv 0 (demoState 0 (bytes "x=1 junk\n\x00")) = some st1 ∧
      st1 = dispatch demoEnv 0
        { nextLine (demoState 0 (bytes "x=1 junk\n\x00")) with
            ret := -1,
            trace := Event.lineErr ((demoState 0 (bytes "x=1 junk\n\x00")).line_num + 1)
              LineDiag.extraChars :: (demoState 0 (bytes "x=1 junk\n\x00")).trace }
        (bytes "x") (bytes "1") true false ∧
      st1.ret = -1 ∧
      Event.lineErr ((demoState 0 (bytes "x=1 junk\n\x00")).line_num + 1)
        LineDiag.extraChars ∈ st1.trace ∧
      ∀ ls st2, loop mpCtype demoEnv 0 ls st1 = some st2 → st2.ret = -1 :=
  (C14_extra_characters mpCtype mpCtype_sane demoEnv 0).2.2
    (demoState 0 (bytes "x=1 junk\n\x00")) (bytes "x") (bytes "1") true (by decide)

/-- C14 fails for a profile declaration followed by other text: the file with
the single line `[a] junk` selects the profile `a`, draws no diagnostic, calls
neither the option registry nor a setter, and the loader returns 1. -/
theorem C14_counterexample :
    m_config_parse_config_file mpCtype demoEnv 0 (some zeroBuf) (some (bytes "[a] junk\n"))
        none 0 =
      some { ret := 1, recursion_depth := -1,
             trace := [Event.fgets, Event.add_profile (some (bytes "a")), Event.fgets,
                       Event.fopen, Event.add_profile none] } := by
  decide

theorem countedErrors_cons (e : Event) (t : List Event) :
    countedErrors (e :: t) = countedErrors t + (if e.isCounted then 1 else 0) := by
  unfold countedErrors
  by_cases h : e.isCounted = true <;> simp [List.filter_cons, h]

theorem countedErrors_dispatch (env : Env) (flags : Nat) (st : State) (opt param : List Nat)
    (ps ex : Bool) :
    countedErrors (dispatch env flags st opt param ps ex).trace = countedErrors st.trace := by
  have hse : (setterEvent st.profile flags (normalize (cstr opt)) (cstr param)).isCounted
      = false := by
    unfold setterEvent
    split_ifs <;> rfl
  have hl : ∀ n d, (Event.lineErr n d).isCounted = d.isCounted := fun _ _ => rfl
  have hr : ∀ n, (Event.requires_param n).isCounted = false := fun _ => rfl
  have hd : ∀ p v, (Event.set_desc p v).isCounted = false := fun _ _ => rfl
  have hT : countedErrors (traceAtDispatch st ex) = countedErrors st.trace := by
    cases ex <;> simp [traceAtDispatch, countedErrors_cons, hl, LineDiag.isCounted]
  rw [dispatch_trace]
  split_ifs <;> simp [countedErrors_cons, hl, hr, hd, hse, hT, LineDiag.isCounted]

theorem processLine_errInv (ct : CType) (env : Env) (flags : Nat) (st st1 : State)
    (h : processLine ct env flags st = some st1) (hc : st.errors = countedErrors st.trace)
    (h16 : st.errors < 16) (hret : 0 < st.errors → st.ret = -1) : ErrInv st1 := by
  unfold processLine at h
  simp only at h
  split at h <;> simp at h <;> subst h
  all_goals first
    | (refine ⟨?_, ?_, fun _ => rfl, fun _ => ⟨_, _, _, rfl, rfl⟩⟩
       · simp [State.lexError, countedErrors_cons, Event.isCounted, LineDiag.isCounted, hc]
       · simp only [State.lexError]; omega)
    | (refine ⟨?_, by simp only; omega, hret, fun h => by simp only at h; omega⟩
       simp [countedErrors_cons, Event.isCounted, hc])
    | (refine ⟨?_, ?_, ?_, ?_⟩
       · rw [countedErrors_dispatch, (dispatch_fields _ _ _ _ _ _ _).2.1]; exact hc
       · rw [(dispatch_fields _ _ _ _ _ _ _).2.1]; simp only; omega
       · rw [(dispatch_fields _ _ _ _ _ _ _).2.1, (dispatch_fields _ _ _ _ _ _ _).1]
         intro hpos
         split_ifs
         · rfl
         · exact hret hpos
       · rw [(dispatch_fields _ _ _ _ _ _ _).2.1]
         intro h; simp only at h; omega)

/-- The state in which the loop is left: after a call of `fgets` that found
no line, or after the abort of lines 88-91, which needs 16 counted errors. -/
theorem loop_errInv (ct : CType) (env : Env) (flags : Nat) (ls : List (List Nat)) :
    ∀ (st st1 : State), loop ct env flags ls st = some st1 → ErrInv st →
      ∃ t, ErrInv { st1 with trace := t } ∧
        (st1.trace = Event.fgets :: t ∨
          (st1.errors = 16 ∧ st1.trace = Event.tooManyErrors :: Event.fgets :: t)) := by
  induction ls with
  | nil =>
    intro st st1 h hinv
    simp [loop] at h
    subst h
    exact ⟨st.trace, hinv, Or.inl rfl⟩
  | cons l ls ih =>
    intro st st1 h hinv
    simp only [loop] at h
    split_ifs at h with h16
    · simp at h
      subst h
      obtain ⟨h1, h2, h3, h4⟩ := hinv
      refine ⟨st.trace, ⟨h1, h2, h3, h4⟩, Or.inr ⟨?_, rfl⟩⟩
      simp only at h16 ⊢
      omega
    · split at h
      · simp at h
      · rename_i st2 hp
        obtain ⟨h1, h2, h3, h4⟩ := hinv
        refine ih st2 st1 h (processLine_errInv ct env flags _ st2 hp ?_ ?_ h3)
        · simpa [countedErrors_cons, Event.isCounted] using h1
        · simp only at h16 ⊢; omega

/-- C12 (amended): once `errors` has reached 16 the loop body is not entered
again: the next line that `fgets` delivers is neither lexed nor applied, the
lines after it are not read, and the loop is left with "too many errors".
In every run on a file that is opened, `errors` counts the diagnostics for an
empty name, an oversized name or value and a bogus length prefix; there are
at most 16 of them; and when there are 16 the loader returns -1 and the
sixteenth is followed by nothing but one more call of `fgets`, the abort
message if that call found a line, and the final error message. -/
theorem C12_too_many_errors (ct : CType) (env : Env) (flags : Nat) :
    (∀ (st : State) (l : List Nat) (ls : List (List Nat)), 16 ≤ st.errors →
      loop ct env flags (l :: ls) st =
        some { st with line := fgetsWrite l st.line,
                       trace := Event.tooManyErrors :: Event.fgets :: st.trace }) ∧
    (∀ (d : Int) (buf content : List Nat) (init : Option (List Nat)) (r : Result),
      d ≤ MAX_RECURSION_DEPTH →
      m_config_parse_config_file ct env d (some buf) (some content) init flags = some r →
      countedErrors r.trace ≤ 16 ∧
      (countedErrors r.trace = 16 →
        r.ret = -1 ∧
        ∃ n k t, k.isCounted = true ∧
          (r.trace = Event.errorLoading :: Event.fgets :: Event.lineErr n k :: t ∨
           r.trace = Event.errorLoading :: Event.tooManyErrors :: Event.fgets ::
             Event.lineErr n k :: t))) := by
  constructor
  · intro st l ls h16
    simp only [loop, h16, if_true]
  · intro d buf content init r hd hr
    obtain ⟨st1, hloop, hret, _, ht⟩ := run_opened ct env d buf content init flags r hd hr
    obtain ⟨t, ⟨h1, h2, h3, h4⟩, hcase⟩ := loop_errInv ct env _ _ _ st1 hloop
      ⟨by simp [countedErrors, Event.isCounted], by simp, by simp, by simp⟩
    simp only at h1 h2 h3 h4
    have hcount : countedErrors st1.trace = countedErrors t := by
      rcases hcase with hc | ⟨_, hc⟩ <;> rw [hc] <;>
        simp [countedErrors_cons, Event.isCounted]
    have hcr : countedErrors r.trace = countedErrors t := by
      rw [ht]
      split_ifs
      · simp [countedErrors_cons, Event.isCounted, hcount]
      · exact hcount
    rw [hcr, ← h1]
    refine ⟨h2, fun h16 => ?_⟩
    have hneg : st1.ret = -1 := h3 (by omega)
    obtain ⟨n, k, t1, ht1, hk⟩ := h4 h16
    have hlt : st1.ret < 0 := by omega
    refine ⟨by rw [hret]; exact hneg, n, k, t1, hk, ?_⟩
    rw [ht, if_pos hlt]
    rcases hcase with hc | ⟨_, hc⟩
    · left; rw [hc, ht1]
    · right; rw [hc, ht1]

theorem C12_too_many_errors_witness :
    loop mpCtype demoEnv 0 [bytes "x=1\n", bytes "y=2\n"]
        { demoState 0 zeroBuf with ret := -1, errors := 16 } =
      some { demoState 0 zeroBuf with
               ret := -1, errors := 16,
               line := fgetsWrite (bytes "x=1\n") (demoState 0 zeroBuf).line,
               trace := Event.tooManyErrors :: Event.fgets :: (demoState 0 zeroBuf).trace } :=
  (C12_too_many_errors mpCtype demoEnv 0).1 { demoState 0 zeroBuf with ret := -1, errors := 16 }
    (bytes "x=1\n") [bytes "y=2\n"] (by decide)

/-- C12 fails for the errors that are not counted: in the file of 17 lines
`bad=1` every line draws "setting option failed", all 17 lines are lexed and
handed to the setter, and the loader returns 1. -/
theorem C12_counterexample :
    (m_config_parse_config_file mpCtype strictEnv 0 (some zeroBuf) (some seventeenBad)
        none 0).map
      (fun r => (r.ret, setterCalls r.trace,
        (r.trace.filter (fun e => e == Event.lineErr 17 LineDiag.setFailed)).length,
        countedErrors r.trace)) =
      some (1, 17, 1, 0) := by
  decide

theorem isBareChar_of_space {ct : CType} (h : ct.Sane) {c : Nat} (hc : c ∈ sixSpaces) :
    isBareChar ct c = false := by
  cases hb : isBareChar ct c with
  | false => rfl
  | true => exact absurd hc (isBareChar_not_space h hb)

/-- C13 (amended): the limits are 999 bytes for a name, 1499 bytes for a
quoted or a bare value and 1498 bytes for a length-prefixed value.  A name
token is rejected with "option name too long" exactly when it has 1000 bytes
or more; a quoted or bare value is rejected exactly when it has 1500 bytes or
more, and is handed on whole otherwise; a length-prefixed value of declared
length 1499 or more is rejected, and one of at most 1498 bytes that the line
holds is handed on whole.  A rejected line draws its diagnostic, counts as an
error and reaches no collaborator. -/
theorem C13_length_limits (ct : CType) (h : ct.Sane) (env : Env) (flags : Nat) :
    (∀ ws0 name c tail,
      (∀ w ∈ ws0, w ∈ sixSpaces) → name ≠ [] → (∀ x ∈ name, isOptChar ct x = true) →
      isOptChar ct c = false → startsWithBOM (ws0 ++ name ++ c :: tail) = false →
      0 ∈ c :: tail →
      (lexLine ct (ws0 ++ name ++ c :: tail) = some LexResult.optTooLong ↔
        1000 ≤ name.length)) ∧
    (∀ ws0 name ws1 ws2 q s ws3 c tail,
      (∀ w ∈ ws0, w ∈ sixSpaces) → (∀ w ∈ ws1, w ∈ sixSpaces) → (∀ w ∈ ws2, w ∈ sixSpaces) →
      (∀ w ∈ ws3, w ∈ sixSpaces) → IsOptName ct name → (q = 34 ∨ q = 39) → q ∉ s →
      c ∉ sixSpaces →
      startsWithBOM (assignLine ws0 name ws1 ws2 (q :: (s ++ q :: (ws3 ++ c :: tail))))
        = false →
      lexLine ct (assignLine ws0 name ws1 ws2 (q :: (s ++ q :: (ws3 ++ c :: tail)))) =
        if 1500 ≤ s.length then some LexResult.quotedTooLong
        else some (LexResult.directive name s true (decide (c ≠ 0 ∧ c ≠ 35)))) ∧
    (∀ ws0 name ws1 ws2 x xs ws3 c tail,
      (∀ w ∈ ws0, w ∈ sixSpaces) → (∀ w ∈ ws1, w ∈ sixSpaces) → (∀ w ∈ ws2, w ∈ sixSpaces) →
      (∀ w ∈ ws3, w ∈ sixSpaces) → IsOptName ct name →
      (∀ y ∈ x :: xs, isBareChar ct y = true) → (x ≠ 34 ∧ x ≠ 39 ∧ x ≠ 37) →
      (ws3 = [] → isBareChar ct c = false) → c ∉ sixSpaces →
      startsWithBOM (assignLine ws0 name ws1 ws2 (x :: xs ++ (ws3 ++ c :: tail))) = false →
      lexLine ct (assignLine ws0 name ws1 ws2 (x :: xs ++ (ws3 ++ c :: tail))) =
        if 1500 ≤ (x :: xs).length then some LexResult.bareTooLong
        else some (LexResult.directive name (x :: xs) true (decide (c ≠ 0 ∧ c ≠ 35)))) ∧
    (∀ ws0 name ws1 ws2 ds rest n,
      (∀ w ∈ ws0, w ∈ sixSpaces) → (∀ w ∈ ws1, w ∈ sixSpaces) → (∀ w ∈ ws2, w ∈ sixSpaces) →
      IsOptName ct name → ds ≠ [] → (∀ d ∈ ds, isDigit d = true) →
      startsWithBOM (assignLine ws0 name ws1 ws2 (37 :: (ds ++ 37 :: rest))) = false →
      strlen rest = some n → decVal ds ≤ n →
      (1499 ≤ decVal ds →
        lexLine ct (assignLine ws0 name ws1 ws2 (37 :: (ds ++ 37 :: rest))) =
          some LexResult.bogusLength) ∧
      (decVal ds ≤ 1498 →
        lexLine ct (assignLine ws0 name ws1 ws2 (37 :: (ds ++ 37 :: rest))) =
          lexEnd name (rest.take (decVal ds)) true (skipSpace ct (rest.drop (decVal ds))) ∧
        ∃ ex, lexEnd name (rest.take (decVal ds)) true
            (skipSpace ct (rest.drop (decVal ds))) =
          some (LexResult.directive name (rest.take (decVal ds)) true ex))) ∧
    (∀ st res d,
      lexLine ct st.line = some res →
      (res, d) ∈ [(LexResult.optTooLong, LineDiag.optTooLong),
        (LexResult.quotedTooLong, LineDiag.quotedTooLong),
        (LexResult.bareTooLong, LineDiag.bareTooLong),
        (LexResult.bogusLength, LineDiag.bogusLength)] →
      processLine ct env flags st =
        some { st with ret := -1, errors := st.errors + 1, line_num := st.line_num + 1,
                       trace := Event.lineErr (st.line_num + 1) d :: st.trace }) := by
  refine ⟨?_, ?_, ?_, ?_, ?_⟩
  · intro ws0 name c tail hws0 hne hchars hc hbom hnul
    have hmem : 0 ∈ ws0 ++ name ++ c :: tail := by
      simp only [List.mem_append]; exact Or.inr hnul
    rw [lexLine_of_name ct h ws0 name c tail hws0 hne hchars hc (skipBOM_of_nul _ hmem hbom)]
    simp only [MAX_OPT_LEN]
    split_ifs with h1 h2
    · simp [h1]
    · constructor
      · intro hh; simp at hh
      · intro hh; exact absurd hh h1
    · constructor
      · intro hh
        rcases lexAfterOpt_inv ct name _ _ hh with h3 | h3 | h3 | ⟨_, _, _, h3, _, _⟩ <;>
          simp at h3
      · intro hh; exact absurd hh h1
  · intro ws0 name ws1 ws2 q s ws3 c tail hws0 hws1 hws2 hws3 hname hq hs hcs hbom
    rw [lexLine_assign ct h ws0 name ws1 ws2 _ hws0 hws1 hws2 hname hbom (by simp),
      readParam_quoted_full ct h q s _ hq hs]
    simp only [MAX_PARAM_LEN]
    split_ifs
    · rfl
    · exact lexEnd_skip ct h name s true ws3 c tail hws3 hcs
  · intro ws0 name ws1 ws2 x xs ws3 c tail hws0 hws1 hws2 hws3 hname hv hx hc hcs hbom
    rw [lexLine_assign ct h ws0 name ws1 ws2 _ hws0 hws1 hws2 hname hbom (by simp)]
    have hrp : readParam ct (x :: xs ++ (ws3 ++ c :: tail)) =
        if MAX_PARAM_LEN ≤ (x :: xs).length then some ParamScan.bareTooLong
        else some (ParamScan.done (x :: xs) (ws3 ++ c :: tail)) := by
      cases ws3 with
      | nil => exact readParam_bare_full ct h x xs c tail hv hx (hc rfl)
      | cons w ws4 =>
        exact readParam_bare_full ct h x xs w (ws4 ++ c :: tail) hv hx
          (isBareChar_of_space h (hws3 w (List.mem_cons_self _ _)))
    rw [hrp]
    simp only [MAX_PARAM_LEN]
    split_ifs
    · rfl
    · exact lexEnd_skip ct h name (x :: xs) true ws3 c tail hws3 hcs
  · intro ws0 name ws1 ws2 ds rest n hws0 hws1 hws2 hname hds hdig hbom hn hle
    have hrp := readParam_percent ct h [] ds rest (by simp) hds hdig
    simp only [List.nil_append] at hrp
    rw [lexLine_assign ct h ws0 name ws1 ws2 _ hws0 hws1 hws2 hname hbom (by simp), hrp, hn]
    simp only [MAX_PARAM_LEN]
    constructor
    · intro hbig
      have : 1500 - 1 ≤ decVal ds := by omega
      simp only [this, if_true]
    · intro hsmall
      have h1 : ¬ 1500 - 1 ≤ decVal ds := by omega
      have h2 : ¬ n < decVal ds := by omega
      simp only [h1, h2, if_false, true_and]
      have h0 : 0 ∈ rest.drop (decVal ds) := by
        obtain ⟨t, ht, hl⟩ := (strlen_some_iff rest n).1 hn
        rw [ht, List.drop_append_of_le_length (by omega)]
        simp
      have hsk : skipSpace ct (rest.drop (decVal ds)) ≠ [] := by
        generalize rest.drop (decVal ds) = s at h0
        induction s with
        | nil => simp at h0
        | cons y ys ih =>
          by_cases hy : ct.isspace y = true
          · have hy0 : y ≠ 0 := by
              intro hh; rw [hh, h.isspace_nul] at hy; exact Bool.noConfusion hy
            simp only [skipSpace, hy, if_true]
            rcases List.mem_cons.1 h0 with h1 | h1
            · exact absurd h1.symm hy0
            · exact ih h1
          · simp [skipSpace, hy]
      obtain ⟨y, ys, hy⟩ := List.exists_cons_of_ne_nil hsk
      rw [hy]
      exact ⟨_, rfl⟩
  · intro st res d hlex hmem
    simp only [List.mem_cons, Prod.mk.injEq, List.mem_singleton, List.not_mem_nil,
      or_false] at hmem
    rcases hmem with ⟨h1, h2⟩ | ⟨h1, h2⟩ | ⟨h1, h2⟩ | ⟨h1, h2⟩ <;> subst h1 h2 <;>
      simp only [processLine, hlex, State.lexError]

theorem C13_length_limits_witness :
    lexLine mpCtype (assignLine [] (bytes "v") [32] [32]
        (39 :: (bytes "a b" ++ 39 :: ([32] ++ 35 :: bytes " c\n\x00")))) =
      if 1500 ≤ (bytes "a b").length then some LexResult.quotedTooLong
      else some (LexResult.directive (bytes "v") (bytes "a b") true
        (decide ((35 : Nat) ≠ 0 ∧ (35 : Nat) ≠ 35))) :=
  (C13_length_limits mpCtype mpCtype_sane demoEnv 0).2.1 [] (bytes "v") [32] [32] 39
    (bytes "a b") [32] 35 (bytes " c\n\x00") (by decide) (by decide) (by decide) (by decide)
    ⟨by decide, by decide, by decide, by decide⟩ (by decide) (by decide) (by decide)
    (by decide)

/-- C13 fails at the limits it names: a name of exactly 1000 bytes is
rejected as too long, so are a quoted and a bare value of exactly 1500 bytes,
and a length-prefixed value of 1499 bytes is rejected as bogus although the
line holds all its bytes. -/
theorem C13_counterexample :
    lexLine mpCtype (List.replicate 1000 97 ++ bytes "=1\n\x00") =
      some LexResult.optTooLong ∧
    lexLine mpCtype (bytes "v=\"" ++ List.replicate 1500 97 ++ bytes "\"\n\x00") =
      some LexResult.quotedTooLong ∧
    lexLine mpCtype (bytes "v=" ++ List.replicate 1500 97 ++ bytes "\n\x00") =
      some LexResult.bareTooLong ∧
    lexLine mpCtype (bytes "v=%1499%" ++ List.replicate 1499 97 ++ bytes "\n\x00") =
      some LexResult.bogusLength := by
  decide

theorem dropSetFailed_cons (e : Event) (t : List Event) :
    dropSetFailed (e :: t) = if e.isSetFailed then dropSetFailed t else e :: dropSetFailed t := by
  unfold dropSetFailed
  by_cases h : e.isSetFailed = true <;> simp [List.filter_cons, h]

theorem filter_isCall_dropSetFailed (t : List Event) :
    (dropSetFailed t).filter Event.isCall = t.filter Event.isCall := by
  induction t with
  | nil => rfl
  | cons e t ih =>
    rw [dropSetFailed_cons]
    by_cases h : e.isSetFailed = true
    · have hc : e.isCall = false := by
        cases e <;> simp [Event.isSetFailed] at h
        rfl
      simp [h, hc, List.filter_cons, ih]
    · simp [h, List.filter_cons, ih]

theorem dropSetFailed_traceAtDispatch (a b : State) (ex : Bool)
    (hn : a.line_num = b.line_num) (ht : dropSetFailed a.trace = dropSetFailed b.trace) :
    dropSetFailed (traceAtDispatch a ex) = dropSetFailed (traceAtDispatch b ex) := by
  cases ex
  · simpa [traceAtDispatch] using ht
  · simp [traceAtDispatch, dropSetFailed_cons, Event.isSetFailed, hn, ht]

theorem dispatch_same (env1 env2 : Env) (hb : env1.Blind) (hs : env1.SameButSetters env2)
    (flags : Nat) (a b : State) (hab : a.SameButSetFailed b) (opt param : List Nat)
    (ps ex : Bool) :
    (dispatch env1 flags a opt param ps ex).SameButSetFailed
      (dispatch env2 flags b opt param ps ex) := by
  obtain ⟨h1, h2, h3, h4, h5, h6⟩ := hab
  obtain ⟨a1, a2, a3, a4, a5⟩ := dispatch_fields env1 flags a opt param ps ex
  obtain ⟨b1, b2, b3, b4, b5⟩ := dispatch_fields env2 flags b opt param ps ex
  have hT := dropSetFailed_traceAtDispatch a b ex h3 h6
  have hreq : env1.requires_param (traceAtDispatch a ex) (normalize (cstr opt)) =
      env2.requires_param (traceAtDispatch b ex) (normalize (cstr opt)) := by
    rw [(hb _ _ hT).2, hs.2.1]
  have hse : ∀ p f n v, (setterEvent p f n v).isSetFailed = false := by
    intro p f n v
    unfold setterEvent
    split_ifs <;> rfl
  have hr : ∀ n, (Event.requires_param n).isSetFailed = false := fun _ => rfl
  have hd : ∀ p v, (Event.set_desc p v).isSetFailed = false := fun _ _ => rfl
  have hm : ∀ n, (Event.lineErr n LineDiag.missingParam).isSetFailed = false := fun _ => rfl
  have hf : ∀ n, (Event.lineErr n LineDiag.setFailed).isSetFailed = true := fun _ => rfl
  refine ⟨by rw [a1, b1, h1], by rw [a2, b2, h2], by rw [a4, b4, h3], by rw [a3, b3, h4],
    by rw [a5, b5, h5], ?_⟩
  rw [dispatch_trace, dispatch_trace, ← h4, ← h3, ← hreq]
  split_ifs
  all_goals
    simp only [dropSetFailed_cons, hse, hr, hd, hm, hf, if_true, if_false, Bool.false_eq_true,
      hT]

theorem processLine_same (ct : CType) (env1 env2 : Env) (hb : env1.Blind)
    (hs : env1.SameButSetters env2) (flags : Nat) (a b : State)
    (hab : a.SameButSetFailed b) :
    bothOrNeither State.SameButSetFailed (processLine ct env1 flags a)
      (processLine ct env2 flags b) := by
  obtain ⟨h1, h2, h3, h4, h5, h6⟩ := hab
  have hl : ∀ n d, (Event.lineErr n d).isSetFailed = true → d = LineDiag.setFailed := by
    intro n d h
    cases d <;> simp_all [Event.isSetFailed]
  unfold processLine
  simp only [← h5]
  cases hlex : lexLine ct a.line with
  | none => exact trivial
  | some res =>
    cases res with
    | blank => exact ⟨h1, h2, by simp [h3], h4, rfl, h6⟩
    | optTooLong =>
      exact ⟨rfl, by simp [State.lexError, h2], by simp [State.lexError, h3], h4, rfl,
        by simp [State.lexError, dropSetFailed_cons, Event.isSetFailed, h3, h6]⟩
    | parseError =>
      exact ⟨rfl, by simp [State.lexError, h2], by simp [State.lexError, h3], h4, rfl,
        by simp [State.lexError, dropSetFailed_cons, Event.isSetFailed, h3, h6]⟩
    | header opt =>
      refine ⟨h1, h2, by simp [h3], ?_, rfl,
        by simp [dropSetFailed_cons, Event.isSetFailed, h6]⟩
      simp only
      rw [(hb _ _ h6).1, hs.1]
    | quotedTooLong =>
      exact ⟨rfl, by simp [State.lexError, h2], by simp [State.lexError, h3], h4, rfl,
        by simp [State.lexError, dropSetFailed_cons, Event.isSetFailed, h3, h6]⟩
    | bogusLength =>
      exact ⟨rfl, by simp [State.lexError, h2], by simp [State.lexError, h3], h4, rfl,
        by simp [State.lexError, dropSetFailed_cons, Event.isSetFailed, h3, h6]⟩
    | bareTooLong =>
      exact ⟨rfl, by simp [State.lexError, h2], by simp [State.lexError, h3], h4, rfl,
        by simp [State.lexError, dropSetFailed_cons, Event.isSetFailed, h3, h6]⟩
    | directive opt param ps ex =>
      exact dispatch_same env1 env2 hb hs flags { a with line_num := a.line_num + 1 }
        { b with line_num := b.line_num + 1, line := a.line }
        ⟨h1, h2, by simp [h3], h4, rfl, h6⟩ opt param ps ex

theorem loop_same (ct : CType) (env1 env2 : Env) (hb : env1.Blind)
    (hs : env1.SameButSetters env2) (flags : Nat) (ls : List (List Nat)) :
    ∀ a b : State, a.SameButSetFailed b →
      bothOrNeither State.SameButSetFailed (loop ct env1 flags ls a)
        (loop ct env2 flags ls b) := by
  induction ls with
  | nil =>
    intro a b ⟨h1, h2, h3, h4, h5, h6⟩
    exact ⟨h1, h2, h3, h4, h5, by simp [dropSetFailed_cons, Event.isSetFailed, h6]⟩
  | cons l ls ih =>
    intro a b ⟨h1, h2, h3, h4, h5, h6⟩
    have e16 : (16 ≤ b.errors) = (16 ≤ a.errors) := by rw [h2]
    simp only [loop, e16]
    split_ifs with h16
    · exact ⟨h1, h2, h3, h4, by simp [h5],
        by simp [dropSetFailed_cons, Event.isSetFailed, h6]⟩
    · have hp := processLine_same ct env1 env2 hb hs flags
        { a with line := fgetsWrite l a.line, trace := Event.fgets :: a.trace }
        { b with line := fgetsWrite l b.line, trace := Event.fgets :: b.trace }
        ⟨h1, h2, h3, h4, by simp [h5], by simp [dropSetFailed_cons, Event.isSetFailed, h6]⟩
      cases hpa : processLine ct env1 flags
          { a with line := fgetsWrite l a.line, trace := Event.fgets :: a.trace } with
      | none =>
        rw [hpa] at hp
        cases hpb : processLine ct env2 flags
            { b with line := fgetsWrite l b.line, trace := Event.fgets :: b.trace } with
        | none => exact trivial
        | some b1 => rw [hpb] at hp; exact hp.elim
      | some a1 =>
        rw [hpa] at hp
        cases hpb : processLine ct env2 flags
            { b with line := fgetsWrite l b.line, trace := Event.fgets :: b.trace } with
        | none => rw [hpb] at hp; exact hp.elim
        | some b1 =>
          rw [hpb] at hp
          exact ih a1 b1 hp

theorem finish_same (d ret : Int) (t1 t2 : List Event)
    (ht : dropSetFailed t1 = dropSetFailed t2) :
    bothOrNeither Result.SameButSetFailed (finish d ret t1) (finish d ret t2) := by
  unfold finish
  split_ifs with h1 h2
  · exact trivial
  · refine ⟨rfl, rfl, ?_, ?_⟩
    · simp [dropSetFailed_cons, Event.isSetFailed, ht]
    · rw [← filter_isCall_dropSetFailed, ← filter_isCall_dropSetFailed (Event.errorLoading :: t2)]
      simp [dropSetFailed_cons, Event.isSetFailed, ht]
  · refine ⟨rfl, rfl, ht, ?_⟩
    rw [← filter_isCall_dropSetFailed, ← filter_isCall_dropSetFailed t2, ht]

/-- C17: what the setters return has no influence on anything but the
diagnostic "setting option ... failed".  For two sets of collaborators that
differ at most in the results of the two setters, and whose registries do not
see that diagnostic, the loader behaves alike on every input: either both runs
are undefined, or both return, with the same value, and their traces differ at
most in these diagnostics, so every line is lexed and dispatched with the same
collaborator calls, with the same arguments, in the same order. -/
theorem C17_setter_failure_not_fatal (ct : CType) (env1 env2 : Env) (d : Int)
    (malloc file : Option (List Nat)) (init : Option (List Nat)) (flags : Nat)
    (hb : env1.Blind) (hs : env1.SameButSetters env2) :
    bothOrNeither Result.SameButSetFailed
      (m_config_parse_config_file ct env1 d malloc file init flags)
      (m_config_parse_config_file ct env2 d malloc file init flags) := by
  unfold m_config_parse_config_file
  simp only [← hs.2.2]
  split_ifs with hd
  · exact finish_same _ _ _ _ rfl
  · cases malloc with
    | none => exact finish_same _ _ _ _ rfl
    | some buf =>
      cases file with
      | none => exact finish_same _ _ _ _ rfl
      | some content =>
        simp only
        have hp : env1.add_profile [] init = env2.add_profile [] init := by rw [hs.1]
        have hl := loop_same ct env1 env2 hb hs (flags ||| env1.M_SETOPT_FROM_CONFIG_FILE)
          (fileLines content.length content)
          { ret := 1, errors := 0, line_num := 0, profile := env1.add_profile [] init,
            line := buf, trace := [Event.fopen, Event.add_profile init] }
          { ret := 1, errors := 0, line_num := 0, profile := env2.add_profile [] init,
            line := buf, trace := [Event.fopen, Event.add_profile init] }
          ⟨rfl, rfl, rfl, hp, rfl, rfl⟩
        revert hl
        cases loop ct env1 (flags ||| env1.M_SETOPT_FROM_CONFIG_FILE)
            (fileLines content.length content)
            { ret := 1, errors := 0, line_num := 0, profile := env1.add_profile [] init,
              line := buf, trace := [Event.fopen, Event.add_profile init] } with
        | none =>
          cases loop ct env2 (flags ||| env1.M_SETOPT_FROM_CONFIG_FILE)
              (fileLines content.length content)
              { ret := 1, errors := 0, line_num := 0, profile := env2.add_profile [] init,
                line := buf, trace := [Event.fopen, Event.add_profile init] } with
          | none => intro _; exact trivial
          | some b1 => intro hl; exact hl.elim
        | some a1 =>
          cases loop ct env2 (flags ||| env1.M_SETOPT_FROM_CONFIG_FILE)
              (fileLines content.length content)
              { ret := 1, errors := 0, line_num := 0, profile := env2.add_profile [] init,
                line := buf, trace := [Event.fopen, Event.add_profile init] } with
          | none => intro hl; exact hl.elim
          | some b1 =>
            intro hl
            simp only
            rw [← hl.1]
            exact finish_same _ _ _ _ hl.2.2.2.2.2

theorem strictEnv_blind : strictEnv.Blind := fun _ _ _ => ⟨rfl, rfl⟩

theorem C17_setter_failure_not_fatal_witness :
    bothOrNeither Result.SameButSetFailed
        (m_config_parse_config_file mpCtype strictEnv 0 (some zeroBuf)
          (some (bytes "bad=1\nneed\nx=2\n")) none 0)
        (m_config_parse_config_file mpCtype lenientEnv 0 (some zeroBuf)
          (some (bytes "bad=1\nneed\nx=2\n")) none 0) ∧
    (m_config_parse_config_file mpCtype strictEnv 0 (some zeroBuf)
        (some (bytes "bad=1\nneed\nx=2\n")) none 0).map (fun r => r.trace) =
      some [Event.fgets, Event.set_option_ext (bytes "x") (bytes "2") 4,
        Event.requires_param (bytes "x"), Event.fgets,
        Event.lineErr 2 LineDiag.missingParam, Event.requires_param (bytes "need"),
        Event.fgets, Event.lineErr 1 LineDiag.setFailed,
        Event.set_option_ext (bytes "bad") (bytes "1") 4, Event.requires_param (bytes "bad"),
        Event.fgets, Event.fopen, Event.add_profile none] :=
  ⟨C17_setter_failure_not_fatal mpCtype strictEnv lenientEnv 0 (some zeroBuf)
      (some (bytes "bad=1\nneed\nx=2\n")) none 0 strictEnv_blind ⟨rfl, rfl, rfl⟩,
   by decide⟩

/-- The loop of a quoted value leaves the buffer when no closing quote comes
within the next `MAX_PARAM_LEN` bytes and the buffer ends before that. -/
theorem readQuoted_none (q : Nat) (s : List Nat) :
    ∀ acc : List Nat, q ∉ s → acc.length + s.length < MAX_PARAM_LEN →
      readQuoted q s acc = none := by
  induction s with
  | nil => intro acc _ _; rfl
  | cons x xs ih =>
    intro acc hq hlen
    have hx : x ≠ q := fun h => hq (h ▸ List.mem_cons_self _ _)
    have hxs : q ∉ xs := fun h => hq (List.mem_cons_of_mem _ h)
    simp only [List.length_cons] at hlen
    have hlt : ¬ MAX_PARAM_LEN ≤ (acc ++ [x]).length := by
      simp only [List.length_append, List.length_singleton]; omega
    simp only [readQuoted, ne_eq, hx, not_false_eq_true, if_true, hlt, if_false]
    exact ih _ hxs (by simp only [List.length_append, List.length_singleton]; omega)

theorem fgetsChunk_no_newline (n : Nat) : ∀ s : List Nat, 10 ∉ s → s.length ≤ n →
    fgetsChunk n s = (s, []) := by
  induction n with
  | zero =>
    intro s _ hl
    have : s = [] := List.length_eq_zero.1 (by omega)
    subst this; rfl
  | succ n ih =>
    intro s h10 hl
    cases s with
    | nil => rfl
    | cons x xs =>
      have hx : x ≠ 10 := fun h => h10 (h ▸ List.mem_cons_self _ _)
      have hxs : 10 ∉ xs := fun h => h10 (List.mem_cons_of_mem _ h)
      simp only [List.length_cons] at hl
      simp only [fgetsChunk, hx, if_false, ih xs hxs (by omega)]

/-- A stream without newline that fits the buffer is delivered as one line. -/
theorem fileLines_single (s : List Nat) (hne : s ≠ []) (h10 : 10 ∉ s)
    (hl : s.length ≤ MAX_LINE_LEN - 1) : fileLines s.length s = [s] := by
  obtain ⟨x, xs, rfl⟩ := List.exists_cons_of_ne_nil hne
  simp only [List.length_cons, fileLines, fgetsChunk_no_newline _ _ h10 hl]
  cases xs <;> rfl

theorem longUnterminated_length : longUnterminated.length = 9999 := by
  unfold longUnterminated
  rw [List.length_append, List.length_append, List.length_replicate]
  decide

theorem longUnterminated_no_newline : 10 ∉ longUnterminated := by
  intro h
  unfold longUnterminated at h
  rcases List.mem_append.1 h with h | h
  · revert h; decide
  · rcases List.mem_append.1 h with h | h
    · exact absurd (List.mem_replicate.1 h).2 (by decide)
    · revert h; decide

theorem lexLine_longUnterminated :
    lexLine mpCtype (fgetsWrite longUnterminated zeroBuf) = none := by
  have hbuf : fgetsWrite longUnterminated zeroBuf =
      assignLine [] (bytes "x") [] (List.replicate 9993 32) (bytes "\"abc" ++ [0, 0]) := by
    have hd : List.drop (longUnterminated.length + 1) zeroBuf = [0] := by
      rw [longUnterminated_length, zeroBuf, List.drop_replicate]
      decide
    have e1 : bytes "x=" = bytes "x" ++ [61] := by decide
    unfold fgetsWrite
    rw [hd]
    simp only [longUnterminated, assignLine, e1, List.append_assoc, List.nil_append,
      List.singleton_append, List.cons_append]
  have hws : ∀ w ∈ List.replicate 9993 32, w ∈ sixSpaces := by
    intro w hw
    rw [(List.mem_replicate.1 hw).2]
    decide
  have hbom : startsWithBOM (assignLine [] (bytes "x") [] (List.replicate 9993 32)
      (bytes "\"abc" ++ [0, 0])) = false :=
    startsWithBOM_cons_of_ne 120 _ (by decide)
  have h0 : ∀ w ∈ ([] : List Nat), w ∈ sixSpaces := fun w hw => absurd hw (List.not_mem_nil w)
  rw [hbuf, lexLine_assign mpCtype mpCtype_sane [] (bytes "x") [] (List.replicate 9993 32) _
    h0 h0 hws ⟨by decide, by decide, by decide, by decide⟩ hbom (by decide)]
  have hrq : readQuoted 34 (bytes "abc" ++ [0, 0]) [] = none :=
    readQuoted_none 34 _ [] (by decide) (by decide)
  have hrp : readParam mpCtype (bytes "\"abc" ++ [0, 0]) = none := by
    have h34 : (34 : Nat) ∉ sixSpaces := by decide
    have : bytes "\"abc" ++ [0, 0] = 34 :: (bytes "abc" ++ [0, 0]) := by decide
    rw [this]
    simp only [readParam, skipSpace_cons_of_not mpCtype 34 _ (mpCtype_sane.isspace_false h34),
      true_or, if_true, hrq]
  rw [hrp]

/-- The loop has no result when the scan of the line it has just read leaves
the buffer. -/
theorem loop_none_head (ct : CType) (env : Env) (flags : Nat) (l : List Nat)
    (ls : List (List Nat)) (st : State) (he : st.errors < 16)
    (hl : lexLine ct (fgetsWrite l st.line) = none) :
    loop ct env flags (l :: ls) st = none := by
  have he16 : ¬ 16 ≤ st.errors := by omega
  simp only [loop, he16, if_false, processLine, hl]

/-- The loader has no result when the file is a single line whose scan
leaves the buffer. -/
theorem run_none_single (ct : CType) (env : Env) (d : Int) (buf l : List Nat)
    (init : Option (List Nat)) (flags : Nat) (hd : ¬ MAX_RECURSION_DEPTH < d)
    (hne : l ≠ []) (h10 : 10 ∉ l) (hl : l.length ≤ MAX_LINE_LEN - 1)
    (hlex : lexLine ct (fgetsWrite l buf) = none) :
    m_config_parse_config_file ct env d (some buf) (some l) init flags = none := by
  simp only [m_config_parse_config_file, hd, if_false, fileLines_single l hne h10 hl]
  rw [loop_none_head ct env _ l [] _ (by show (0 : Nat) < 16; decide) hlex]

/-- C18, the code at the failing input.  In the file with the lines
`# aaaaaaaaaaaa"` and `x="abc` the value of the second line has no closing
quote.  The loop of lines 158-167 does not stop at the terminating NUL of the
line: it copies the NUL and the six bytes `aaaaaa` that the first line left
behind it, and ends at the quote of the first line.  The line is accepted
without any diagnostic, the setter is called with `abc` and the newline, and
the loader returns 1.  On a line of 9999 bytes with the quote near the end the
same loop runs past the end of the buffer of 10001 bytes, which the model
reports as undefined. -/
theorem C18_unterminated_quote :
    lexLine mpCtype
        (fgetsWrite (bytes "x=\"abc\n") (fgetsWrite (bytes "# aaaaaaaaaaaa\"\n") zeroBuf)) =
      some (LexResult.directive (bytes "x") (bytes "abc\n" ++ 0 :: bytes "aaaaaa") true false) ∧
    m_config_parse_config_file mpCtype demoEnv 0 (some zeroBuf)
        (some (bytes "# aaaaaaaaaaaa\"\nx=\"abc\n")) none 0 =
      some { ret := 1, recursion_depth := -1,
             trace := [Event.fgets, Event.set_option_ext (bytes "x") (bytes "abc\n") 4,
                       Event.requires_param (bytes "x"), Event.fgets, Event.fgets,
                       Event.fopen, Event.add_profile none] } ∧
    longUnterminated.length = 9999 ∧
    lexLine mpCtype (fgetsWrite longUnterminated zeroBuf) = none ∧
    m_config_parse_config_file mpCtype demoEnv 0 (some zeroBuf) (some longUnterminated)
      none 0 = none := by
  refine ⟨by decide, by decide, longUnterminated_length, lexLine_longUnterminated, ?_⟩
  have hne : longUnterminated ≠ [] := by
    intro h
    have h1 := congrArg List.length h
    rw [longUnterminated_length] at h1
    exact absurd h1 (by decide)
  exact run_none_single mpCtype demoEnv 0 zeroBuf longUnterminated none 0 (by decide) hne
    longUnterminated_no_newline (by rw [longUnterminated_length]; decide)
    lexLine_longUnterminated

/-- The events that lines 213-251 add to the trace, in full. -/
theorem dispatch_new_exact (env : Env) (flags : Nat) (st : State) (opt param : List Nat)
    (ps ex : Bool) :
    ∃ new, (dispatch env flags st opt param ps ex).trace = new ++ st.trace ∧
      (∀ e ∈ new, ∀ n, e.optionName = some n → n = normalize (cstr opt)) ∧
      (¬ (st.profile ≠ 0 ∧ normalize (cstr opt) = bytes "profile-desc") →
        Event.requires_param (normalize (cstr opt)) ∈ new ∧
        (¬ (0 < env.requires_param (traceAtDispatch st ex) (normalize (cstr opt)) ∧ ps = false) →
          setterEvent st.profile flags (normalize (cstr opt)) (cstr param) ∈ new)) := by
  have hse : ∀ n, (setterEvent st.profile flags (normalize (cstr opt)) (cstr param)).optionName
      = some n → n = normalize (cstr opt) := by
    intro n hn
    unfold setterEvent at hn
    split_ifs at hn <;> simp only [Event.optionName, Option.some.injEq] at hn <;> exact hn.symm
  obtain ⟨pre, hpre, hnone⟩ : ∃ pre, traceAtDispatch st ex = pre ++ st.trace ∧
      ∀ e ∈ pre, ∀ n, e.optionName = some n → n = normalize (cstr opt) := by
    cases ex
    · exact ⟨[], rfl, fun e he => absurd he (List.not_mem_nil e)⟩
    · refine ⟨[Event.lineErr st.line_num LineDiag.extraChars], rfl, ?_⟩
      intro e he n hn
      rw [List.mem_singleton] at he
      subst he
      simp [Event.optionName] at hn
  rw [dispatch_trace, hpre]
  by_cases h1 : st.profile ≠ 0 ∧ normalize (cstr opt) = bytes "profile-desc"
  · rw [if_pos h1]
    refine ⟨Event.set_desc st.profile (cstr param) :: pre, rfl, ?_, fun hn => absurd h1 hn⟩
    intro e he n hn
    rcases List.mem_cons.1 he with he | he
    · subst he; simp [Event.optionName] at hn
    · exact hnone e he n hn
  · rw [if_neg h1]
    by_cases h2 : 0 < env.requires_param (pre ++ st.trace) (normalize (cstr opt)) ∧ ps = false
    · rw [if_pos h2]
      refine ⟨Event.lineErr st.line_num LineDiag.missingParam ::
        Event.requires_param (normalize (cstr opt)) :: pre, rfl, ?_,
        fun _ => ⟨by simp, fun hn => absurd h2 hn⟩⟩
      intro e he n hn
      rcases List.mem_cons.1 he with he | he
      · subst he; simp [Event.optionName] at hn
      · rcases List.mem_cons.1 he with he | he
        · subst he; simp only [Event.optionName, Option.some.injEq] at hn; exact hn.symm
        · exact hnone e he n hn
    · rw [if_neg h2]
      split_ifs with h3
      · refine ⟨Event.lineErr st.line_num LineDiag.setFailed ::
          setterEvent st.profile flags (normalize (cstr opt)) (cstr param) ::
          Event.requires_param (normalize (cstr opt)) :: pre, rfl, ?_,
          fun _ => ⟨by simp, fun _ => by simp⟩⟩
        intro e he n hn
        rcases List.mem_cons.1 he with he | he
        · subst he; simp [Event.optionName] at hn
        · rcases List.mem_cons.1 he with he | he
          · subst he; exact hse n hn
          · rcases List.mem_cons.1 he with he | he
            · subst he; simp only [Event.optionName, Option.some.injEq] at hn; exact hn.symm
            · exact hnone e he n hn
      · refine ⟨setterEvent st.profile flags (normalize (cstr opt)) (cstr param) ::
          Event.requires_param (normalize (cstr opt)) :: pre, rfl, ?_,
          fun _ => ⟨by simp, fun _ => by simp⟩⟩
        intro e he n hn
        rcases List.mem_cons.1 he with he | he
        · subst he; exact hse n hn
        · rcases List.mem_cons.1 he with he | he
          · subst he; simp only [Event.optionName, Option.some.injEq] at hn; exact hn.symm
          · exact hnone e he n hn

/-- C15: for every line that reaches the dispatcher with the name token
`opt`, the name handed to the collaborators is `normalize opt`: `opt` without
its first two bytes if `opt` has at least 3 bytes and starts with `--`, and
`opt` itself otherwise (so for the 2-byte token `--`); the token holds no NUL
(`bstr0` keeps all of it) and the normalized name is never empty.  The calls
made for the line are given in full: unless the line is the description of
the current profile, the option registry is called with `normalize opt`, and
unless it then reports a missing value, the setter is called with
`normalize opt` (the profile-option setter when there is a current profile,
the global setter otherwise); no call made for the line carries another
name. -/
theorem C15_normalized_name (ct : CType) (h : ct.Sane) (env : Env) (flags : Nat) (st : State)
    (opt param : List Nat) (ps ex : Bool)
    (hlex : lexLine ct st.line = some (LexResult.directive opt param ps ex)) :
    cstr opt = opt ∧
    normalize opt = (if 3 ≤ opt.length ∧ opt.take 2 = [45, 45] then opt.drop 2 else opt) ∧
    normalize [45, 45] = [45, 45] ∧
    normalize opt ≠ [] ∧
    ∃ st1 new, processLine ct env flags st = some st1 ∧ st1.trace = new ++ st.trace ∧
      (∀ e ∈ new, ∀ n, e.optionName = some n → n = normalize opt) ∧
      (¬ (st.profile ≠ 0 ∧ normalize opt = bytes "profile-desc") →
        Event.requires_param (normalize opt) ∈ new ∧
        (¬ (0 < env.requires_param (traceAtDispatch (nextLine st) ex) (normalize opt) ∧
            ps = false) →
          (st.profile ≠ 0 →
            Event.set_profile_option st.profile (normalize opt) (cstr param) ∈ new) ∧
          (st.profile = 0 →
            Event.set_option_ext (normalize opt) (cstr param) flags ∈ new))) ∧
      st1.trace =
        (if st.profile ≠ 0 ∧ normalize opt = bytes "profile-desc" then
          Event.set_desc st.profile (cstr param) :: traceAtDispatch (nextLine st) ex
        else if 0 < env.requires_param (traceAtDispatch (nextLine st) ex) (normalize opt) ∧
            ps = false then
          Event.lineErr (st.line_num + 1) LineDiag.missingParam ::
            Event.requires_param (normalize opt) :: traceAtDispatch (nextLine st) ex
        else if setterResult env
            (Event.requires_param (normalize opt) :: traceAtDispatch (nextLine st) ex)
            st.profile flags (normalize opt) (cstr param) < 0 then
          Event.lineErr (st.line_num + 1) LineDiag.setFailed ::
            setterEvent st.profile flags (normalize opt) (cstr param) ::
            Event.requires_param (normalize opt) :: traceAtDispatch (nextLine st) ex
        else
          setterEvent st.profile flags (normalize opt) (cstr param) ::
            Event.requires_param (normalize opt) :: traceAtDispatch (nextLine st) ex) := by
  obtain ⟨hne, hchars, _, _, _, _⟩ := lexLine_directive_inv ct st.line opt param ps ex hlex
  have hcstr : cstr opt = opt := h.cstr_of_optChars hchars
  refine ⟨hcstr, normalize_eq opt, by decide, normalize_ne_nil opt hne, ?_⟩
  obtain ⟨new, hnew, hall, hcalls⟩ :=
    dispatch_new_exact env flags (nextLine st) opt param ps ex
  have htr := dispatch_trace env flags (nextLine st) opt param ps ex
  rw [hcstr] at hall hcalls htr
  refine ⟨_, new, processLine_of_directive ct env flags st opt param ps ex hlex, hnew, hall,
    ?_, htr⟩
  intro hdesc
  obtain ⟨hreg, hset⟩ := hcalls hdesc
  refine ⟨hreg, fun hmiss => ?_⟩
  have hs := hset hmiss
  constructor
  · intro hp
    have hp1 : (nextLine st).profile ≠ 0 := hp
    simpa only [setterEvent, hp1, ne_eq, not_false_eq_true, if_true] using hs
  · intro hp
    have hp1 : ¬ (nextLine st).profile ≠ 0 := fun hn => hn hp
    simpa only [setterEvent, hp1, if_false] using hs

theorem C15_normalized_name_witness :
    (∃ st1 new, processLine mpCtype demoEnv 4 (demoState 0 (bytes "--fs=yes\n\x00")) = some st1 ∧
      st1.trace = new ++ (demoState 0 (bytes "--fs=yes\n\x00")).trace ∧
      Event.requires_param (normalize (bytes "--fs")) ∈ new ∧
      Event.set_option_ext (normalize (bytes "--fs")) (cstr (bytes "yes")) 4 ∈ new) ∧
    normalize (bytes "--fs") = bytes "fs" ∧
    processLine mpCtype demoEnv 4 (demoState 0 (bytes "--fs=yes\n\x00")) =
      some { ret := 1, errors := 0, line_num := 1, profile := 0, line := bytes "--fs=yes\n\x00",
             trace := [Event.set_option_ext (bytes "fs") (bytes "yes") 4,
                       Event.requires_param (bytes "fs")] } := by
  obtain ⟨_, _, _, _, st1, new, h1, h2, _, h4, _⟩ :=
    C15_normalized_name mpCtype mpCtype_sane demoEnv 4 (demoState 0 (bytes "--fs=yes\n\x00"))
      (bytes "--fs") (bytes "yes") true false (by decide)
  obtain ⟨h5, h6⟩ := h4 (by decide)
  exact ⟨⟨st1, new, h1, h2, h5, (h6 (by decide)).2 rfl⟩, by decide, by decide⟩

theorem processLine_of_header (ct : CType) (env : Env) (flags : Nat) (st : State)
    (opt : List Nat) (hlex : lexLine ct st.line = some (LexResult.header opt)) :
    processLine ct env flags st =
      some { nextLine st with
               profile := env.add_profile st.trace (some (cstr (opt.dropLast.drop 1))),
               trace := Event.add_profile (some (cstr (opt.dropLast.drop 1))) :: st.trace } := by
  simp only [processLine, hlex, nextLine]

theorem processLine_trace_suffix (ct : CType) (env : Env) (flags : Nat) (st st1 : State)
    (h : processLine ct env flags st = some st1) : ∃ new, st1.trace = new ++ st.trace := by
  unfold processLine at h
  simp only at h
  split at h <;> simp at h <;> subst h
  all_goals first
    | exact ⟨[], rfl⟩
    | exact ⟨[_], rfl⟩
    | (obtain ⟨new, hnew, _⟩ :=
        dispatch_new_exact env flags { st with line_num := st.line_num + 1 } _ _ _ _
       exact ⟨new, hnew⟩)

theorem loop_trace_suffix (ct : CType) (env : Env) (flags : Nat) (ls : List (List Nat)) :
    ∀ (st st1 : State), loop ct env flags ls st = some st1 →
      ∃ new, st1.trace = new ++ st.trace := by
  induction ls with
  | nil =>
    intro st st1 h
    simp [loop] at h
    subst h
    exact ⟨[Event.fgets], rfl⟩
  | cons l ls ih =>
    intro st st1 h
    simp only [loop] at h
    split_ifs at h with h16
    · simp at h
      subst h
      exact ⟨[Event.tooManyErrors, Event.fgets], rfl⟩
    · split at h
      · simp at h
      · rename_i st2 hp
        obtain ⟨n2, h2⟩ := ih st2 st1 h
        obtain ⟨n1, h1⟩ := processLine_trace_suffix ct env flags _ st2 hp
        refine ⟨n2 ++ n1 ++ [Event.fgets], ?_⟩
        rw [h2, h1]
        simp

/-- The loop takes the lines in file order: when the lines `pre` leave the
state `st` with fewer than 16 errors, the loop on `pre ++ l :: post` enters its
body for `l` in the state `st` with `l` in the buffer, and goes on with `post`
from the state that the body leaves. -/
theorem loop_append_line (ct : CType) (env : Env) (flags : Nat) (l : List Nat)
    (post : List (List Nat)) :
    ∀ (pre : List (List Nat)) (st0 st : State), loop ct env flags pre st0 = some st →
      st.errors < 16 →
      loop ct env flags (pre ++ l :: post) st0 =
        (processLine ct env flags { st with line := fgetsWrite l st.line }).bind
          (loop ct env flags post) := by
  intro pre
  induction pre with
  | nil =>
    intro st0 st h herr
    simp [loop] at h
    subst h
    have h16 : ¬ 16 ≤ st0.errors := by simpa using herr
    simp only [List.nil_append, loop, h16, if_false]
    cases processLine ct env flags
      { st0 with line := fgetsWrite l st0.line, trace := Event.fgets :: st0.trace } <;> rfl
  | cons p ps ih =>
    intro st0 st h herr
    simp only [loop] at h
    split_ifs at h with h16
    · simp at h
      subst h
      simp at herr
      omega
    · split at h
      · simp at h
      · rename_i st2 hp
        simp only [List.cons_append, loop, h16, if_false, hp]
        exact ih st2 st h herr

/-- C2 (amended): in every run of the loader every call of the profile-option
setter goes to the profile returned by the latest preceding call of the
profile registry, and the global setter is called only while that profile is
NULL.  For a file that is opened, take any line `l` of the file, `pre` the
lines before it and `post` the lines after it, and let `st` be the state in
which `fgets` delivers `l`, fewer than 16 errors having been counted.  Then
`profile` is the result of the latest call of the profile registry.  If `l`
is a section header, the profile registry is called for its name and the
result becomes the current profile.  If `l` is a directive other than the
description of a current profile and does not lack a value that the option
registry requires, the registry and then the setter are called for it: the
profile-option setter with the current profile when there is one, the global
setter otherwise; the profile stays as it is; everything the earlier lines did
lies before these calls in the trace and everything the later lines do lies
after them.  For the file `[a]`, `x=1`, `[b]`, `y=2` with the initial section
`default` the trace, most recent event first, holds exactly two setter calls,
`(b, y, 2)` after `(a, x, 1)`, none for the profile of `default` (742 in
`demoEnv`), and the loader returns 1. -/
theorem C2_setters_follow_profile (ct : CType) (env : Env) (d : Int)
    (malloc file : Option (List Nat)) (init : Option (List Nat)) (flags : Nat) (r : Result)
    (hr : m_config_parse_config_file ct env d malloc file init flags = some r) :
    settersFollowProfile env r.trace = true ∧
    (∀ (buf content : List Nat) (pre : List (List Nat)) (l : List Nat)
        (post : List (List Nat)) (st : State),
      malloc = some buf → file = some content → d ≤ MAX_RECURSION_DEPTH →
      fileLines content.length content = pre ++ l :: post →
      loop ct env (flags ||| env.M_SETOPT_FROM_CONFIG_FILE) pre
        { ret := 1, errors := 0, line_num := 0, profile := env.add_profile [] init,
          line := buf, trace := [Event.fopen, Event.add_profile init] } = some st →
      st.errors < 16 →
      st.profile = currentProfile env st.trace ∧
      (∀ opt, lexLine ct (fgetsWrite l st.line) = some (LexResult.header opt) →
        ∃ st1 later,
          processLine ct env (flags ||| env.M_SETOPT_FROM_CONFIG_FILE)
            { st with line := fgetsWrite l st.line } = some st1 ∧
          st1.profile = env.add_profile st.trace (some (cstr (opt.dropLast.drop 1))) ∧
          st1.trace = Event.add_profile (some (cstr (opt.dropLast.drop 1))) :: st.trace ∧
          r.trace = later ++ st1.trace) ∧
      (∀ opt param ps ex,
        lexLine ct (fgetsWrite l st.line) = some (LexResult.directive opt param ps ex) →
        ¬ (st.profile ≠ 0 ∧ normalize (cstr opt) = bytes "profile-desc") →
        ¬ (0 < env.requires_param (traceAtDispatch (nextLine st) ex) (normalize (cstr opt)) ∧
            ps = false) →
        ∃ st1 diag later,
          processLine ct env (flags ||| env.M_SETOPT_FROM_CONFIG_FILE)
            { st with line := fgetsWrite l st.line } = some st1 ∧
          st1.profile = st.profile ∧
          (diag = [] ∨ diag = [Event.lineErr (st.line_num + 1) LineDiag.setFailed]) ∧
          st1.trace =
            diag ++
              (if st.profile ≠ 0 then
                Event.set_profile_option st.profile (normalize (cstr opt)) (cstr param)
              else
                Event.set_option_ext (normalize (cstr opt)) (cstr param)
                  (flags ||| env.M_SETOPT_FROM_CONFIG_FILE)) ::
              Event.requires_param (normalize (cstr opt)) ::
              traceAtDispatch (nextLine st) ex ∧
          r.trace = later ++ st1.trace)) ∧
    m_config_parse_config_file mpCtype demoEnv 0 (some zeroBuf)
        (some (bytes "[a]\nx=1\n[b]\ny=2\n")) (some (bytes "default")) 0 =
      some { ret := 1, recursion_depth := -1,
             trace := [Event.fgets,
                       Event.set_profile_option 99 (bytes "y") (bytes "2"),
                       Event.requires_param (bytes "y"),
                       Event.fgets,
                       Event.add_profile (some (bytes "b")),
                       Event.fgets,
                       Event.set_profile_option 98 (bytes "x") (bytes "1"),
                       Event.requires_param (bytes "x"),
                       Event.fgets,
                       Event.add_profile (some (bytes "a")),
                       Event.fgets,
                       Event.fopen,
                       Event.add_profile (some (bytes "default"))] } := by
  refine ⟨run_settersFollowProfile ct env d malloc file init flags r hr, ?_, by decide⟩
  intro buf content pre l post st hm hf hd hsplit hpre herr
  subst hm hf
  obtain ⟨stf, hloop, _, _, ht⟩ := run_opened ct env d buf content init flags r hd hr
  have hinv := loop_profileInv ct env _ pre _ st hpre
    (by simp [ProfileInv, currentProfile, settersFollowProfile])
  rw [hsplit, loop_append_line ct env _ l post pre _ st hpre herr] at hloop
  have hfin : ∀ st1, processLine ct env (flags ||| env.M_SETOPT_FROM_CONFIG_FILE)
      { st with line := fgetsWrite l st.line } = some st1 →
      ∃ later, r.trace = later ++ st1.trace := by
    intro st1 h1
    rw [h1] at hloop
    obtain ⟨new, hnew⟩ := loop_trace_suffix ct env _ post st1 stf hloop
    rw [ht, hnew]
    split_ifs
    · exact ⟨Event.errorLoading :: new, rfl⟩
    · exact ⟨new, rfl⟩
  refine ⟨hinv.1, ?_, ?_⟩
  · intro opt hlex
    have hp := processLine_of_header ct env (flags ||| env.M_SETOPT_FROM_CONFIG_FILE)
      { st with line := fgetsWrite l st.line } opt hlex
    obtain ⟨later, hl⟩ := hfin _ hp
    exact ⟨_, later, hp, rfl, rfl, hl⟩
  · intro opt param ps ex hlex hdesc hmiss
    have hp := processLine_of_directive ct env (flags ||| env.M_SETOPT_FROM_CONFIG_FILE)
      { st with line := fgetsWrite l st.line } opt param ps ex hlex
    obtain ⟨later, hl⟩ := hfin _ hp
    have htr := dispatch_trace env (flags ||| env.M_SETOPT_FROM_CONFIG_FILE)
      (nextLine { st with line := fgetsWrite l st.line }) opt param ps ex
    have hdesc1 : ¬ ((nextLine { st with line := fgetsWrite l st.line }).profile ≠ 0 ∧
        normalize (cstr opt) = bytes "profile-desc") := hdesc
    have hmiss1 : ¬ (0 < env.requires_param
        (traceAtDispatch (nextLine { st with line := fgetsWrite l st.line }) ex)
        (normalize (cstr opt)) ∧ ps = false) := hmiss
    rw [if_neg hdesc1, if_neg hmiss1] at htr
    have hprof := (dispatch_fields env (flags ||| env.M_SETOPT_FROM_CONFIG_FILE)
      (nextLine { st with line := fgetsWrite l st.line }) opt param ps ex).2.2.1
    split_ifs at htr with hneg
    · exact ⟨_, [Event.lineErr (st.line_num + 1) LineDiag.setFailed], later, hp, hprof,
        Or.inr rfl, htr, hl⟩
    · exact ⟨_, [], later, hp, hprof, Or.inl rfl, htr, hl⟩

theorem C2_setters_follow_profile_witness :
    ∃ st1 diag later,
      processLine mpCtype demoEnv (0 ||| demoEnv.M_SETOPT_FROM_CONFIG_FILE)
        { scenarioAtX with line := fgetsWrite (bytes "x=1\n") scenarioAtX.line } = some st1 ∧
      st1.profile = scenarioAtX.profile ∧
      (diag = [] ∨ diag = [Event.lineErr (scenarioAtX.line_num + 1) LineDiag.setFailed]) ∧
      st1.trace =
        diag ++
          (if scenarioAtX.profile ≠ 0 then
            Event.set_profile_option scenarioAtX.profile (normalize (cstr (bytes "x")))
              (cstr (bytes "1"))
          else
            Event.set_option_ext (normalize (cstr (bytes "x"))) (cstr (bytes "1"))
              (0 ||| demoEnv.M_SETOPT_FROM_CONFIG_FILE)) ::
          Event.requires_param (normalize (cstr (bytes "x"))) ::
          traceAtDispatch (nextLine scenarioAtX) false ∧
      Result.trace
          { ret := 1, recursion_depth := -1,
            trace := [Event.fgets,
                      Event.set_profile_option 99 (bytes "y") (bytes "2"),
                      Event.requires_param (bytes "y"),
                      Event.fgets,
                      Event.add_profile (some (bytes "b")),
                      Event.fgets,
                      Event.set_profile_option 98 (bytes "x") (bytes "1"),
                      Event.requires_param (bytes "x"),
                      Event.fgets,
                      Event.add_profile (some (bytes "a")),
                      Event.fgets,
                      Event.fopen,
                      Event.add_profile (some (bytes "default"))] } = later ++ st1.trace :=
  ((C2_setters_follow_profile mpCtype demoEnv 0 (some zeroBuf)
      (some (bytes "[a]\nx=1\n[b]\ny=2\n")) (some (bytes "default")) 0 _ (by decide)).2.1
    zeroBuf (bytes "[a]\nx=1\n[b]\ny=2\n") [bytes "[a]\n"] (bytes "x=1\n")
    [bytes "[b]\n", bytes "y=2\n"] scenarioAtX rfl rfl (by decide) (by decide) rfl
    (by decide)).2.2 (bytes "x") (bytes "1") true false (by decide) (by decide) (by decide)

/-- C2 fails for the directives that are not applied.  With a current profile
`a`, the directive `need`, which lacks the value that the registry requires,
reaches no setter.  After 16 lines `=` the directive `x=1` is not even lexed.
The directive `profile-desc=hi` under the header `[a]` sets the description
of the profile and reaches neither the registry nor a setter. -/
theorem C2_counterexample :
    m_config_parse_config_file mpCtype profileEnv 0 (some zeroBuf)
        (some (bytes "[a]\nneed\n")) none 0 =
      some { ret := 1, recursion_depth := -1,
             trace := [Event.fgets, Event.lineErr 2 LineDiag.missingParam,
                       Event.requires_param (bytes "need"), Event.fgets,
                       Event.add_profile (some (bytes "a")), Event.fgets, Event.fopen,
                       Event.add_profile none] } ∧
    (m_config_parse_config_file mpCtype demoEnv 0 (some zeroBuf)
        (some ((List.replicate 16 (bytes "=\n")).flatten ++ bytes "x=1\n"))
        (some (bytes "default")) 0).map
      (fun r => (r.ret, r.trace.filter Event.isCall, r.trace.take 3)) =
      some (-1, [Event.add_profile (some (bytes "default"))],
        [Event.errorLoading, Event.tooManyErrors, Event.fgets]) ∧
    m_config_parse_config_file mpCtype demoEnv 0 (some zeroBuf)
        (some (bytes "[a]\nprofile-desc=hi\n")) none 0 =
      some { ret := 1, recursion_depth := -1,
             trace := [Event.fgets, Event.set_desc 98 (bytes "hi"), Event.fgets,
                       Event.add_profile (some (bytes "a")), Event.fgets, Event.fopen,
                       Event.add_profile none] } := by
  decide

end ParseConfig
